import Mathlib

/-!
# LinkedIn automation: ledger, quota gate and workflow loops

A shallow embedding of the Go packages `storage` (SQLite ledger), `utils`
(business-hours check, template rendering), `connect` (`SendConnections`),
`messaging` (`SendFollowups`, `detectAccepted`), `search` (`PeopleSearch`),
`stealth` (`RandomPause`, `TypeHumanWithTypos`, `MoveHumanlike`), `auth`
(`StartSession`, `login`) and `cmd` (`Run`).

* The SQLite tables are lists of rows in insertion order.
* `time.Now()` is an input of every operation that reads the clock.
* Everything the browser page answers during one loop iteration (navigation
  result, which controls exist, click results, extracted texts, random picks,
  whether a database statement succeeds) is collected in a per-iteration record
  supplied by the environment; random draws are inputs as well.
* Whether the context is cancelled is part of what the environment answers at
  each iteration and poll tick; the code reads it only where it has a
  `ctx.Done()` check.
* The poll loop of `login` runs once per entry of the list of page states seen
  before the deadline; launching and closing the browser are recorded as events.
* Go's `int` is embedded as `Int`. A day counter only sees `val++`, far below
  `2^63`; the millisecond arithmetic of `RandomPause` and `ThinkTime` wraps
  modulo `2^64` (`wrap64`), and `rand.Intn` panics on a bound that is not
  positive, which ends the run (`RunError.crashed`).
* Pointer coordinates are `float64` values: integers counting units of
  `2^-1074`, every operation rounded to nearest, ties to even.
-/

namespace LinkedIn

/-! ## Data model -/

/-- A reading of `time.Now()`: the calendar date (what `Format("2006-01-02")`
prints, as a day number), the local hour (`Hour()`), and the offset inside the hour. -/
structure Time where
  date : Nat
  hour : Nat
  nanos : Nat
  deriving DecidableEq, Repr

/-- One row of table `connections` (the autoincrement `id` is never read). -/
structure Connection where
  profile_url : String
  name : String
  company : String
  status : String
  contacted_at : Option Time
  accepted_at : Option Time
  last_message_at : Option Time
  deriving DecidableEq, Repr

/-- One row of table `messages`. -/
structure Message where
  profile_url : String
  body : String
  sent_at : Time
  deriving DecidableEq, Repr

/-- A counter key `fmt.Sprintf("%s:%s", key, date)`: the date part has a fixed
width, so the formatted key determines the pair. -/
abbrev CounterKey := String × Nat

/-- The database behind `storage.Store`: the three tables of `ensureSchema`. -/
structure Store where
  connections : List Connection
  messages : List Message
  counters : List (CounterKey × Int)
  deriving DecidableEq, Repr

/-- A failed database statement (`database/sql` returned a non-nil error). -/
inductive StorageError where
  | dbFault
  deriving DecidableEq, Repr

/-- The database right after `ensureSchema` on a new file. -/
def emptyStore : Store := ⟨[], [], []⟩

/-! ## storage/state.go -/

/-- `SELECT value FROM counters WHERE key = ?`: the value of the first row with
that key, if any. -/
def selectCounter (key : CounterKey) : List (CounterKey × Int) → Option Int
  | [] => none
  | (k, v) :: rest => if k = key then some v else selectCounter key rest

/-- `UPDATE counters SET value=? WHERE key=?`. -/
def updateCounter (key : CounterKey) (val : Int) : List (CounterKey × Int) → List (CounterKey × Int)
  | [] => []
  | (k, v) :: rest => (k, if k = key then val else v) :: updateCounter key val rest

/-- `IncrementDailyCounter`: in one transaction, insert value 1 when the row of
`key:today` is absent, else store `val + 1`; returns the stored value. A failing
call stores nothing. In the source a failing `INSERT` or `UPDATE` is assigned to
the `err` scoped to the `switch`, so that call still returns `(val, nil)` with
nothing stored; both results are discarded by every caller, and the failure
modes are one here. -/
def IncrementDailyCounter (s : Store) (key : String) (now : Time) (dbOk : Bool) :
    Except StorageError (Store × Int) :=
  if dbOk then
    let todayKey : CounterKey := (key, now.date)
    match selectCounter todayKey s.counters with
    | none => .ok ({ s with counters := s.counters ++ [(todayKey, 1)] }, 1)
    | some val => .ok ({ s with counters := updateCounter todayKey (val + 1) s.counters }, val + 1)
  else .error .dbFault

/-- `GetDailyCounter`: the value stored under `key:today`, 0 when there is no row. -/
def GetDailyCounter (s : Store) (key : String) (now : Time) (dbOk : Bool) :
    Except StorageError Int :=
  if dbOk then
    match selectCounter (key, now.date) s.counters with
    | none => .ok 0
    | some val => .ok val
  else .error .dbFault

/-- The value a caller holds after `c, _ := store.GetDailyCounter(key)`: on an
error `Scan` has not written `val`, so the caller sees 0. -/
def readCounter (s : Store) (key : String) (now : Time) (dbOk : Bool) : Int :=
  match GetDailyCounter s key now dbOk with
  | .ok v => v
  | .error _ => 0

/-- `SaveConnection`: `INSERT ... ON CONFLICT(profile_url) DO UPDATE SET
status=excluded.status`. -/
def SaveConnection (s : Store) (profileURL name company status : String) (now : Time)
    (dbOk : Bool) : Except StorageError Store :=
  if dbOk then
    if s.connections.any (fun r => r.profile_url == profileURL) then
      let setStatus : Connection → Connection :=
        fun r => if r.profile_url = profileURL then { r with status := status } else r
      .ok { s with connections := s.connections.map setStatus }
    else
      .ok { s with connections := s.connections ++
              [⟨profileURL, name, company, status, some now, none, none⟩] }
  else .error .dbFault

/-- `MarkAccepted`: `UPDATE connections SET status='accepted', accepted_at=?
WHERE profile_url=?`. -/
def MarkAccepted (s : Store) (profileURL : String) (now : Time) (dbOk : Bool) :
    Except StorageError Store :=
  if dbOk then
    let accept : Connection → Connection :=
      fun r => if r.profile_url = profileURL
               then { r with status := "accepted", accepted_at := some now } else r
    .ok { s with connections := s.connections.map accept }
  else .error .dbFault

/-- `SaveMessage`: insert the message row (an error here is returned), then
update `last_message_at` of the profile (an error here is dropped). -/
def SaveMessage (s : Store) (profileURL body : String) (now now2 : Time)
    (insertOk updateOk : Bool) : Except StorageError Store :=
  if insertOk then
    let s1 : Store := { s with messages := s.messages ++ [⟨profileURL, body, now⟩] }
    if updateOk then
      let stamp : Connection → Connection :=
        fun r => if r.profile_url = profileURL then { r with last_message_at := some now2 } else r
      .ok { s1 with connections := s1.connections.map stamp }
    else .ok s1
  else .error .dbFault

/-- `PendingFollowups`: `SELECT profile_url FROM connections WHERE status='accepted'`.
The failure is that of the query or of a `Scan`; the source does not look at
`rows.Err()`, and an iteration cut short is not part of the model. -/
def PendingFollowups (s : Store) (dbOk : Bool) : Except StorageError (List String) :=
  if dbOk then
    .ok ((s.connections.filter (fun r => r.status == "accepted")).map (fun r => r.profile_url))
  else .error .dbFault

/-- `RequestedConnections`: `SELECT profile_url FROM connections WHERE status='requested'`,
with the same failures as `PendingFollowups`. -/
def RequestedConnections (s : Store) (dbOk : Bool) : Except StorageError (List String) :=
  if dbOk then
    .ok ((s.connections.filter (fun r => r.status == "requested")).map (fun r => r.profile_url))
  else .error .dbFault

/-- The store a caller continues with after `_ = store.Op(...)`: the new one on
success, the old one when the statement failed. -/
def keepOnError (s : Store) (r : Except StorageError Store) : Store :=
  match r with
  | .ok s1 => s1
  | .error _ => s

/-- The store after `_, _ = store.IncrementDailyCounter(key)`. -/
def afterIncrement (s : Store) (key : String) (now : Time) (dbOk : Bool) : Store :=
  match IncrementDailyCounter s key now dbOk with
  | .ok (s1, _) => s1
  | .error _ => s

/-! ## utils/helpers.go -/

/-- `NowInBusinessHours`: `h >= start && h < end` for `h := time.Now().Hour()`. -/
def NowInBusinessHours (start stop : Int) (now : Time) : Bool :=
  decide ((now.hour : Int) ≥ start) && decide ((now.hour : Int) < stop)

/-- `RandomChoice`: the empty string for an empty slice, else the item at the
index `rand.Intn(len(items))`, here the draw `pick` reduced modulo the length. -/
def RandomChoice (items : List String) (pick : Nat) : String :=
  if items.length = 0 then "" else items.getD (pick % items.length) ""

/-- Whether `pat` starts the character list. -/
def startsWith : List Char → List Char → Bool
  | [], _ => true
  | _ :: _, [] => false
  | p :: ps, c :: cs => p == c && startsWith ps cs

/-- Left-to-right replacement of the non-overlapping occurrences of a non-empty
`old`; `skip` counts the characters of a matched occurrence still to be dropped. -/
def replaceAllAux (old new : List Char) : Nat → List Char → List Char
  | _, [] => []
  | skip + 1, _ :: cs => replaceAllAux old new skip cs
  | 0, c :: cs =>
    if startsWith old (c :: cs) then new ++ replaceAllAux old new (old.length - 1) cs
    else c :: replaceAllAux old new 0 cs

/-- `strings.ReplaceAll(s, old, new)` for a non-empty `old`. -/
def ReplaceAll (s old new : String) : String :=
  String.mk (replaceAllAux old.data new.data 0 s.data)

/-- `Template`: for each entry `k, v` of the map, in the order the `range` loop
visits them, replace every occurrence of `{k}` in the text built so far by `v`. -/
def Template (tmpl : String) (data : List (String × String)) : String :=
  data.foldl (fun out kv => ReplaceAll out ("\x7b" ++ kv.1 ++ "\x7d") kv.2) tmpl

/-! ## stealth/timing.go -/

/-- Go's `int` on a 64-bit target: the value an arithmetic result has after
two's-complement wrap-around. -/
def wrap64 (n : Int) : Int := (n + 2 ^ 63) % 2 ^ 64 - 2 ^ 63

/-- `rand.Intn(n)`: panics (`none`) for `n <= 0`, else a value of `[0, n)`, here
the outcome `draw` of the generator reduced modulo `n`. -/
def randIntn (n : Int) (draw : Nat) : Option Int :=
  if n ≤ 0 then none else some ((draw : Int) % n)

/-- `RandomPause`: the `time.Duration` (nanoseconds) handed to `time.Sleep`,
`none` when a `rand.Intn` call panics. Every `int` operation wraps. -/
def RandomPause (minMs maxMs jitterMs : Int) (draw1 draw2 : Nat) : Option Int :=
  let maxMs := if maxMs ≤ minMs then wrap64 (minMs + 50) else maxMs
  match randIntn (wrap64 (maxMs - minMs)) draw1 with
  | none => none
  | some a =>
    let delay := wrap64 (minMs + a)
    match randIntn (wrap64 (jitterMs + 1)) draw2 with
    | none => none
    | some b => some (wrap64 (wrap64 (delay + b) * 1000000))

/-- `ThinkTime`: the `time.Duration` handed to `time.Sleep`, `none` when
`rand.Intn(baseMs/2 + 200)` panics; `/` truncates towards zero. -/
def ThinkTime (baseMs : Int) (draw : Nat) : Option Int :=
  match randIntn (wrap64 (Int.tdiv baseMs 2 + 200)) draw with
  | none => none
  | some extra => some (wrap64 (wrap64 (baseMs + extra) * 1000000))

/-! ## Workflow: configuration, events, environment -/

/-- The fields of `config.Config` the phases read: the two limits, the business
hours, the message templates, and the humanization delays `min_delay_ms`,
`max_delay_ms`, `jitter_ms`, `think_time_ms`. -/
structure Config where
  DailyConnections : Int
  DailyMessages : Int
  BusinessHoursStart : Int
  BusinessHoursEnd : Int
  Templates : List String
  MinDelayMs : Int
  MaxDelayMs : Int
  JitterMs : Int
  ThinkTimeMs : Int
  deriving DecidableEq, Repr

/-- How a phase ends other than with `nil`: the error it returns, or `crashed`
when a call panics (`rand.Intn` with a non-positive argument) and nothing is
returned. -/
inductive RunError where
  | cancelled
  | storage (e : StorageError)
  | navigation
  | crashed
  deriving DecidableEq, Repr

/-- Observable effects of a phase, tagged with the URL being processed. -/
inductive Event where
  | navigate (url : String) (ok : Bool)
  | scroll (url : String)
  | wander (url : String)
  | move (url control : String)
  | click (url control : String) (ok : Bool)
  | typeText (url element body : String) (ok : Bool)
  | cooldown (seconds : Nat)
  | pause (url : String)
  | logInfo (msg url : String)
  deriving DecidableEq, Repr

/-- How a loop iteration ends: fall through to the next candidate (also after
`continue`), or `return` with the given error. -/
inductive Flow where
  | next
  | ret (err : Option RunError)
  deriving DecidableEq, Repr

/-- Result of a loop or phase. -/
structure Outcome where
  store : Store
  trace : List Event
  err : Option RunError
  deriving DecidableEq, Repr

/-- The template data `map[string]string{"name": name, "company": company}` in
the order the `range` loop of `Template` happens to visit it. -/
def templateData (name company : String) (nameFirst : Bool) : List (String × String) :=
  if nameFirst then [("name", name), ("company", company)]
  else [("company", company), ("name", name)]

/-- Everything the environment answers during one iteration of the loop of
`SendConnections`: context state, clock readings, page answers, random picks and
database statement results. -/
structure ConnectPage where
  cancelled : Bool
  tGate : Time
  navigateOk : Bool
  bodyWide : Bool
  connectFound : Bool
  connectClickOk : Bool
  addNoteFound : Bool
  noteClickOk : Bool
  textAreaFound : Bool
  noteName : String
  noteCompany : String
  pick : Nat
  nameFirst : Bool
  noteTypeOk : Bool
  sendFound : Bool
  sendClickOk : Bool
  tIncr : Time
  incrOk : Bool
  name : String
  company : String
  tSave : Time
  saveOk : Bool
  tRead : Time
  readOk : Bool
  pauseDraw1 : Nat
  pauseDraw2 : Nat
  thinkDraw : Nat
  deriving DecidableEq, Repr

/-! ## connect/connect.go -/

/-- Lines 67-80 of `SendConnections`: the optional note. -/
def noteEvents (cfg : Config) (url : String) (pg : ConnectPage) : List Event :=
  if pg.addNoteFound then
    Event.click url "Add a note" pg.noteClickOk ::
      (if pg.textAreaFound then
        [Event.typeText url "textarea"
          (Template (RandomChoice cfg.Templates pg.pick)
            (templateData pg.noteName pg.noteCompany pg.nameFirst)) pg.noteTypeOk]
       else [])
  else []

/-- Lines 82-84 of `SendConnections`: click `Send` when it is found; the click
result is dropped. -/
def sendEvents (url : String) (found clickOk : Bool) : List Event :=
  if found then [Event.click url "Send" clickOk] else []

/-- Lines 86-87 of `SendConnections`: increment the day counter, then upsert
the profile; both results are dropped. -/
def connectWrites (s : Store) (url : String) (pg : ConnectPage) : Store :=
  let s1 := afterIncrement s "connections" pg.tIncr pg.incrOk
  keepOnError s1 (SaveConnection s1 url pg.name pg.company "requested" pg.tSave pg.saveOk)

/-- Lines 95-96 of `SendConnections`: `RandomPause` and `ThinkTime` both return. -/
def connectPause (cfg : Config) (pg : ConnectPage) : Bool :=
  (RandomPause cfg.MinDelayMs cfg.MaxDelayMs cfg.JitterMs pg.pauseDraw1 pg.pauseDraw2).isSome
    && (ThinkTime cfg.ThinkTimeMs pg.thinkDraw).isSome

/-- One iteration of the `for` loop of `SendConnections` (lines 30-97); the
event `pause` stands for the two sleeps of lines 95-96, and a panic in one of
them ends the loop as `crashed`. -/
def connectIteration (cfg : Config) (s : Store) (url : String) (pg : ConnectPage) :
    Store × List Event × Flow :=
  if pg.cancelled then (s, [], .ret (some .cancelled))
  else if !NowInBusinessHours cfg.BusinessHoursStart cfg.BusinessHoursEnd pg.tGate then
    (s, [.cooldown 300], .next)
  else if !pg.navigateOk then (s, [.navigate url false], .next)
  else
    let ev1 : List Event :=
      [.navigate url true, .scroll url] ++ (if pg.bodyWide then [.wander url] else [])
    if !pg.connectFound then (s, ev1, .next)
    else if !pg.connectClickOk then
      (s, ev1 ++ [.move url "Connect", .click url "Connect" false], .next)
    else
      let ev2 : List Event :=
        ev1 ++ [.move url "Connect", .click url "Connect" true] ++ noteEvents cfg url pg
          ++ sendEvents url pg.sendFound pg.sendClickOk
      let s2 := connectWrites s url pg
      let ev3 := ev2 ++ [.logInfo "connection sent" url]
      if readCounter s2 "connections" pg.tRead pg.readOk ≥ cfg.DailyConnections then
        (s2, ev3, .ret none)
      else if connectPause cfg pg then (s2, ev3 ++ [.pause url], .next)
      else (s2, ev3, .ret (some .crashed))

/-- The `for _, profileURL := range profiles` loop of `SendConnections`; `i` is
the index of the first remaining candidate and `env i` the environment of its
iteration. -/
def connectLoop (cfg : Config) (env : Nat → ConnectPage) : Nat → Store → List String → Outcome
  | _, s, [] => ⟨s, [], none⟩
  | i, s, url :: rest =>
    match connectIteration cfg s url (env i) with
    | (s1, ev, .ret e) => ⟨s1, ev, e⟩
    | (s1, ev, .next) =>
      let o := connectLoop cfg env (i + 1) s1 rest
      ⟨o.store, ev ++ o.trace, o.err⟩

/-- `SendConnections`: the quota check before the loop (clock reading `t0`,
statement result `ok0`), then the loop. -/
def SendConnections (cfg : Config) (t0 : Time) (ok0 : Bool) (env : Nat → ConnectPage)
    (s : Store) (profiles : List String) : Outcome :=
  if readCounter s "connections" t0 ok0 ≥ cfg.DailyConnections then ⟨s, [], none⟩
  else connectLoop cfg env 0 s profiles

/-! ## messaging/followup.go -/

/-- Everything the environment answers during one iteration of the loop of
`detectAccepted`. -/
structure AcceptPage where
  cancelled : Bool
  navigateOk : Bool
  messageFound : Bool
  tMark : Time
  markOk : Bool
  deriving DecidableEq, Repr

/-- Everything the environment answers during one iteration of the second loop
of `SendFollowups`. -/
structure FollowPage where
  cancelled : Bool
  navigateOk : Bool
  messageFound : Bool
  messageClickOk : Bool
  editorFound : Bool
  name : String
  company : String
  pick : Nat
  nameFirst : Bool
  typeOk : Bool
  sendFound : Bool
  sendClickOk : Bool
  tIncr : Time
  incrOk : Bool
  tMsg : Time
  tMsg2 : Time
  insertOk : Bool
  updateOk : Bool
  tRead : Time
  readOk : Bool
  pauseDraw1 : Nat
  pauseDraw2 : Nat
  deriving DecidableEq, Repr

/-- The environment of one `SendFollowups` call. -/
structure FollowEnv where
  requestedOk : Bool
  accept : Nat → AcceptPage
  pendingOk : Bool
  t0 : Time
  ok0 : Bool
  follow : Nat → FollowPage

/-- One iteration of the loop of `detectAccepted` (lines 98-111). -/
def acceptIteration (s : Store) (url : String) (pg : AcceptPage) : Store × List Event × Flow :=
  if pg.cancelled then (s, [], .ret (some .cancelled))
  else if !pg.navigateOk then (s, [.navigate url false], .next)
  else if pg.messageFound then
    (keepOnError s (MarkAccepted s url pg.tMark pg.markOk),
      [.navigate url true, .logInfo "accepted connection detected" url], .next)
  else (s, [.navigate url true], .next)

/-- The loop of `detectAccepted` over the requested URLs. -/
def acceptLoop (env : Nat → AcceptPage) : Nat → Store → List String → Outcome
  | _, s, [] => ⟨s, [], none⟩
  | i, s, url :: rest =>
    match acceptIteration s url (env i) with
    | (s1, ev, .ret e) => ⟨s1, ev, e⟩
    | (s1, ev, .next) =>
      let o := acceptLoop env (i + 1) s1 rest
      ⟨o.store, ev ++ o.trace, o.err⟩

/-- `detectAccepted`: read the requested URLs once, then probe each of them. -/
def detectAccepted (requestedOk : Bool) (env : Nat → AcceptPage) (s : Store) : Outcome :=
  match RequestedConnections s requestedOk with
  | .error e => ⟨s, [], some (.storage e)⟩
  | .ok requested => acceptLoop env 0 s requested

/-- The body `SendFollowups` renders for a profile (lines 65-70). -/
def followBody (cfg : Config) (pg : FollowPage) : String :=
  Template (RandomChoice cfg.Templates pg.pick) (templateData pg.name pg.company pg.nameFirst)

/-- Lines 78-79 of `SendFollowups`: increment the day counter, then record the
message; both results are dropped. -/
def followWrites (cfg : Config) (s : Store) (url : String) (pg : FollowPage) : Store :=
  let s1 := afterIncrement s "messages" pg.tIncr pg.incrOk
  keepOnError s1 (SaveMessage s1 url (followBody cfg pg) pg.tMsg pg.tMsg2 pg.insertOk pg.updateOk)

/-- Line 87 of `SendFollowups`: `RandomPause` returns. -/
def followPause (cfg : Config) (pg : FollowPage) : Bool :=
  (RandomPause cfg.MinDelayMs cfg.MaxDelayMs cfg.JitterMs pg.pauseDraw1 pg.pauseDraw2).isSome

/-- One iteration of the second loop of `SendFollowups` (lines 38-88); a panic
in the `RandomPause` of line 87 ends the loop as `crashed`. -/
def followIteration (cfg : Config) (s : Store) (url : String) (pg : FollowPage) :
    Store × List Event × Flow :=
  if pg.cancelled then (s, [], .ret (some .cancelled))
  else if !pg.navigateOk then (s, [.navigate url false], .next)
  else if !pg.messageFound then (s, [.navigate url true], .next)
  else
    let ev1 : List Event :=
      [.navigate url true, .move url "Message", .click url "Message" pg.messageClickOk]
    if !pg.editorFound then (s, ev1, .next)
    else
      let body := followBody cfg pg
      if !pg.typeOk then (s, ev1 ++ [.typeText url "textbox" body false], .next)
      else
        let ev2 : List Event :=
          ev1 ++ [.typeText url "textbox" body true] ++ sendEvents url pg.sendFound pg.sendClickOk
        let s2 := followWrites cfg s url pg
        let ev3 := ev2 ++ [.logInfo "follow-up sent" url]
        if readCounter s2 "messages" pg.tRead pg.readOk ≥ cfg.DailyMessages then
          (s2, ev3, .ret none)
        else if followPause cfg pg then (s2, ev3 ++ [.pause url], .next)
        else (s2, ev3, .ret (some .crashed))

/-- The `for _, profileURL := range pending` loop of `SendFollowups`. -/
def followLoop (cfg : Config) (env : Nat → FollowPage) : Nat → Store → List String → Outcome
  | _, s, [] => ⟨s, [], none⟩
  | i, s, url :: rest =>
    match followIteration cfg s url (env i) with
    | (s1, ev, .ret e) => ⟨s1, ev, e⟩
    | (s1, ev, .next) =>
      let o := followLoop cfg env (i + 1) s1 rest
      ⟨o.store, ev ++ o.trace, o.err⟩

/-- The part of `SendFollowups` after `detectAccepted` (lines 27-89): read the
pending URLs, check the quota, run the loop. -/
def sendPending (cfg : Config) (env : FollowEnv) (s : Store) : Outcome :=
  match PendingFollowups s env.pendingOk with
  | .error e => ⟨s, [], some (.storage e)⟩
  | .ok pending =>
    if readCounter s "messages" env.t0 env.ok0 ≥ cfg.DailyMessages then ⟨s, [], none⟩
    else followLoop cfg env.follow 0 s pending

/-- `SendFollowups`: `detectAccepted`, and unless it returned an error, the
follow-up sweep. -/
def SendFollowups (cfg : Config) (env : FollowEnv) (s : Store) : Outcome :=
  let d := detectAccepted env.requestedOk env.accept s
  match d.err with
  | some e => ⟨d.store, d.trace, some e⟩
  | none =>
    let o := sendPending cfg env d.store
    ⟨o.store, d.trace ++ o.trace, o.err⟩

/-! ## Observations used in the statements -/

/-- The value stored for `kind` on day `date`, 0 when there is no row: what
`GetDailyCounter` reads on that day. -/
def counterAt (s : Store) (kind : String) (date : Nat) : Int :=
  (selectCounter (kind, date) s.counters).getD 0

/-- A call of a client of the day counters of one kind. -/
inductive CounterCall where
  | increment (now : Time)
  | get (now : Time)
  deriving DecidableEq, Repr

/-- Whether the call is an increment. -/
def CounterCall.isIncrement : CounterCall → Bool
  | .increment _ => true
  | .get _ => false

/-- The clock reading of the call. -/
def CounterCall.now : CounterCall → Time
  | .increment t => t
  | .get t => t

/-- A client issuing the calls in order on a working database; each call is
paired with the value it returned. -/
def runCounterCalls (kind : String) : Store → List CounterCall → Store × List (CounterCall × Int)
  | s, [] => (s, [])
  | s, .increment t :: rest =>
    match IncrementDailyCounter s kind t true with
    | .ok (s1, v) =>
      let r := runCounterCalls kind s1 rest
      (r.1, (.increment t, v) :: r.2)
    | .error _ => (s, [])
  | s, .get t :: rest =>
    match GetDailyCounter s kind t true with
    | .ok v =>
      let r := runCounterCalls kind s rest
      (r.1, (.get t, v) :: r.2)
    | .error _ => (s, [])

/-- The profile URLs of table `connections`, in row order. -/
def profileURLs (s : Store) : List String :=
  s.connections.map (fun r => r.profile_url)

/-- The values returned by the increment calls of a run, in call order. -/
def incrementResults (rs : List (CounterCall × Int)) : List Int :=
  (rs.filter (fun r => r.1.isIncrement)).map (fun r => r.2)

/-- A client that increments, reads, and increments twice more on day 100. -/
def demoCalls : List CounterCall :=
  [.increment ⟨100, 9, 0⟩, .get ⟨100, 9, 5⟩, .increment ⟨100, 10, 0⟩, .increment ⟨100, 23, 0⟩]

/-- A ledger with one accepted profile `u1` and one requested profile `u2`,
both contacted on day 100. -/
def demoLedger : Store :=
  { connections :=
      [⟨"u1", "Ann", "Acme", "accepted", some ⟨100, 10, 0⟩, some ⟨100, 15, 0⟩, none⟩,
       ⟨"u2", "Cy", "Globex", "requested", some ⟨100, 11, 0⟩, none, none⟩],
    messages := [],
    counters := [(("connections", 100), 2)] }

/-- The iteration of `SendConnections` gets as far as a successful click on
`Connect`: not cancelled, inside business hours, navigation succeeded, the
control was found and the click returned no error. -/
def ConnectPage.acts (cfg : Config) (pg : ConnectPage) : Bool :=
  !pg.cancelled && NowInBusinessHours cfg.BusinessHoursStart cfg.BusinessHoursEnd pg.tGate
    && pg.navigateOk && pg.connectFound && pg.connectClickOk

/-- The iteration of the second loop of `SendFollowups` gets as far as a typed
message: not cancelled, navigation succeeded, `Message` and the editor were
found and typing returned no error. -/
def FollowPage.acts (pg : FollowPage) : Bool :=
  !pg.cancelled && pg.navigateOk && pg.messageFound && pg.editorFound && pg.typeOk

/-- A successful click on `Connect`. -/
def Event.isConnect : Event → Bool
  | .click _ control ok => control == "Connect" && ok
  | _ => false

/-- A follow-up message typed into the message editor. -/
def Event.isFollowup : Event → Bool
  | .typeText _ element _ ok => element == "textbox" && ok
  | _ => false

/-- Number of connect actions in a trace. -/
def connectsPerformed (tr : List Event) : Nat := tr.countP Event.isConnect

/-- Number of follow-ups in a trace. -/
def followupsPerformed (tr : List Event) : Nat := tr.countP Event.isFollowup

/-- During this iteration the counter statements succeed and the clock shows
day `d` when the counter key is formed. -/
def ConnectPage.countersOn (d : Nat) (pg : ConnectPage) : Prop :=
  pg.incrOk = true ∧ pg.readOk = true ∧ pg.tIncr.date = d ∧ pg.tRead.date = d

/-- During this iteration the counter statements succeed and the clock shows
day `d` when the counter key is formed. -/
def FollowPage.countersOn (d : Nat) (pg : FollowPage) : Prop :=
  pg.incrOk = true ∧ pg.readOk = true ∧ pg.tIncr.date = d ∧ pg.tRead.date = d

/-- A clock reading on day 100 at the given hour. -/
def day100 (h : Nat) : Time := ⟨100, h, 0⟩

/-- A configuration with caps 3 and 2, business hours 9 to 17 and the default
delays of `applyDefaults`. -/
def demoCfg : Config := ⟨3, 2, 9, 17, ["hello {name}, from {company}"], 500, 1800, 400, 900⟩

/-- A candidate page at 10 o'clock on day 100 that offers every control, with
every click and every database statement succeeding. -/
def goodPage : ConnectPage :=
  { cancelled := false, tGate := day100 10, navigateOk := true, bodyWide := true,
    connectFound := true, connectClickOk := true, addNoteFound := true, noteClickOk := true,
    textAreaFound := true, noteName := "Ann", noteCompany := "Acme", pick := 0,
    nameFirst := true, noteTypeOk := true, sendFound := true, sendClickOk := true,
    tIncr := day100 10, incrOk := true, name := "Ann", company := "Acme",
    tSave := day100 10, saveOk := true, tRead := day100 10, readOk := true,
    pauseDraw1 := 0, pauseDraw2 := 0, thinkDraw := 0 }

/-- A profile page whose probe finds the `Message` control, at 3 o'clock on day 100. -/
def goodAccept : AcceptPage :=
  { cancelled := false, navigateOk := true, messageFound := true, tMark := day100 3,
    markOk := true }

/-- A profile page at 3 o'clock on day 100 on which the whole follow-up succeeds. -/
def goodFollow : FollowPage :=
  { cancelled := false, navigateOk := true, messageFound := true, messageClickOk := true,
    editorFound := true, name := "Ann", company := "Acme", pick := 0, nameFirst := true,
    typeOk := true, sendFound := true, sendClickOk := true, tIncr := day100 3, incrOk := true,
    tMsg := day100 3, tMsg2 := day100 3, insertOk := true, updateOk := true,
    tRead := day100 3, readOk := true, pauseDraw1 := 0, pauseDraw2 := 0 }

/-- An environment at 3 o'clock on day 100 in which every page cooperates. -/
def goodFollowEnv : FollowEnv :=
  { requestedOk := true, accept := fun _ => goodAccept, pendingOk := true, t0 := day100 3,
    ok0 := true, follow := fun _ => goodFollow }

/-- The URLs on which a successful click on `Connect` happened, in trace order. -/
def connectTargets (tr : List Event) : List String :=
  tr.filterMap (fun e =>
    match e with
    | .click url control ok => if control == "Connect" && ok then some url else none
    | _ => none)

/-- The rows of table `connections` stored for a profile URL. -/
def rowsOf (s : Store) (url : String) : List Connection :=
  s.connections.filter (fun r => r.profile_url == url)

/-- Ten candidate URLs. -/
def tenProfiles : List String := ["p0", "p1", "p2", "p3", "p4", "p5", "p6", "p7", "p8", "p9"]

/-- A configuration with caps 10 and 10, business hours 9 to 17 and the default
delays. -/
def roomyCfg : Config := ⟨10, 10, 9, 17, ["hello {name}, from {company}"], 500, 1800, 400, 900⟩

/-- The page `goodPage` without a `Send` control. -/
def noSendPage : ConnectPage := { goodPage with sendFound := false }

/-- The page `goodFollow` without a `Send` control. -/
def noSendFollow : FollowPage := { goodFollow with sendFound := false }

/-- The environment `goodFollowEnv` with no `Send` control on any page. -/
def noSendFollowEnv : FollowEnv := { goodFollowEnv with follow := fun _ => noSendFollow }

/-- The message rows recorded for a profile URL. -/
def messagesTo (s : Store) (url : String) : List Message :=
  s.messages.filter (fun m => m.profile_url == url)

/-- Number of profile rows whose `contacted_at` falls on day `d`. -/
def contactedOn (s : Store) (d : Nat) : Nat :=
  s.connections.countP (fun r => r.contacted_at.map Time.date == some d)

/-- Number of message rows whose `sent_at` falls on day `d`. -/
def sentOn (s : Store) (d : Nat) : Nat :=
  s.messages.countP (fun m => m.sent_at.date == d)

/-- The page `goodPage` on which the click on `Send` returns an error. -/
def failSendPage : ConnectPage := { goodPage with sendClickOk := false }

/-- The configuration `applyDefaults` produces when `business_hours` and the
limits are left unset: caps 10 and 8, business hours start = end = 0, the
default delays. -/
def unsetHoursCfg : Config :=
  ⟨10, 8, 0, 0, ["hello {name}, from {company}"], 500, 1800, 400, 900⟩

/-- The page `goodPage` during which reading the day counter fails. -/
def blindPage : ConnectPage := { goodPage with readOk := false }

/-- The page `goodPage` during which incrementing the day counter fails. -/
def stuckPage : ConnectPage := { goodPage with incrOk := false }

/-- The environment `goodFollowEnv` in which every message insert fails. -/
def lostInsertEnv : FollowEnv :=
  { goodFollowEnv with follow := fun _ => { goodFollow with insertOk := false } }

/-- The environment `goodFollowEnv` in which `RequestedConnections` fails. -/
def noRequestedEnv : FollowEnv := { goodFollowEnv with requestedOk := false }

/-! ## search/people_search.go -/

/-- Everything the environment answers during one page of `PeopleSearch`: the
state of the context (which the function never reads), the navigation result,
whether the element lookup succeeds, and for each link found its `href`
(`none` when `Attribute` fails or returns nil), and the two random draws of
`RandomPause`. -/
structure SearchPage where
  cancelled : Bool
  navigateOk : Bool
  elementsOk : Bool
  hrefs : List (Option String)
  pauseDraw1 : Nat
  pauseDraw2 : Nat
  deriving DecidableEq, Repr

/-- Result of `PeopleSearch`: the returned slice, the browser effects, the error. -/
structure SearchOutcome where
  results : List String
  trace : List Event
  err : Option RunError
  deriving DecidableEq, Repr

/-- The body of the inner loop over `links` (lines 43-51): skip a missing href
and an href already in `seen`, else add it to `seen` and append it to `results`. -/
def collectLink (acc : List String × List String) (href : Option String) :
    List String × List String :=
  match href with
  | none => acc
  | some h => if h ∈ acc.1 then acc else (h :: acc.1, acc.2 ++ [h])

/-- The search URL of page `p`; `base` is the part up to the page number, built
from `cfg.BaseURL` and the escaped keywords. -/
def searchURL (base : String) (p : Nat) : String :=
  base ++ "&page=" ++ toString p

/-- Line 34 of `PeopleSearch`: `RandomPause` returns. -/
def searchPause (cfg : Config) (pg : SearchPage) : Bool :=
  (RandomPause cfg.MinDelayMs cfg.MaxDelayMs cfg.JitterMs pg.pauseDraw1 pg.pauseDraw2).isSome

/-- The `for p := 1; p <= pages; p++` loop of `PeopleSearch`, with `remaining`
pages still to visit, the next one being `p`; a panic in the `RandomPause` of
line 34 ends the loop as `crashed`. The counter is a natural number: with
`pages` the largest `int` the `p++` of the source would wrap and the loop not
end, which this loop does not show. -/
def searchLoop (cfg : Config) (base : String) (env : Nat → SearchPage) :
    Nat → Nat → List String → List String → SearchOutcome
  | 0, _, _, results => ⟨results, [], none⟩
  | remaining + 1, p, seen, results =>
    if !(env p).navigateOk then
      ⟨results, [.navigate (searchURL base p) false], some .navigation⟩
    else if !searchPause cfg (env p) then
      ⟨results, [.navigate (searchURL base p) true], some .crashed⟩
    else
      let ev : List Event :=
        [.navigate (searchURL base p) true, .pause (searchURL base p), .scroll (searchURL base p)]
      if !(env p).elementsOk then
        let o := searchLoop cfg base env remaining (p + 1) seen results
        ⟨o.results, ev ++ o.trace, o.err⟩
      else
        let acc := (env p).hrefs.foldl collectLink (seen, results)
        let o := searchLoop cfg base env remaining (p + 1) acc.1 acc.2
        ⟨o.results, ev ++ o.trace, o.err⟩

/-- The number of pages `PeopleSearch` visits: `pagination_pages`, or 1 when that
is not positive. -/
def effectivePages (paginationPages : Int) : Nat :=
  if paginationPages ≤ 0 then 1 else paginationPages.toNat

/-- `PeopleSearch`: visit pages `1..pages`, collecting hrefs not seen before. -/
def PeopleSearch (cfg : Config) (base : String) (paginationPages : Int)
    (env : Nat → SearchPage) : SearchOutcome :=
  searchLoop cfg base env (effectivePages paginationPages) 1 [] []

/-- The hrefs a page contributes: those of its links that have one, nothing when
the element lookup fails. -/
def pageHrefs (pg : SearchPage) : List String :=
  if pg.elementsOk then pg.hrefs.filterMap id else []

/-- The hrefs of `count` consecutive pages starting at page `p`, concatenated in
page order. -/
def collectedHrefs (env : Nat → SearchPage) : Nat → Nat → List String
  | 0, _ => []
  | count + 1, p => pageHrefs (env p) ++ collectedHrefs env count (p + 1)

/-- Append `x` unless it is already present. -/
def appendNew (acc : List String) (x : String) : List String :=
  if x ∈ acc then acc else acc ++ [x]

/-- Three result pages: duplicates within and across pages, a link without
href, and a second page whose element lookup fails. -/
def demoSearch : Nat → SearchPage
  | 1 => ⟨false, true, true, [some "a", some "b", none, some "a"], 0, 0⟩
  | 2 => ⟨false, true, false, [some "x"], 0, 0⟩
  | _ => ⟨false, true, true, [some "b", some "c", some "a", some "d"], 0, 0⟩

/-! ## stealth/typing.go -/

/-- The text `"\b"` of the correction call `el.Input("\b")`. -/
def backspaceKey : String := "\x08"

/-- What the environment answers while one character is typed: whether the
first `el.Input` call succeeds, and the outcome of `rand.Intn(10)`. -/
structure TypingStep where
  inputOk : Bool
  draw : Nat
  deriving DecidableEq, Repr

/-- The error `TypeHumanWithTypos` returns when `el.Input` fails. -/
inductive TypingError where
  | inputFailed
  deriving DecidableEq, Repr

/-- `TypeHumanWithTypos` on the characters of the text: the texts handed to
`el.Input`, in call order, and the returned error. For each character: input it
(an error is returned), then with `rand.Intn(10) == 0` input a backspace and
the character again (errors dropped). `i` is the index of the next character. -/
def typeChars (env : Nat → TypingStep) : Nat → List Char → List String × Option TypingError
  | _, [] => ([], none)
  | i, ch :: rest =>
    if !(env i).inputOk then ([String.singleton ch], some .inputFailed)
    else
      let correction : List String :=
        if (env i).draw % 10 = 0 then [backspaceKey, String.singleton ch] else []
      let r := typeChars env (i + 1) rest
      (String.singleton ch :: correction ++ r.1, r.2)

/-- `TypeHumanWithTypos(el, text)`; a Lean string is a sequence of Unicode
characters, as the `range` loop over a valid UTF-8 string sees it. -/
def TypeHumanWithTypos (env : Nat → TypingStep) (text : String) :
    List String × Option TypingError :=
  typeChars env 0 text.data

/-- The accumulating sink: a backspace removes the last character, any other
key text is appended. -/
def sinkStep (acc : List Char) (key : String) : List Char :=
  if key = backspaceKey then acc.dropLast else acc ++ key.data

/-- The text the sink holds after the keys, starting empty. -/
def sinkText (keys : List String) : String :=
  String.mk (keys.foldl sinkStep [])

/-- A typing environment in which every input succeeds and every third
character is corrected. -/
def demoTyping (i : Nat) : TypingStep := ⟨true, if i % 3 = 0 then 0 else 7⟩

/-- A typing environment in which every input succeeds and nothing is corrected. -/
def plainTyping (_ : Nat) : TypingStep := ⟨true, 7⟩

/-! ## Templates as text and placeholders -/

/-- A piece of a template: literal text, or a placeholder `{key}`. -/
inductive Piece where
  | text (s : List Char)
  | hole (key : List Char)
  deriving DecidableEq, Repr

/-- The characters contain no brace. -/
def braceFree (cs : List Char) : Prop := '\x7b' ∉ cs ∧ '\x7d' ∉ cs

/-- The content of the piece contains no brace. -/
def Piece.braceFree : Piece → Prop
  | .text s => LinkedIn.braceFree s
  | .hole k => LinkedIn.braceFree k

/-- The characters a piece stands for. -/
def Piece.chars : Piece → List Char
  | .text s => s
  | .hole k => '\x7b' :: (k ++ ['\x7d'])

/-- The template text spelled by the pieces. -/
def piecesText : List Piece → List Char
  | [] => []
  | p :: ps => p.chars ++ piecesText ps

/-- Replace the placeholder of `key` by the text `value`; other pieces stay. -/
def fillKey (key value : List Char) : Piece → Piece
  | .text s => .text s
  | .hole k => if k = key then .text value else .hole k

/-- The value the substitution entries give for a key: the one of the first
entry with that key. -/
def valueOf (data : List (String × String)) (key : List Char) : Option (List Char) :=
  match data with
  | [] => none
  | kv :: rest => if key = kv.1.data then some kv.2.data else valueOf rest key

/-- One simultaneous pass over the pieces: a placeholder whose key has a value
becomes that value, every other piece stays as it is. -/
def fillPiece (data : List (String × String)) : Piece → Piece
  | .text s => .text s
  | .hole k =>
    match valueOf data k with
    | some v => .text v
    | none => .hole k

/-- The pieces of `hello {name}, from {company}`. -/
def helloPieces : List Piece :=
  [.text "hello ".data, .hole "name".data, .text ", from ".data, .hole "company".data]

/-! ## float64 arithmetic

A finite `float64` is an integer multiple of `2^-1074` with at most 53
significant bits and magnitude below `2^1024`; it is represented by that
integer. Every operation computes the exact result and rounds it to the nearest
such number, ties to even, as IEEE 754 prescribes; each operation of a Go
expression is rounded on its own (no fused multiply-add). -/

/-- The position of the highest set bit of `n`, found by binary search:
`ilog2 k acc n` is `floor (log2 n)` when `2^acc <= n < 2^(acc + 2^k)`. -/
def ilog2 : Nat → Nat → Nat → Nat
  | 0, acc, _ => acc
  | k + 1, acc, n => if 2 ^ (acc + 2 ^ k) ≤ n then ilog2 k (acc + 2 ^ k) n else ilog2 k acc n

/-- The integer nearest to `n / d`, a tie going to the even one. -/
def roundNearestEven (n d : Nat) : Nat :=
  if 2 * (n % d) < d then n / d
  else if d < 2 * (n % d) then n / d + 1
  else if (n / d) % 2 = 0 then n / d else n / d + 1

/-- Round the magnitude `n / d`, counted in units of `2^-1074`, to the nearest
number with at most 53 significant bits; `none` when `d = 0` or the result
reaches `2^1024` (overflow). -/
def roundMag (n d : Nat) : Option Nat :=
  if d = 0 then none
  else if 2 ^ 2098 ≤ n / d then none
  else
    let shift := ilog2 12 0 (n / d) - 52
    let m := roundNearestEven n (d * 2 ^ shift)
    if 2 ^ 2098 ≤ m * 2 ^ shift then none else some (m * 2 ^ shift)

/-- Round the number `n / d`, counted in units of `2^-1074`, to `float64`. -/
def roundFrac (n : Int) (d : Nat) : Option Int :=
  match roundMag n.natAbs d with
  | none => none
  | some k => some (if n < 0 then -(k : Int) else (k : Int))

/-- The magnitude `k`, counted in units of `2^-1074`, is that of a finite
`float64`: at most 53 significant bits, below `2^1024`. -/
def isMag (k : Nat) : Prop := k < 2 ^ 2098 ∧ ∃ m j, m ≤ 2 ^ 53 ∧ k = m * 2 ^ j

/-- A `float64` value: `some k` is the finite number `k * 2^-1074` (every finite
`float64` is such a multiple), `none` stands for the infinities and NaN, which
the operations below hand on. The sign of zero is not represented. -/
structure F64 where
  val : Option Int
  deriving DecidableEq, Repr

/-- The `float64` nearest to the fraction `n / d`: the conversion of an integer
or of a decimal constant. -/
def F64.ofFrac (n : Int) (d : Nat) : F64 := ⟨roundFrac (n * 2 ^ 1074) d⟩

/-- `a + b`, rounded to nearest, ties to even. -/
def F64.add (a b : F64) : F64 :=
  match a.val, b.val with
  | some x, some y => ⟨roundFrac (x + y) 1⟩
  | _, _ => ⟨none⟩

/-- `a - b`, rounded. -/
def F64.sub (a b : F64) : F64 :=
  match a.val, b.val with
  | some x, some y => ⟨roundFrac (x - y) 1⟩
  | _, _ => ⟨none⟩

/-- `a * b`, rounded. -/
def F64.mul (a b : F64) : F64 :=
  match a.val, b.val with
  | some x, some y => ⟨roundFrac (x * y) (2 ^ 1074)⟩
  | _, _ => ⟨none⟩

/-- `a / b`, rounded; a division by zero gives an infinity or NaN. An infinite
or NaN operand gives `none`, which is right for every divisor of this program
(`2` and `float64(steps)` are finite). -/
def F64.div (a b : F64) : F64 :=
  match a.val, b.val with
  | some x, some y =>
    if y < 0 then ⟨roundFrac (-(x * 2 ^ 1074)) y.natAbs⟩ else ⟨roundFrac (x * 2 ^ 1074) y.natAbs⟩
  | _, _ => ⟨none⟩

instance : Add F64 := ⟨F64.add⟩

instance : Sub F64 := ⟨F64.sub⟩

instance : Mul F64 := ⟨F64.mul⟩

instance : Div F64 := ⟨F64.div⟩

instance (n : Nat) : OfNat F64 n := ⟨F64.ofFrac n 1⟩

instance : OfScientific F64 :=
  ⟨fun m s e => if s then F64.ofFrac m (10 ^ e) else F64.ofFrac (m * 10 ^ e) 1⟩

/-! ## stealth/mouse.go

Pointer coordinates are `float64`, and the expressions below are those of the
source with its operations in its order, each one rounded. -/

/-- A pointer position handed to `moveMouse`. -/
structure Point where
  x : F64
  y : F64
  deriving DecidableEq, Repr

/-- The random outcomes and call results of one `MoveHumanlike` call: the four
`rand.Float64()` values of the origin and the overshoot, the outcome of
`rand.Intn(10)` for the step count, the two `rand.Float64()` values of each
micro-correction, and whether the `k`-th `moveMouse` call succeeds. -/
structure MouseDraws where
  startX : F64
  startY : F64
  overX : F64
  overY : F64
  stepDraw : Nat
  microX : Nat → F64
  microY : Nat → F64
  moveOk : Nat → Bool

/-- `steps := 12 + rand.Intn(10)`. -/
def pathSteps (dr : MouseDraws) : Nat := 12 + dr.stepDraw % 10

/-- The origin `(startX, startY)` of the path (lines 15-16). -/
def pathStart (dr : MouseDraws) : Point :=
  ⟨dr.startX * 200 + 100, dr.startY * 150 + 80⟩

/-- The overshoot point (lines 19-20). -/
def overshoot (x y : F64) (dr : MouseDraws) : Point :=
  ⟨x + dr.overX * 12 - 6, y + dr.overY * 12 - 6⟩

/-- The quadratic Bezier expression of lines 28 and 29. -/
def bezier (t start ctrl over : F64) : F64 :=
  (1 - t) * (1 - t) * start + 2 * (1 - t) * t * ctrl + t * t * over

/-- The point `(curX, curY)` of iteration `i` of the first loop (lines 24-29). -/
def curvePoint (x y : F64) (dr : MouseDraws) (i : Nat) : Point :=
  let t : F64 := F64.ofFrac i 1 / F64.ofFrac (pathSteps dr) 1
  let s := pathStart dr
  let o := overshoot x y dr
  let ctrlX := (s.x + o.x) / 2
  let ctrlY := s.y + (o.y - s.y) * 0.6
  ⟨bezier t s.x ctrlX o.x, bezier t s.y ctrlY o.y⟩

/-- The points of the first loop, `i = 1 .. steps`. -/
def curvePoints (x y : F64) (dr : MouseDraws) : List Point :=
  (List.range (pathSteps dr)).map (fun i => curvePoint x y dr (i + 1))

/-- The point `(mx, my)` of iteration `i` of the micro-correction loop (lines 38-39). -/
def microPoint (x y : F64) (dr : MouseDraws) (i : Nat) : Point :=
  ⟨x + dr.microX i * 3 - 1.5, y + dr.microY i * 3 - 1.5⟩

/-- The three micro-correction points. -/
def microPoints (x y : F64) (dr : MouseDraws) : List Point :=
  (List.range 3).map (microPoint x y dr)

/-- The error `moveMouse` returns when the dispatch fails. -/
inductive MouseError where
  | dispatchFailed
  deriving DecidableEq, Repr

/-- The `moveMouse` calls in order, `k` being the index of the next call: the
positions dispatched up to the first failing call, and its error. -/
def dispatchMoves (ok : Nat → Bool) : Nat → List Point → List Point × Option MouseError
  | _, [] => ([], none)
  | k, p :: rest =>
    if ok k then
      let r := dispatchMoves ok (k + 1) rest
      (p :: r.1, r.2)
    else ([], some .dispatchFailed)

/-- `MoveHumanlike(page, x, y)`: the pointer-moved events dispatched and the
returned error: the curve, the three micro-corrections, the target. -/
def MoveHumanlike (x y : F64) (dr : MouseDraws) : List Point × Option MouseError :=
  dispatchMoves dr.moveOk 0 (curvePoints x y dr ++ microPoints x y dr ++ [⟨x, y⟩])

/-- Draws that are all zero, with every dispatch succeeding. -/
def zeroDraws : MouseDraws :=
  { startX := 0, startY := 0, overX := 0, overY := 0, stepDraw := 0,
    microX := fun _ => 0, microY := fun _ => 0, moveOk := fun _ => true }

/-! ### Observations on coordinates -/

/-- The number `k * 2^-1074` is a finite `float64`: rounding leaves it as it is. -/
def isFloat (k : Int) : Prop := roundFrac k 1 = some k

instance (k : Int) : Decidable (isFloat k) :=
  inferInstanceAs (Decidable (roundFrac k 1 = some k))

/-- An outcome of `rand.Float64()`: a `float64` of `[0, 1)`. -/
def F64.inUnit (r : F64) : Prop :=
  ∃ k, r.val = some k ∧ isFloat k ∧ 0 ≤ k ∧ k < 2 ^ 1074

instance (r : F64) : Decidable r.inUnit :=
  match h : r.val with
  | some k =>
    if c : isFloat k ∧ 0 ≤ k ∧ k < 2 ^ 1074 then isTrue ⟨k, h, c⟩
    else isFalse (fun ⟨j, hj, cj⟩ => c (by rw [h] at hj; cases hj; exact cj))
  | none => isFalse (fun ⟨j, hj, _⟩ => by rw [h] at hj; cases hj)

/-- Every `rand.Float64()` outcome is a `float64` of `[0, 1)`. -/
def MouseDraws.valid (dr : MouseDraws) : Prop :=
  dr.startX.inUnit ∧ dr.startY.inUnit ∧ dr.overX.inUnit ∧ dr.overY.inUnit ∧
  ∀ i, (dr.microX i).inUnit ∧ (dr.microY i).inUnit

/-- Both values are finite and differ by at most `n / d`. -/
def F64.within (a b : F64) (n d : Nat) : Prop :=
  ∃ p q, a.val = some p ∧ b.val = some q ∧ |p - q| * d ≤ n * 2 ^ 1074

instance (a b : F64) (n d : Nat) : Decidable (a.within b n d) :=
  match ha : a.val, hb : b.val with
  | some p, some q =>
    if c : |p - q| * d ≤ n * 2 ^ 1074 then isTrue ⟨p, q, ha, hb, c⟩
    else isFalse (fun ⟨p2, q2, h1, h2, c2⟩ => c (by
      rw [ha] at h1; rw [hb] at h2; cases h1; cases h2; exact c2))
  | none, _ => isFalse (fun ⟨_, _, h1, _, _⟩ => by rw [ha] at h1; cases h1)
  | some _, none => isFalse (fun ⟨_, _, _, h2, _⟩ => by rw [hb] at h2; cases h2)

/-- A coordinate `c` of magnitude at most `2^52` for which `c - 6`, `c + 6`,
`c + 12`, `c - 1.5`, `c + 1.5` and `c + 3` are `float64` values too, so that no
sum around the target is rounded across these marks. Every whole or half pixel
of magnitude at most `2^51` is such a coordinate. -/
def F64.targetExact (c : F64) : Prop :=
  ∃ k, c.val = some k ∧
    isFloat k ∧ |k| ≤ 2 ^ 52 * 2 ^ 1074 ∧
    isFloat (k - 6 * 2 ^ 1074) ∧ isFloat (k + 6 * 2 ^ 1074) ∧ isFloat (k + 12 * 2 ^ 1074) ∧
    isFloat (k - 3 * 2 ^ 1073) ∧ isFloat (k + 3 * 2 ^ 1073) ∧ isFloat (k + 3 * 2 ^ 1074)

instance (c : F64) : Decidable c.targetExact :=
  match h : c.val with
  | some k =>
    if e : isFloat k ∧ |k| ≤ 2 ^ 52 * 2 ^ 1074 ∧
        isFloat (k - 6 * 2 ^ 1074) ∧ isFloat (k + 6 * 2 ^ 1074) ∧ isFloat (k + 12 * 2 ^ 1074) ∧
        isFloat (k - 3 * 2 ^ 1073) ∧ isFloat (k + 3 * 2 ^ 1073) ∧ isFloat (k + 3 * 2 ^ 1074)
    then isTrue ⟨k, h, e⟩
    else isFalse (fun ⟨j, hj, cj⟩ => e (by rw [h] at hj; cases hj; exact cj))
  | none => isFalse (fun ⟨j, hj, _⟩ => by rw [h] at hj; cases hj)

/-- Draws in which the overshoot draw and the micro-correction draws of the x
axis are `1 - 2^-53`, the largest outcome of `rand.Float64()`. -/
def lateDraws : MouseDraws :=
  { zeroDraws with
    overX := F64.ofFrac (2 ^ 53 - 1) (2 ^ 53),
    microX := fun _ => F64.ofFrac (2 ^ 53 - 1) (2 ^ 53) }

/-- The value is finite and within `e` of the rational `q` (in pixels). -/
def F64.near (a : F64) (q e : ℚ) : Prop :=
  ∃ k : Int, a.val = some k ∧ |(k : ℚ) / 2 ^ 1074 - q| ≤ e

/-- A finite coordinate of magnitude at most `2^1000` pixels. -/
def F64.inRange (c : F64) : Prop :=
  ∃ k, c.val = some k ∧ |k| ≤ 2 ^ 1000 * 2 ^ 1074

instance (c : F64) : Decidable c.inRange :=
  match h : c.val with
  | some k =>
    if e : |k| ≤ 2 ^ 1000 * 2 ^ 1074 then isTrue ⟨k, h, e⟩
    else isFalse (fun ⟨j, hj, cj⟩ => e (by rw [h] at hj; cases hj; exact cj))
  | none => isFalse (fun ⟨j, hj, _⟩ => by rw [h] at hj; cases hj)

/-- The coordinates `a` and `b` of two consecutive positions of a move towards
the coordinate `c` are finite and differ by at most
`(|c| + off) / den * (1 + 2^-40)` pixels. -/
def stepWithin (c a b : F64) (off den : Nat) : Prop :=
  ∃ C A B, c.val = some C ∧ a.val = some A ∧ b.val = some B ∧
    |B - A| * (den * 2 ^ 40) ≤ (|C| + off * 2 ^ 1074) * (2 ^ 40 + 1)

instance (c a b : F64) (off den : Nat) : Decidable (stepWithin c a b off den) :=
  match hc : c.val, ha : a.val, hb : b.val with
  | some C, some A, some B =>
    if e : |B - A| * (den * 2 ^ 40) ≤ (|C| + off * 2 ^ 1074) * (2 ^ 40 + 1) then
      isTrue ⟨C, A, B, hc, ha, hb, e⟩
    else isFalse (fun ⟨C2, A2, B2, h1, h2, h3, e2⟩ => e (by
      rw [hc] at h1; rw [ha] at h2; rw [hb] at h3
      cases h1; cases h2; cases h3; exact e2))
  | none, _, _ => isFalse (fun ⟨_, _, _, h1, _, _, _⟩ => by rw [hc] at h1; cases h1)
  | some _, none, _ => isFalse (fun ⟨_, _, _, _, h2, _, _⟩ => by rw [ha] at h2; cases h2)
  | some _, some _, none => isFalse (fun ⟨_, _, _, _, _, h3, _⟩ => by rw [hb] at h3; cases h3)

/-- Two consecutive positions of a move towards `(x, y)` are within the step
bounds of the target: `(|x| + 306) / 12 * (1 + 2^-40)` along the x axis and
`(|y| + 236) / 10 * (1 + 2^-40)` along the y axis. -/
def closeStep (x y : F64) (p q : Point) : Prop :=
  stepWithin x p.x q.x 306 12 ∧ stepWithin y p.y q.y 236 10

instance (x y : F64) : DecidableRel (closeStep x y) := fun p q =>
  inferInstanceAs (Decidable (stepWithin x p.x q.x 306 12 ∧ stepWithin y p.y q.y 236 10))

/-- Two positions are finite and differ by at most `B` pixels on each axis. -/
def fixedStep (B : Nat) (p q : Point) : Prop :=
  q.x.within p.x B 1 ∧ q.y.within p.y B 1

instance (B : Nat) : DecidableRel (fixedStep B) := fun p q =>
  inferInstanceAs (Decidable (q.x.within p.x B 1 ∧ q.y.within p.y B 1))

/-! ## auth/login.go -/

/-- What the page shows to the probes of one poll tick of `login`, and the state
of the context at that tick (which the loop never reads). -/
structure Probe where
  cancelled : Bool
  captcha : Bool
  twoFA : Bool
  badCreds : Bool
  loggedIn : Bool
  deriving DecidableEq, Repr

/-- The error of `detectCaptcha` inside the poll loop. -/
def captchaError : String := "captcha detected; please solve it manually and rerun later"

/-- The error of `detectTwoFA` inside the poll loop. -/
def twoFAError : String := "2fa required; complete it manually in the browser"

/-- The error of `detectBadCreds`. -/
def badCredsError : String := "invalid credentials"

/-- The error returned when the logged-in marker is absent after the loop. -/
def timeoutError : String :=
  "login did not complete within timeout; please check credentials or 2FA/captcha"

/-- How one iteration of the poll loop ends. -/
inductive TickResult where
  | failed (err : String)
  | loggedIn
  | again
  deriving DecidableEq, Repr

/-- One iteration of the poll loop (lines 154-168): the three challenge checks
in order, then the logged-in check, else sleep and poll again. -/
def pollTick (p : Probe) : TickResult :=
  if p.captcha then .failed captchaError
  else if p.twoFA then .failed twoFAError
  else if p.badCreds then .failed badCredsError
  else if p.loggedIn then .loggedIn
  else .again

/-- The poll loop (lines 152-169) over the page states of the iterations that
start before the deadline: the error of a challenge, or `none` when the loop
is left by `break` or by the deadline. -/
def pollLoop : List Probe → Option String
  | [] => none
  | p :: rest =>
    match pollTick p with
    | .failed err => some err
    | .loggedIn => none
    | .again => pollLoop rest

/-- The checks after the loop (lines 170-184) on the page state `last`: the
logged-in marker first, then the three challenges. -/
def afterPoll (last : Probe) : Option String :=
  if !last.loggedIn then some timeoutError
  else if last.captcha then some "captcha detected"
  else if last.twoFA then some "2fa required"
  else if last.badCreds then some badCredsError
  else none

/-- Everything the environment answers during `login`. -/
structure LoginEnv where
  navigateOk : Bool
  formFound : Bool
  emailFound : Bool
  passFound : Bool
  typeEmailOk : Bool
  typePassOk : Bool
  buttonFound : Bool
  clickOk : Bool
  ticks : List Probe
  last : Probe
  deriving DecidableEq, Repr

/-- `login`: the returned error message, `none` for success. -/
def login (env : LoginEnv) : Option String :=
  if !env.navigateOk then some "navigate login"
  else if !env.formFound then
    some "login form did not appear (possible network/selector issue)"
  else if !env.emailFound then some "email input not found"
  else if !env.passFound then some "password input not found"
  else if !env.typeEmailOk then some "input failed"
  else if !env.typePassOk then some "input failed"
  else if !env.buttonFound then some "sign in button not found"
  else if !env.clickOk then some "click sign in"
  else
    match pollLoop env.ticks with
    | some err => some err
    | none => afterPoll env.last

/-- Everything the environment answers during `StartSession`. -/
structure SessionEnv where
  launchOk : Bool
  connectOk : Bool
  pageOk : Bool
  cookiesLoaded : Bool
  restored : Bool
  login : LoginEnv
  deriving DecidableEq, Repr

/-- What happens to the browser process during `Run`. -/
inductive BrowserEvent where
  | launched
  | closed
  deriving DecidableEq, Repr

/-- `newBrowser`: the browser events and the error; the browser counts as
launched once `l.Launch()` has succeeded. -/
def newBrowser (env : SessionEnv) : List BrowserEvent × Option String :=
  if !env.launchOk then ([], some "launch browser")
  else if !env.connectOk then ([.launched], some "connect browser")
  else if !env.pageOk then ([.launched], some "open page")
  else ([.launched], none)

/-- `StartSession`: the browser events and the error (`none`: the browser and the
page are returned to the caller). -/
def StartSession (env : SessionEnv) : List BrowserEvent × Option String :=
  match newBrowser env with
  | (ev, some err) => (ev, some err)
  | (ev, none) =>
    if env.cookiesLoaded && env.restored then (ev, none)
    else (ev, login env.login)

/-! ## cmd/main.go -/

/-- What `Run` returns as its error. -/
inductive RunFailure where
  | message (text : String)
  | phase (err : RunError)
  deriving DecidableEq, Repr

/-- Everything the environment answers during `Run`. -/
structure RunEnv where
  command : String
  configOk : Bool
  cfg : Config
  searchBase : String
  paginationPages : Int
  dbInitOk : Bool
  store : Store
  session : SessionEnv
  search : Nat → SearchPage
  t0 : Time
  ok0 : Bool
  connect : Nat → ConnectPage
  follow : FollowEnv

/-- Result of `Run`: what happened to the browser, the ledger, the error. -/
structure RunOutcome where
  browser : List BrowserEvent
  store : Store
  err : Option RunFailure

/-- `Run`: load the configuration, open the ledger, start the session, register
`defer browser.Close()`, then the three phases; the deferred call runs on every
return after its registration. -/
def Run (env : RunEnv) : RunOutcome :=
  if env.command != "start" then ⟨[], env.store, some (.message "unknown command")⟩
  else if !env.configOk then ⟨[], env.store, some (.message "config")⟩
  else if !env.dbInitOk then ⟨[], env.store, some (.message "open sqlite")⟩
  else
    match StartSession env.session with
    | (ev, some err) => ⟨ev, env.store, some (.message err)⟩
    | (ev, none) =>
      let sr := PeopleSearch env.cfg env.searchBase env.paginationPages env.search
      match sr.err with
      | some e => ⟨ev ++ [.closed], env.store, some (.phase e)⟩
      | none =>
        let c := SendConnections env.cfg env.t0 env.ok0 env.connect env.store sr.results
        match c.err with
        | some e => ⟨ev ++ [.closed], c.store, some (.phase e)⟩
        | none =>
          let f := SendFollowups env.cfg env.follow c.store
          match f.err with
          | some e => ⟨ev ++ [.closed], f.store, some (.phase e)⟩
          | none => ⟨ev ++ [.closed], f.store, none⟩

/-! ## Acceptance sweep: observations -/

/-- The probe of `detectAccepted` marks the profile: navigation succeeded and
the `Message` control was found. -/
def AcceptPage.marks (pg : AcceptPage) : Bool := pg.navigateOk && pg.messageFound

/-- The row `MarkAccepted` makes of a row of the profile at time `now`. -/
def acceptedRow (now : Time) (r : Connection) : Connection :=
  { r with status := "accepted", accepted_at := some now }

/-- The URLs with status requested, in table order. -/
def requestedURLs (s : Store) : List String :=
  (s.connections.filter (fun r => r.status == "requested")).map (fun r => r.profile_url)

/-- The URLs with status accepted, in table order. -/
def acceptedURLs (s : Store) : List String :=
  (s.connections.filter (fun r => r.status == "accepted")).map (fun r => r.profile_url)

/-- The acceptance sweep marks this row: its status is requested and the probe
of its profile (the one at the position of its URL in the list of requested
URLs) navigated and found the `Message` control. -/
def marked (env : Nat → AcceptPage) (s : Store) (r : Connection) : Bool :=
  r.status == "requested" && (env ((requestedURLs s).indexOf r.profile_url)).marks

/-- What the acceptance sweep makes of a row: a marked row becomes accepted,
stamped with the clock reading of its probe; any other row stays. -/
def sweepRow (env : Nat → AcceptPage) (s : Store) (r : Connection) : Connection :=
  if marked env s r then
    acceptedRow (env ((requestedURLs s).indexOf r.profile_url)).tMark r
  else r

/-- The URLs of the rows the acceptance sweep marks, in table order. -/
def newlyAccepted (env : Nat → AcceptPage) (s : Store) : List String :=
  (s.connections.filter (marked env s)).map (fun r => r.profile_url)

/-- The URLs navigated to, in trace order. -/
def navigated (tr : List Event) : List String :=
  tr.filterMap (fun e =>
    match e with
    | .navigate url _ => some url
    | _ => none)

/-- A ledger with five requested profiles. -/
def fiveRequested : Store :=
  { connections :=
      [⟨"r0", "A", "X", "requested", some ⟨99, 10, 0⟩, none, none⟩,
       ⟨"r1", "B", "X", "requested", some ⟨99, 10, 1⟩, none, none⟩,
       ⟨"r2", "C", "X", "requested", some ⟨99, 10, 2⟩, none, none⟩,
       ⟨"r3", "D", "X", "requested", some ⟨99, 10, 3⟩, none, none⟩,
       ⟨"r4", "E", "X", "requested", some ⟨99, 10, 4⟩, none, none⟩],
    messages := [],
    counters := [(("connections", 99), 5)] }

/-- An environment in which only the second and the fourth profile visited by
the acceptance sweep show a `Message` control. -/
def twoOfFiveEnv : FollowEnv :=
  { goodFollowEnv with
    accept := fun i => { goodAccept with messageFound := decide (i = 1) || decide (i = 3) } }

/-- A search environment whose context is cancelled on every page. -/
def cancelledSearch (i : Nat) : SearchPage := { demoSearch i with cancelled := true }

/-- A page state showing only the logged-in marker, with the context cancelled. -/
def loggedInProbe : Probe := ⟨true, false, false, false, true⟩

/-- A page state showing nothing yet, with the context cancelled. -/
def emptyProbe : Probe := ⟨true, false, false, false, false⟩

/-- A page state showing a captcha. -/
def captchaProbe : Probe := ⟨false, true, false, false, false⟩

/-- A login in which every step succeeds and the page shows the given states. -/
def loginWith (ticks : List Probe) (last : Probe) : LoginEnv :=
  ⟨true, true, true, true, true, true, true, true, ticks, last⟩

/-- A session whose browser starts, without usable cookies, and whose login
runs into a captcha at the first poll tick. -/
def captchaSession : SessionEnv :=
  ⟨true, true, true, false, false, loginWith [captchaProbe] captchaProbe⟩

/-- An execution of `Run` with the given session and cooperative phases. -/
def runWith (session : SessionEnv) : RunEnv :=
  { command := "start", configOk := true, cfg := demoCfg, searchBase := "q",
    paginationPages := 3, dbInitOk := true, store := emptyStore, session := session,
    search := demoSearch, t0 := day100 10, ok0 := true, connect := fun _ => goodPage,
    follow := goodFollowEnv }

/-- An acceptance sweep in which every page shows a `Message` control and the
context is cancelled when the third profile is reached. -/
def cancelledThird (i : Nat) : AcceptPage := { goodAccept with cancelled := decide (i = 2) }

/-- An acceptance sweep in which every page shows a `Message` control and every
`MarkAccepted` statement fails. -/
def failingMark (_ : Nat) : AcceptPage := { goodAccept with markOk := false }

/-! ## Pauses, clicks and pages: observations -/

/-- On this configuration `RandomPause` does not panic: `jitter_ms` is neither
negative nor the largest `int`, and `max_ms - min_ms` does not overflow. -/
def Config.pauseSafe (cfg : Config) : Prop :=
  0 ≤ cfg.JitterMs ∧ cfg.JitterMs < 2 ^ 63 - 1 ∧
  (cfg.MaxDelayMs ≤ cfg.MinDelayMs ∨ cfg.MaxDelayMs - cfg.MinDelayMs < 2 ^ 63)

/-- On this configuration `ThinkTime` does not panic: `think_time_ms` is an
`int` above -400. -/
def Config.thinkSafe (cfg : Config) : Prop :=
  -400 < cfg.ThinkTimeMs ∧ cfg.ThinkTimeMs < 2 ^ 63

/-- The URLs on which a click on the control was issued, in trace order. -/
def clickedOn (control : String) (tr : List Event) : List String :=
  tr.filterMap (fun e =>
    match e with
    | .click url c _ => if c == control then some url else none
    | _ => none)

/-- Among `count` consecutive result pages starting at page `p`, the number of
pages before the first one whose navigation fails. -/
def loadedPages (env : Nat → SearchPage) : Nat → Nat → Nat
  | 0, _ => 0
  | count + 1, p => if (env p).navigateOk then loadedPages env count (p + 1) + 1 else 0

/-- The configuration `demoCfg` with `jitter_ms: -1`. -/
def negJitterCfg : Config := { demoCfg with JitterMs := -1 }

/-- The configuration `demoCfg` with `think_time_ms: -400`. -/
def negThinkCfg : Config := { demoCfg with ThinkTimeMs := -400 }

/-- Three result pages like `demoSearch`, the navigation to the third failing. -/
def brokenThird (i : Nat) : SearchPage := { demoSearch i with navigateOk := decide (i ≠ 3) }

/-! ## Day counters -/

theorem selectCounter_append_single (l : List (CounterKey × Int)) (k k2 : CounterKey) (v : Int) :
    selectCounter k2 (l ++ [(k, v)]) =
      match selectCounter k2 l with
      | some x => some x
      | none => if k = k2 then some v else none := by
  induction l with
  | nil => simp [selectCounter]
  | cons hd tl ih =>
    obtain ⟨a, b⟩ := hd
    by_cases h : a = k2 <;> simp [selectCounter, h, ih]

theorem selectCounter_updateCounter (l : List (CounterKey × Int)) (k k2 : CounterKey) (v : Int) :
    selectCounter k2 (updateCounter k v l) =
      if k2 = k then (selectCounter k2 l).map (fun _ => v) else selectCounter k2 l := by
  induction l with
  | nil => simp [selectCounter, updateCounter]
  | cons hd tl ih =>
    obtain ⟨a, b⟩ := hd
    by_cases h : a = k2
    · subst h
      by_cases h2 : a = k <;> simp [selectCounter, updateCounter, h2]
    · by_cases h2 : k2 = k
      · subst h2; simp [selectCounter, updateCounter, h, ih]
      · simp [selectCounter, updateCounter, h, h2, ih]

theorem GetDailyCounter_ok (s : Store) (kind : String) (t : Time) :
    GetDailyCounter s kind t true = .ok (counterAt s kind t.date) := by
  unfold GetDailyCounter counterAt
  cases h : selectCounter (kind, t.date) s.counters <;> simp

theorem readCounter_ok (s : Store) (kind : String) (t : Time) :
    readCounter s kind t true = counterAt s kind t.date := by
  simp [readCounter, GetDailyCounter_ok]

theorem IncrementDailyCounter_ok (s : Store) (kind : String) (t : Time) :
    IncrementDailyCounter s kind t true =
      .ok (afterIncrement s kind t true, counterAt s kind t.date + 1) := by
  unfold afterIncrement IncrementDailyCounter counterAt
  cases h : selectCounter (kind, t.date) s.counters <;> simp [h]

theorem afterIncrement_connections (s : Store) (kind : String) (t : Time) (ok : Bool) :
    (afterIncrement s kind t ok).connections = s.connections := by
  unfold afterIncrement IncrementDailyCounter
  cases ok
  · simp
  · cases h : selectCounter (kind, t.date) s.counters <;> simp [h]

theorem afterIncrement_messages (s : Store) (kind : String) (t : Time) (ok : Bool) :
    (afterIncrement s kind t ok).messages = s.messages := by
  unfold afterIncrement IncrementDailyCounter
  cases ok
  · simp
  · cases h : selectCounter (kind, t.date) s.counters <;> simp [h]

theorem afterIncrement_select (s : Store) (kind : String) (t : Time) (k2 : CounterKey) :
    selectCounter k2 (afterIncrement s kind t true).counters =
      if k2 = (kind, t.date) then some (counterAt s kind t.date + 1)
      else selectCounter k2 s.counters := by
  unfold afterIncrement IncrementDailyCounter counterAt
  cases h : selectCounter (kind, t.date) s.counters with
  | none =>
    simp only [if_true, h, selectCounter_append_single]
    by_cases hk : k2 = (kind, t.date)
    · rw [hk, h]; simp
    · have hk2 : ¬ (kind, t.date) = k2 := fun e => hk e.symm
      cases h2 : selectCounter k2 s.counters <;> simp [hk, hk2]
  | some val =>
    simp only [if_true, h, selectCounter_updateCounter]
    by_cases hk : k2 = (kind, t.date)
    · rw [hk, h]; simp
    · simp [hk]

theorem afterIncrement_counterAt (s : Store) (kind : String) (t : Time) (k2 : String) (d2 : Nat) :
    counterAt (afterIncrement s kind t true) k2 d2 =
      if (k2, d2) = (kind, t.date) then counterAt s kind t.date + 1 else counterAt s k2 d2 := by
  unfold counterAt
  rw [afterIncrement_select]
  by_cases hk : (k2, d2) = (kind, t.date)
  · simp [hk, counterAt]
  · rw [if_neg hk, if_neg hk]

theorem incrementResults_increment (t : Time) (v : Int) (rs : List (CounterCall × Int)) :
    incrementResults ((.increment t, v) :: rs) = v :: incrementResults rs := by
  simp [incrementResults, CounterCall.isIncrement]

theorem incrementResults_get (t : Time) (v : Int) (rs : List (CounterCall × Int)) :
    incrementResults ((.get t, v) :: rs) = incrementResults rs := by
  simp [incrementResults, CounterCall.isIncrement]

theorem runCounterCalls_spec (kind : String) (d : Nat) (calls : List CounterCall) :
    ∀ (s : Store), (∀ c ∈ calls, c.now.date = d) →
    (runCounterCalls kind s calls).2.length = calls.length ∧
    incrementResults (runCounterCalls kind s calls).2
      = (List.range (calls.countP CounterCall.isIncrement)).map
          (fun i : Nat => counterAt s kind d + 1 + (i : Int)) ∧
    counterAt (runCounterCalls kind s calls).1 kind d
      = counterAt s kind d + (calls.countP CounterCall.isIncrement : Nat) ∧
    (∀ k2 : CounterKey, k2 ≠ (kind, d) →
      selectCounter k2 (runCounterCalls kind s calls).1.counters = selectCounter k2 s.counters) ∧
    (runCounterCalls kind s calls).1.connections = s.connections ∧
    (runCounterCalls kind s calls).1.messages = s.messages := by
  induction calls with
  | nil => intro s _; simp [runCounterCalls, incrementResults]
  | cons c rest ih =>
    intro s hd
    have hrest : ∀ c ∈ rest, c.now.date = d := fun c hc => hd c (List.mem_cons_of_mem _ hc)
    cases c with
    | increment t =>
      have ht : t.date = d := hd (.increment t) (List.mem_cons_self _ _)
      obtain ⟨h1, h2, h3, h4, h5, h6⟩ := ih (afterIncrement s kind t true) hrest
      have hc : counterAt (afterIncrement s kind t true) kind d = counterAt s kind d + 1 := by
        rw [afterIncrement_counterAt, ht]; simp
      have hcount : (CounterCall.increment t :: rest).countP CounterCall.isIncrement
          = rest.countP CounterCall.isIncrement + 1 :=
        List.countP_cons_of_pos _ _ rfl
      simp only [runCounterCalls, IncrementDailyCounter_ok]
      refine ⟨by simp [h1], ?_, ?_, ?_, ?_, ?_⟩
      · rw [incrementResults_increment, h2, hc, ht, hcount, List.range_succ_eq_map, List.map_cons,
          List.map_map]
        simp only [Nat.cast_zero, add_zero, List.cons.injEq, true_and]
        apply List.map_congr_left
        intro i _
        simp only [Function.comp, Nat.cast_succ]
        ring
      · rw [h3, hc, hcount]
        push_cast
        ring
      · intro k2 hk
        rw [h4 k2 hk, afterIncrement_select, ht, if_neg hk]
      · rw [h5, afterIncrement_connections]
      · rw [h6, afterIncrement_messages]
    | get t =>
      obtain ⟨h1, h2, h3, h4, h5, h6⟩ := ih s hrest
      have hcount : (CounterCall.get t :: rest).countP CounterCall.isIncrement
          = rest.countP CounterCall.isIncrement :=
        List.countP_cons_of_neg _ _ (by simp [CounterCall.isIncrement])
      simp only [runCounterCalls, GetDailyCounter_ok]
      refine ⟨by simp [h1], ?_, ?_, h4, h5, h6⟩
      · rw [incrementResults_get, h2, hcount]
      · rw [h3, hcount]

/-- C4: on a fixed calendar date `d` and for a kind whose counter row is absent,
`GetDailyCounter` returns 0; in any sequence of `IncrementDailyCounter` and
`GetDailyCounter` calls every call returns, the `k`-th increment returns `k`
(the first one inserts 1), afterwards `GetDailyCounter` returns the number of
increments, and the rows of every other kind or date are untouched. -/
theorem daily_counter_counts_increments (s : Store) (kind : String) (d : Nat)
    (calls : List CounterCall)
    (hdate : ∀ c ∈ calls, c.now.date = d)
    (habsent : selectCounter (kind, d) s.counters = none) :
    (∀ t : Time, t.date = d → GetDailyCounter s kind t true = .ok 0) ∧
    (runCounterCalls kind s calls).2.length = calls.length ∧
    incrementResults (runCounterCalls kind s calls).2
      = (List.range (calls.countP CounterCall.isIncrement)).map (fun i : Nat => (i : Int) + 1) ∧
    (∀ t : Time, t.date = d → GetDailyCounter (runCounterCalls kind s calls).1 kind t true
      = .ok ((calls.countP CounterCall.isIncrement : Nat) : Int)) ∧
    (∀ k2 : CounterKey, k2 ≠ (kind, d) →
      selectCounter k2 (runCounterCalls kind s calls).1.counters = selectCounter k2 s.counters) := by
  have h0 : counterAt s kind d = 0 := by simp [counterAt, habsent]
  obtain ⟨h1, h2, h3, h4, _, _⟩ := runCounterCalls_spec kind d calls s hdate
  refine ⟨?_, h1, ?_, ?_, h4⟩
  · intro t ht
    rw [GetDailyCounter_ok, ht, h0]
  · rw [h2, h0]
    apply List.map_congr_left
    intro i _
    ring
  · intro t ht
    rw [GetDailyCounter_ok, ht, h3, h0, zero_add]


theorem daily_counter_counts_increments_witness :
    (∀ c ∈ demoCalls, c.now.date = 100) ∧
    selectCounter ("connections", 100) emptyStore.counters = none ∧
    incrementResults (runCounterCalls "connections" emptyStore demoCalls).2
      = (List.range (demoCalls.countP CounterCall.isIncrement)).map (fun i : Nat => (i : Int) + 1) :=
  ⟨by decide, by decide,
    (daily_counter_counts_increments emptyStore "connections" 100 demoCalls
      (by decide) (by decide)).2.2.1⟩

/-! ## Profile upsert -/

theorem any_url_iff (l : List Connection) (url : String) :
    l.any (fun r => r.profile_url == url) = true ↔ url ∈ l.map (fun r => r.profile_url) := by
  simp only [List.any_eq_true, beq_iff_eq, List.mem_map]

theorem map_url_setStatus (l : List Connection) (url status : String) :
    (l.map (fun r => if r.profile_url = url then { r with status := status } else r)).map
      (fun r => r.profile_url) = l.map (fun r => r.profile_url) := by
  rw [List.map_map]
  apply List.map_congr_left
  intro r _
  by_cases h : r.profile_url = url <;> simp [h]

/-- C5: on a ledger whose profile URLs are pairwise distinct, `SaveConnection`
succeeds and keeps them distinct; for an absent URL it appends exactly the row
`(url, name, company, status, contacted_at = now)`; for a present URL only the
status of that row changes, its other fields and all other rows stay as they
were; the other tables are untouched. -/
theorem SaveConnection_upsert (s : Store) (url name company status : String) (now : Time)
    (huniq : (profileURLs s).Nodup) :
    ∃ s1, SaveConnection s url name company status now true = .ok s1 ∧
      (profileURLs s1).Nodup ∧ s1.messages = s.messages ∧ s1.counters = s.counters ∧
      (url ∉ profileURLs s →
        s1.connections = s.connections ++ [⟨url, name, company, status, some now, none, none⟩]) ∧
      (url ∈ profileURLs s →
        List.Forall₂
          (fun r r1 =>
            if r.profile_url = url then
              r1.profile_url = r.profile_url ∧ r1.status = status ∧ r1.name = r.name ∧
              r1.company = r.company ∧ r1.contacted_at = r.contacted_at ∧
              r1.accepted_at = r.accepted_at ∧ r1.last_message_at = r.last_message_at
            else r1 = r)
          s.connections s1.connections) := by
  unfold SaveConnection
  by_cases hin : url ∈ profileURLs s
  · have hany : s.connections.any (fun r => r.profile_url == url) = true :=
      (any_url_iff _ _).2 hin
    simp only [if_true, hany]
    refine ⟨_, rfl, ?_, rfl, rfl, fun h => absurd hin h, fun _ => ?_⟩
    · show ((s.connections.map _).map _).Nodup
      rw [map_url_setStatus]; exact huniq
    · rw [List.forall₂_map_right_iff, List.forall₂_same]
      intro r _
      by_cases h : r.profile_url = url <;> simp [h]
  · have hany : ¬ s.connections.any (fun r => r.profile_url == url) = true :=
      fun h => hin ((any_url_iff _ _).1 h)
    simp only [if_true, hany, if_false]
    refine ⟨_, rfl, ?_, rfl, rfl, fun _ => rfl, fun h => absurd h hin⟩
    simp only [profileURLs, List.map_append, List.map_cons, List.map_nil]
    rw [List.nodup_append]
    refine ⟨huniq, List.nodup_singleton _, ?_⟩
    intro a ha hb
    simp only [List.mem_singleton] at hb
    subst hb
    exact hin ha


theorem SaveConnection_upsert_witness :
    (profileURLs demoLedger).Nodup ∧
    ∃ s1, SaveConnection demoLedger "u1" "Bob" "Initech" "requested" ⟨101, 9, 0⟩ true = .ok s1 ∧
      (profileURLs s1).Nodup :=
  ⟨by decide,
    match SaveConnection_upsert demoLedger "u1" "Bob" "Initech" "requested" ⟨101, 9, 0⟩
      (by decide) with
    | ⟨s1, h, hn, _⟩ => ⟨s1, h, hn⟩⟩

/-! ## The loop of `SendConnections` and the day counter -/

theorem connectsPerformed_append (a b : List Event) :
    connectsPerformed (a ++ b) = connectsPerformed a + connectsPerformed b := by
  simp [connectsPerformed, List.countP_append]

theorem connectsPerformed_noteEvents (cfg : Config) (url : String) (pg : ConnectPage) :
    connectsPerformed (noteEvents cfg url pg) = 0 := by
  unfold noteEvents connectsPerformed
  by_cases h1 : pg.addNoteFound <;> by_cases h2 : pg.textAreaFound <;>
    simp [h1, h2, List.countP_cons, Event.isConnect]

theorem connectsPerformed_sendEvents (url : String) (f c : Bool) :
    connectsPerformed (sendEvents url f c) = 0 := by
  unfold sendEvents connectsPerformed
  cases f <;> simp [List.countP_cons, Event.isConnect]

theorem connectIteration_skip (cfg : Config) (s : Store) (url : String) (pg : ConnectPage)
    (h : pg.acts cfg = false) :
    (connectIteration cfg s url pg).1 = s ∧
    connectsPerformed (connectIteration cfg s url pg).2.1 = 0 ∧
    ((connectIteration cfg s url pg).2.2 = .next ∨
      ((connectIteration cfg s url pg).2.2 = .ret (some .cancelled) ∧
        (connectIteration cfg s url pg).2.1 = [])) := by
  unfold ConnectPage.acts at h
  unfold connectIteration
  by_cases h1 : pg.cancelled = true
  · simp [h1, connectsPerformed]
  by_cases h2 : NowInBusinessHours cfg.BusinessHoursStart cfg.BusinessHoursEnd pg.tGate = true
  swap
  · simp [h1, h2, connectsPerformed, Event.isConnect]
  by_cases h3 : pg.navigateOk = true
  swap
  · simp [h1, h2, h3, connectsPerformed, Event.isConnect]
  by_cases h4 : pg.connectFound = true
  swap
  · cases hb : pg.bodyWide <;> simp [h1, h2, h3, h4, hb, connectsPerformed, Event.isConnect]
  by_cases h5 : pg.connectClickOk = true
  swap
  · cases hb : pg.bodyWide <;> simp [h1, h2, h3, h4, h5, hb, connectsPerformed, Event.isConnect]
  simp [h1, h2, h3, h4, h5] at h

theorem connectIteration_act (cfg : Config) (s : Store) (url : String) (pg : ConnectPage)
    (h : pg.acts cfg = true) :
    (connectIteration cfg s url pg).1 = connectWrites s url pg ∧
    connectsPerformed (connectIteration cfg s url pg).2.1 = 1 ∧
    (connectIteration cfg s url pg).2.2 =
      (if readCounter (connectWrites s url pg) "connections" pg.tRead pg.readOk
          ≥ cfg.DailyConnections then .ret none
        else if connectPause cfg pg then .next else .ret (some .crashed)) := by
  unfold ConnectPage.acts at h
  simp only [Bool.and_eq_true, Bool.not_eq_true', ] at h
  obtain ⟨⟨⟨⟨h1, h2⟩, h3⟩, h4⟩, h5⟩ := h
  unfold connectIteration
  simp only [h1, h2, h3, h4, h5, Bool.not_true, Bool.false_eq_true, if_false]
  by_cases hr : readCounter (connectWrites s url pg) "connections" pg.tRead pg.readOk
      ≥ cfg.DailyConnections
  · simp only [hr, if_true, connectsPerformed_append, connectsPerformed_noteEvents,
      connectsPerformed_sendEvents, true_and]
    cases hb : pg.bodyWide <;> simp [connectsPerformed, List.countP_cons, Event.isConnect]
  · cases hp : connectPause cfg pg <;>
    · simp only [hr, if_false, if_true, Bool.false_eq_true, connectsPerformed_append,
        connectsPerformed_noteEvents, connectsPerformed_sendEvents, true_and, and_true]
      cases hb : pg.bodyWide <;> simp [connectsPerformed, List.countP_cons, Event.isConnect]

theorem keepOnError_SaveConnection_counters (s : Store) (url n c st : String) (t : Time)
    (ok : Bool) : (keepOnError s (SaveConnection s url n c st t ok)).counters = s.counters := by
  unfold SaveConnection keepOnError
  cases ok
  · simp
  · by_cases h : s.connections.any (fun r => r.profile_url == url) = true <;> simp [h]

theorem keepOnError_SaveConnection_messages (s : Store) (url n c st : String) (t : Time)
    (ok : Bool) : (keepOnError s (SaveConnection s url n c st t ok)).messages = s.messages := by
  unfold SaveConnection keepOnError
  cases ok
  · simp
  · by_cases h : s.connections.any (fun r => r.profile_url == url) = true <;> simp [h]

theorem connectWrites_counterAt (s : Store) (url : String) (pg : ConnectPage) (d : Nat)
    (hok : pg.incrOk = true) (hd : pg.tIncr.date = d) :
    counterAt (connectWrites s url pg) "connections" d = counterAt s "connections" d + 1 := by
  unfold connectWrites
  simp only [counterAt, keepOnError_SaveConnection_counters]
  rw [hok, afterIncrement_select, hd]
  simp [counterAt]

theorem connectLoop_cons (cfg : Config) (env : Nat → ConnectPage) (i : Nat) (s : Store)
    (url : String) (rest : List String) :
    connectLoop cfg env i s (url :: rest) =
      match (connectIteration cfg s url (env i)).2.2 with
      | .ret e => ⟨(connectIteration cfg s url (env i)).1, (connectIteration cfg s url (env i)).2.1, e⟩
      | .next =>
        ⟨(connectLoop cfg env (i + 1) (connectIteration cfg s url (env i)).1 rest).store,
          (connectIteration cfg s url (env i)).2.1 ++
            (connectLoop cfg env (i + 1) (connectIteration cfg s url (env i)).1 rest).trace,
          (connectLoop cfg env (i + 1) (connectIteration cfg s url (env i)).1 rest).err⟩ := by
  rcases h : connectIteration cfg s url (env i) with ⟨s1, ev, fl⟩
  cases fl <;> simp [connectLoop, h]

/-- What one iteration does to the day counter, whichever branch it takes. -/
theorem connectIteration_counter (cfg : Config) (s : Store) (url : String) (pg : ConnectPage)
    (d : Nat) (hpg : pg.countersOn d) (hlt : counterAt s "connections" d < cfg.DailyConnections) :
    counterAt (connectIteration cfg s url pg).1 "connections" d
      = counterAt s "connections" d + connectsPerformed (connectIteration cfg s url pg).2.1 ∧
    counterAt (connectIteration cfg s url pg).1 "connections" d ≤ cfg.DailyConnections ∧
    ((connectIteration cfg s url pg).2.2 = .next →
      counterAt (connectIteration cfg s url pg).1 "connections" d < cfg.DailyConnections) := by
  obtain ⟨hi, hr, hdi, hdr⟩ := hpg
  cases hacts : pg.acts cfg
  · obtain ⟨h1, h2, _⟩ := connectIteration_skip cfg s url pg hacts
    rw [h1, h2]
    exact ⟨by simp, le_of_lt hlt, fun _ => hlt⟩
  · obtain ⟨h1, h2, h3⟩ := connectIteration_act cfg s url pg hacts
    rw [h1, h2, h3, connectWrites_counterAt s url pg d hi hdi, hr, readCounter_ok, hdr,
      connectWrites_counterAt s url pg d hi hdi]
    refine ⟨by simp, by omega, ?_⟩
    intro hfl
    by_cases hge : counterAt s "connections" d + 1 ≥ cfg.DailyConnections
    · simp [hge] at hfl
    · omega

theorem connectLoop_counter (cfg : Config) (env : Nat → ConnectPage) (d : Nat)
    (henv : ∀ j, (env j).countersOn d) (urls : List String) :
    ∀ (i : Nat) (s : Store), counterAt s "connections" d < cfg.DailyConnections →
      counterAt (connectLoop cfg env i s urls).store "connections" d
        = counterAt s "connections" d + connectsPerformed (connectLoop cfg env i s urls).trace ∧
      counterAt (connectLoop cfg env i s urls).store "connections" d ≤ cfg.DailyConnections := by
  induction urls with
  | nil => intro i s hlt; simp [connectLoop, connectsPerformed, le_of_lt hlt]
  | cons url rest ih =>
    intro i s hlt
    obtain ⟨h1, h2, h3⟩ := connectIteration_counter cfg s url (env i) d (henv i) hlt
    rw [connectLoop_cons]
    cases hfl : (connectIteration cfg s url (env i)).2.2 with
    | ret e => exact ⟨h1, h2⟩
    | next =>
      obtain ⟨g1, g2⟩ := ih (i + 1) _ (h3 hfl)
      simp only [connectsPerformed_append]
      refine ⟨?_, g2⟩
      rw [g1, h1]; push_cast; ring

theorem connectLoop_gate (cfg : Config) (env : Nat → ConnectPage) (d : Nat)
    (henv : ∀ j, (env j).countersOn d) (pre post : List String) :
    ∀ (i : Nat) (s : Store), counterAt s "connections" d < cfg.DailyConnections →
      cfg.DailyConnections ≤ counterAt (connectLoop cfg env i s pre).store "connections" d →
      connectLoop cfg env i s (pre ++ post) = connectLoop cfg env i s pre := by
  induction pre with
  | nil =>
    intro i s hlt hge
    simp only [connectLoop] at hge
    omega
  | cons url rest ih =>
    intro i s hlt hge
    obtain ⟨_, _, h3⟩ := connectIteration_counter cfg s url (env i) d (henv i) hlt
    rw [List.cons_append, connectLoop_cons, connectLoop_cons]
    rw [connectLoop_cons] at hge
    cases hfl : (connectIteration cfg s url (env i)).2.2 with
    | ret e => rfl
    | next =>
      simp only [hfl] at hge
      simp only [ih (i + 1) _ (h3 hfl) hge]


/-! ## The loops of `SendFollowups` and the day counter -/

theorem followupsPerformed_append (a b : List Event) :
    followupsPerformed (a ++ b) = followupsPerformed a + followupsPerformed b := by
  simp [followupsPerformed, List.countP_append]

theorem followupsPerformed_sendEvents (url : String) (f c : Bool) :
    followupsPerformed (sendEvents url f c) = 0 := by
  unfold sendEvents followupsPerformed
  cases f <;> simp [List.countP_cons, Event.isFollowup]

theorem followIteration_skip (cfg : Config) (s : Store) (url : String) (pg : FollowPage)
    (h : pg.acts = false) :
    (followIteration cfg s url pg).1 = s ∧
    followupsPerformed (followIteration cfg s url pg).2.1 = 0 ∧
    ((followIteration cfg s url pg).2.2 = .next ∨
      ((followIteration cfg s url pg).2.2 = .ret (some .cancelled) ∧
        (followIteration cfg s url pg).2.1 = [])) := by
  unfold FollowPage.acts at h
  unfold followIteration
  by_cases h1 : pg.cancelled = true
  · simp [h1, followupsPerformed]
  by_cases h2 : pg.navigateOk = true
  swap
  · simp [h1, h2, followupsPerformed, Event.isFollowup]
  by_cases h3 : pg.messageFound = true
  swap
  · simp [h1, h2, h3, followupsPerformed, Event.isFollowup]
  by_cases h4 : pg.editorFound = true
  swap
  · simp [h1, h2, h3, h4, followupsPerformed, Event.isFollowup]
  by_cases h5 : pg.typeOk = true
  swap
  · simp [h1, h2, h3, h4, h5, followupsPerformed, Event.isFollowup]
  simp [h1, h2, h3, h4, h5] at h

theorem followIteration_act (cfg : Config) (s : Store) (url : String) (pg : FollowPage)
    (h : pg.acts = true) :
    (followIteration cfg s url pg).1 = followWrites cfg s url pg ∧
    followupsPerformed (followIteration cfg s url pg).2.1 = 1 ∧
    (followIteration cfg s url pg).2.2 =
      (if readCounter (followWrites cfg s url pg) "messages" pg.tRead pg.readOk
          ≥ cfg.DailyMessages then .ret none
        else if followPause cfg pg then .next else .ret (some .crashed)) := by
  unfold FollowPage.acts at h
  simp only [Bool.and_eq_true, Bool.not_eq_true'] at h
  obtain ⟨⟨⟨⟨h1, h2⟩, h3⟩, h4⟩, h5⟩ := h
  unfold followIteration
  simp only [h1, h2, h3, h4, h5, Bool.not_true, Bool.false_eq_true, if_false]
  by_cases hr : readCounter (followWrites cfg s url pg) "messages" pg.tRead pg.readOk
      ≥ cfg.DailyMessages
  · simp only [hr, if_true, followupsPerformed_append, followupsPerformed_sendEvents, true_and]
    simp [followupsPerformed, List.countP_cons, Event.isFollowup]
  · cases hp : followPause cfg pg <;>
    · simp only [hr, if_false, if_true, Bool.false_eq_true, followupsPerformed_append,
        followupsPerformed_sendEvents, true_and, and_true]
      simp [followupsPerformed, List.countP_cons, Event.isFollowup]

theorem keepOnError_SaveMessage_counters (s : Store) (url body : String) (t t2 : Time)
    (ok ok2 : Bool) :
    (keepOnError s (SaveMessage s url body t t2 ok ok2)).counters = s.counters := by
  unfold SaveMessage keepOnError
  cases ok <;> cases ok2 <;> simp

theorem followWrites_counterAt (cfg : Config) (s : Store) (url : String) (pg : FollowPage)
    (d : Nat) (hok : pg.incrOk = true) (hd : pg.tIncr.date = d) :
    counterAt (followWrites cfg s url pg) "messages" d = counterAt s "messages" d + 1 := by
  unfold followWrites
  simp only [counterAt, keepOnError_SaveMessage_counters]
  rw [hok, afterIncrement_select, hd]
  simp [counterAt]

theorem followLoop_cons (cfg : Config) (env : Nat → FollowPage) (i : Nat) (s : Store)
    (url : String) (rest : List String) :
    followLoop cfg env i s (url :: rest) =
      match (followIteration cfg s url (env i)).2.2 with
      | .ret e => ⟨(followIteration cfg s url (env i)).1, (followIteration cfg s url (env i)).2.1, e⟩
      | .next =>
        ⟨(followLoop cfg env (i + 1) (followIteration cfg s url (env i)).1 rest).store,
          (followIteration cfg s url (env i)).2.1 ++
            (followLoop cfg env (i + 1) (followIteration cfg s url (env i)).1 rest).trace,
          (followLoop cfg env (i + 1) (followIteration cfg s url (env i)).1 rest).err⟩ := by
  rcases h : followIteration cfg s url (env i) with ⟨s1, ev, fl⟩
  cases fl <;> simp [followLoop, h]

theorem followIteration_counter (cfg : Config) (s : Store) (url : String) (pg : FollowPage)
    (d : Nat) (hpg : pg.countersOn d) (hlt : counterAt s "messages" d < cfg.DailyMessages) :
    counterAt (followIteration cfg s url pg).1 "messages" d
      = counterAt s "messages" d + followupsPerformed (followIteration cfg s url pg).2.1 ∧
    counterAt (followIteration cfg s url pg).1 "messages" d ≤ cfg.DailyMessages ∧
    ((followIteration cfg s url pg).2.2 = .next →
      counterAt (followIteration cfg s url pg).1 "messages" d < cfg.DailyMessages) := by
  obtain ⟨hi, hr, hdi, hdr⟩ := hpg
  cases hacts : pg.acts
  · obtain ⟨h1, h2, _⟩ := followIteration_skip cfg s url pg hacts
    rw [h1, h2]
    exact ⟨by simp, le_of_lt hlt, fun _ => hlt⟩
  · obtain ⟨h1, h2, h3⟩ := followIteration_act cfg s url pg hacts
    rw [h1, h2, h3, followWrites_counterAt cfg s url pg d hi hdi, hr, readCounter_ok, hdr,
      followWrites_counterAt cfg s url pg d hi hdi]
    refine ⟨by simp, by omega, ?_⟩
    intro hfl
    by_cases hge : counterAt s "messages" d + 1 ≥ cfg.DailyMessages
    · simp [hge] at hfl
    · omega

theorem followLoop_counter (cfg : Config) (env : Nat → FollowPage) (d : Nat)
    (henv : ∀ j, (env j).countersOn d) (urls : List String) :
    ∀ (i : Nat) (s : Store), counterAt s "messages" d < cfg.DailyMessages →
      counterAt (followLoop cfg env i s urls).store "messages" d
        = counterAt s "messages" d + followupsPerformed (followLoop cfg env i s urls).trace ∧
      counterAt (followLoop cfg env i s urls).store "messages" d ≤ cfg.DailyMessages := by
  induction urls with
  | nil => intro i s hlt; simp [followLoop, followupsPerformed, le_of_lt hlt]
  | cons url rest ih =>
    intro i s hlt
    obtain ⟨h1, h2, h3⟩ := followIteration_counter cfg s url (env i) d (henv i) hlt
    rw [followLoop_cons]
    cases hfl : (followIteration cfg s url (env i)).2.2 with
    | ret e => exact ⟨h1, h2⟩
    | next =>
      obtain ⟨g1, g2⟩ := ih (i + 1) _ (h3 hfl)
      simp only [followupsPerformed_append]
      refine ⟨?_, g2⟩
      rw [g1, h1]; push_cast; ring

theorem followLoop_gate (cfg : Config) (env : Nat → FollowPage) (d : Nat)
    (henv : ∀ j, (env j).countersOn d) (pre post : List String) :
    ∀ (i : Nat) (s : Store), counterAt s "messages" d < cfg.DailyMessages →
      cfg.DailyMessages ≤ counterAt (followLoop cfg env i s pre).store "messages" d →
      followLoop cfg env i s (pre ++ post) = followLoop cfg env i s pre := by
  induction pre with
  | nil =>
    intro i s hlt hge
    simp only [followLoop] at hge
    omega
  | cons url rest ih =>
    intro i s hlt hge
    obtain ⟨_, _, h3⟩ := followIteration_counter cfg s url (env i) d (henv i) hlt
    rw [List.cons_append, followLoop_cons, followLoop_cons]
    rw [followLoop_cons] at hge
    cases hfl : (followIteration cfg s url (env i)).2.2 with
    | ret e => rfl
    | next =>
      simp only [hfl] at hge
      simp only [ih (i + 1) _ (h3 hfl) hge]

theorem keepOnError_MarkAccepted_counters (s : Store) (url : String) (t : Time) (ok : Bool) :
    (keepOnError s (MarkAccepted s url t ok)).counters = s.counters := by
  unfold MarkAccepted keepOnError
  cases ok <;> simp

theorem keepOnError_MarkAccepted_messages (s : Store) (url : String) (t : Time) (ok : Bool) :
    (keepOnError s (MarkAccepted s url t ok)).messages = s.messages := by
  unfold MarkAccepted keepOnError
  cases ok <;> simp

theorem acceptIteration_frame (s : Store) (url : String) (pg : AcceptPage) :
    (acceptIteration s url pg).1.counters = s.counters ∧
    (acceptIteration s url pg).1.messages = s.messages ∧
    followupsPerformed (acceptIteration s url pg).2.1 = 0 ∧
    connectsPerformed (acceptIteration s url pg).2.1 = 0 := by
  unfold acceptIteration
  cases pg.cancelled <;> cases pg.navigateOk <;> cases pg.messageFound <;>
    simp [keepOnError_MarkAccepted_counters, keepOnError_MarkAccepted_messages,
      followupsPerformed, connectsPerformed, Event.isFollowup, Event.isConnect]

theorem acceptLoop_frame (env : Nat → AcceptPage) (urls : List String) :
    ∀ (i : Nat) (s : Store),
      (acceptLoop env i s urls).store.counters = s.counters ∧
      (acceptLoop env i s urls).store.messages = s.messages ∧
      followupsPerformed (acceptLoop env i s urls).trace = 0 ∧
      connectsPerformed (acceptLoop env i s urls).trace = 0 := by
  induction urls with
  | nil => intro i s; simp [acceptLoop, followupsPerformed, connectsPerformed]
  | cons url rest ih =>
    intro i s
    obtain ⟨h1, h2, h3, h4⟩ := acceptIteration_frame s url (env i)
    rcases h : acceptIteration s url (env i) with ⟨s1, ev, fl⟩
    rw [h] at h1 h2 h3 h4
    simp only at h1 h2 h3 h4
    obtain ⟨g1, g2, g3, g4⟩ := ih (i + 1) s1
    cases fl with
    | next =>
      simp only [acceptLoop, h, g1, g2, h1, h2, followupsPerformed_append,
        connectsPerformed_append, g3, g4, h3, h4, and_self]
    | ret e => simp only [acceptLoop, h, h1, h2, h3, h4, and_self]

theorem detectAccepted_frame (ok : Bool) (env : Nat → AcceptPage) (s : Store) :
    (detectAccepted ok env s).store.counters = s.counters ∧
    (detectAccepted ok env s).store.messages = s.messages ∧
    followupsPerformed (detectAccepted ok env s).trace = 0 ∧
    connectsPerformed (detectAccepted ok env s).trace = 0 := by
  unfold detectAccepted RequestedConnections
  cases ok
  · simp [followupsPerformed, connectsPerformed]
  · exact acceptLoop_frame env _ 0 s


/-! ## Quota gate -/

theorem SendConnections_counter (cfg : Config) (d : Nat) (t0 : Time) (env : Nat → ConnectPage)
    (ht0 : t0.date = d) (henv : ∀ j, (env j).countersOn d) (s : Store) (profiles : List String) :
    counterAt (SendConnections cfg t0 true env s profiles).store "connections" d
      = counterAt s "connections" d
          + connectsPerformed (SendConnections cfg t0 true env s profiles).trace ∧
    counterAt (SendConnections cfg t0 true env s profiles).store "connections" d
      ≤ max (counterAt s "connections" d) cfg.DailyConnections ∧
    (cfg.DailyConnections ≤ counterAt s "connections" d →
      SendConnections cfg t0 true env s profiles = ⟨s, [], none⟩) := by
  unfold SendConnections
  rw [readCounter_ok, ht0]
  by_cases hge : counterAt s "connections" d ≥ cfg.DailyConnections
  · simp only [hge, if_true, connectsPerformed, List.countP_nil, Nat.cast_zero, add_zero,
      true_and, implies_true, and_true]
    exact le_max_left _ _
  · rw [if_neg hge]
    obtain ⟨h1, h2⟩ := connectLoop_counter cfg env d henv profiles 0 s (lt_of_not_ge hge)
    exact ⟨h1, le_trans h2 (le_max_right _ _), fun h => absurd h hge⟩

theorem SendConnections_gate (cfg : Config) (d : Nat) (t0 : Time) (env : Nat → ConnectPage)
    (ht0 : t0.date = d) (henv : ∀ j, (env j).countersOn d) (s : Store) (pre post : List String)
    (hge : cfg.DailyConnections
      ≤ counterAt (SendConnections cfg t0 true env s pre).store "connections" d) :
    SendConnections cfg t0 true env s (pre ++ post) = SendConnections cfg t0 true env s pre := by
  unfold SendConnections at hge ⊢
  rw [readCounter_ok, ht0] at hge ⊢
  by_cases h0 : counterAt s "connections" d ≥ cfg.DailyConnections
  · simp only [h0, if_true]
  · simp only [h0, if_false] at hge ⊢
    exact connectLoop_gate cfg env d henv pre post 0 s (lt_of_not_ge h0) hge

theorem sendPending_counter (cfg : Config) (d : Nat) (env : FollowEnv)
    (ht0 : env.t0.date = d) (hok0 : env.ok0 = true) (henv : ∀ j, (env.follow j).countersOn d)
    (s : Store) :
    counterAt (sendPending cfg env s).store "messages" d
      = counterAt s "messages" d + followupsPerformed (sendPending cfg env s).trace ∧
    counterAt (sendPending cfg env s).store "messages" d
      ≤ max (counterAt s "messages" d) cfg.DailyMessages ∧
    (cfg.DailyMessages ≤ counterAt s "messages" d →
      (sendPending cfg env s).store = s ∧ (sendPending cfg env s).trace = []) := by
  unfold sendPending PendingFollowups
  cases env.pendingOk
  · simp [followupsPerformed]
  · simp only [if_true]
    rw [hok0, readCounter_ok, ht0]
    by_cases hge : counterAt s "messages" d ≥ cfg.DailyMessages
    · simp only [hge, if_true, followupsPerformed, List.countP_nil, Nat.cast_zero, add_zero,
        true_and, implies_true, and_true]
      exact le_max_left _ _
    · rw [if_neg hge]
      obtain ⟨h1, h2⟩ := followLoop_counter cfg env.follow d henv _ 0 s (lt_of_not_ge hge)
      exact ⟨h1, le_trans h2 (le_max_right _ _), fun h => absurd h hge⟩

theorem SendFollowups_counter (cfg : Config) (d : Nat) (env : FollowEnv)
    (ht0 : env.t0.date = d) (hok0 : env.ok0 = true) (henv : ∀ j, (env.follow j).countersOn d)
    (s : Store) :
    counterAt (SendFollowups cfg env s).store "messages" d
      = counterAt s "messages" d + followupsPerformed (SendFollowups cfg env s).trace ∧
    counterAt (SendFollowups cfg env s).store "messages" d
      ≤ max (counterAt s "messages" d) cfg.DailyMessages ∧
    (cfg.DailyMessages ≤ counterAt s "messages" d →
      (SendFollowups cfg env s).trace = (detectAccepted env.requestedOk env.accept s).trace ∧
      (SendFollowups cfg env s).store = (detectAccepted env.requestedOk env.accept s).store) := by
  obtain ⟨f1, _, f3, _⟩ := detectAccepted_frame env.requestedOk env.accept s
  have hc : counterAt (detectAccepted env.requestedOk env.accept s).store "messages" d
      = counterAt s "messages" d := by simp [counterAt, f1]
  unfold SendFollowups
  cases he : (detectAccepted env.requestedOk env.accept s).err with
  | some e =>
    simp only [he, hc, f3, Nat.cast_zero, add_zero, true_and, implies_true, and_true]
    exact le_max_left _ _
  | none =>
    obtain ⟨g1, g2, g3⟩ := sendPending_counter cfg d env ht0 hok0 henv
      (detectAccepted env.requestedOk env.accept s).store
    rw [hc] at g1 g2 g3
    simp only [he, followupsPerformed_append, f3, Nat.cast_add, Nat.cast_zero, zero_add]
    refine ⟨g1, g2, fun h => ?_⟩
    obtain ⟨g4, g5⟩ := g3 h
    simp [g4, g5]


/-- C1: with the date fixed to `d` and the counter statements succeeding, for
every candidate list, cap and starting counter value: `SendConnections` does
nothing at all when the `connections` counter of the day is already at the cap,
and once the counter has reached the cap after some prefix of the candidates,
further candidates change nothing (no later connect action); the counter after
the run is the starting value plus the number of successful Connect clicks and
is at most `max c0 cap`, so for a non-negative start the number of connect
actions is at most the cap. The same holds for `SendFollowups`, the `messages`
counter and the typed follow-ups. -/
theorem quota_gate (cfg : Config) (d : Nat) (s : Store) (t0 : Time) (cenv : Nat → ConnectPage)
    (fenv : FollowEnv)
    (ht0 : t0.date = d) (hc : ∀ j, (cenv j).countersOn d)
    (hf0 : fenv.t0.date = d) (hfok : fenv.ok0 = true) (hf : ∀ j, (fenv.follow j).countersOn d) :
    (∀ profiles : List String,
      counterAt (SendConnections cfg t0 true cenv s profiles).store "connections" d
        = counterAt s "connections" d
            + connectsPerformed (SendConnections cfg t0 true cenv s profiles).trace ∧
      counterAt (SendConnections cfg t0 true cenv s profiles).store "connections" d
        ≤ max (counterAt s "connections" d) cfg.DailyConnections ∧
      (cfg.DailyConnections ≤ counterAt s "connections" d →
        SendConnections cfg t0 true cenv s profiles = ⟨s, [], none⟩) ∧
      (0 ≤ counterAt s "connections" d → 0 ≤ cfg.DailyConnections →
        (connectsPerformed (SendConnections cfg t0 true cenv s profiles).trace : Int)
          ≤ cfg.DailyConnections)) ∧
    (∀ pre post : List String,
      cfg.DailyConnections
        ≤ counterAt (SendConnections cfg t0 true cenv s pre).store "connections" d →
      SendConnections cfg t0 true cenv s (pre ++ post) = SendConnections cfg t0 true cenv s pre) ∧
    (counterAt (SendFollowups cfg fenv s).store "messages" d
        = counterAt s "messages" d + followupsPerformed (SendFollowups cfg fenv s).trace ∧
      counterAt (SendFollowups cfg fenv s).store "messages" d
        ≤ max (counterAt s "messages" d) cfg.DailyMessages ∧
      (cfg.DailyMessages ≤ counterAt s "messages" d →
        (SendFollowups cfg fenv s).trace = (detectAccepted fenv.requestedOk fenv.accept s).trace ∧
        (SendFollowups cfg fenv s).store = (detectAccepted fenv.requestedOk fenv.accept s).store) ∧
      (0 ≤ counterAt s "messages" d → 0 ≤ cfg.DailyMessages →
        (followupsPerformed (SendFollowups cfg fenv s).trace : Int) ≤ cfg.DailyMessages)) ∧
    (∀ (i : Nat) (s1 : Store) (pre post : List String),
      counterAt s1 "messages" d < cfg.DailyMessages →
      cfg.DailyMessages ≤ counterAt (followLoop cfg fenv.follow i s1 pre).store "messages" d →
      followLoop cfg fenv.follow i s1 (pre ++ post) = followLoop cfg fenv.follow i s1 pre) := by
  refine ⟨fun profiles => ?_, fun pre post h => SendConnections_gate cfg d t0 cenv ht0 hc s pre post h,
    ?_, fun i s1 pre post h1 h2 => followLoop_gate cfg fenv.follow d hf pre post i s1 h1 h2⟩
  · obtain ⟨h1, h2, h3⟩ := SendConnections_counter cfg d t0 cenv ht0 hc s profiles
    refine ⟨h1, h2, h3, fun hc0 hcap => ?_⟩
    by_cases hge : cfg.DailyConnections ≤ counterAt s "connections" d
    · rw [h3 hge]; simpa [connectsPerformed] using hcap
    · have hmax : max (counterAt s "connections" d) cfg.DailyConnections = cfg.DailyConnections :=
        max_eq_right (le_of_lt (lt_of_not_ge hge))
      rw [hmax] at h2
      omega
  · obtain ⟨h1, h2, h3⟩ := SendFollowups_counter cfg d fenv hf0 hfok hf s
    refine ⟨h1, h2, h3, fun hc0 hcap => ?_⟩
    by_cases hge : cfg.DailyMessages ≤ counterAt s "messages" d
    · rw [(h3 hge).1, (detectAccepted_frame _ _ _).2.2.1]; simpa using hcap
    · have hmax : max (counterAt s "messages" d) cfg.DailyMessages = cfg.DailyMessages :=
        max_eq_right (le_of_lt (lt_of_not_ge hge))
      rw [hmax] at h2
      omega

theorem quota_gate_witness :
    (day100 10).date = 100 ∧ ConnectPage.countersOn 100 goodPage ∧
    FollowPage.countersOn 100 goodFollow ∧
    counterAt (SendConnections demoCfg (day100 10) true (fun _ => goodPage) emptyStore
        ["a", "b", "c", "d", "e"]).store "connections" 100
      ≤ max (counterAt emptyStore "connections" 100) demoCfg.DailyConnections :=
  ⟨rfl, ⟨rfl, rfl, rfl, rfl⟩, ⟨rfl, rfl, rfl, rfl⟩,
    ((quota_gate demoCfg 100 emptyStore (day100 10) (fun _ => goodPage) goodFollowEnv rfl
      (fun _ => ⟨rfl, rfl, rfl, rfl⟩) rfl rfl (fun _ => ⟨rfl, rfl, rfl, rfl⟩)).1
      ["a", "b", "c", "d", "e"]).2.1⟩


/-! ## Quota reached inside the loop -/

theorem connectTargets_append (a b : List Event) :
    connectTargets (a ++ b) = connectTargets a ++ connectTargets b := by
  simp [connectTargets, List.filterMap_append]

theorem connectTargets_noteEvents (cfg : Config) (url : String) (pg : ConnectPage) :
    connectTargets (noteEvents cfg url pg) = [] := by
  unfold noteEvents connectTargets
  by_cases h1 : pg.addNoteFound <;> by_cases h2 : pg.textAreaFound <;>
    simp [h1, h2, List.filterMap_cons]

theorem connectTargets_sendEvents (url : String) (f c : Bool) :
    connectTargets (sendEvents url f c) = [] := by
  unfold sendEvents connectTargets
  cases f <;> simp [List.filterMap_cons]

theorem connectIteration_act_targets (cfg : Config) (s : Store) (url : String) (pg : ConnectPage)
    (h : pg.acts cfg = true) :
    connectTargets (connectIteration cfg s url pg).2.1 = [url] := by
  unfold ConnectPage.acts at h
  simp only [Bool.and_eq_true, Bool.not_eq_true'] at h
  obtain ⟨⟨⟨⟨h1, h2⟩, h3⟩, h4⟩, h5⟩ := h
  unfold connectIteration
  simp only [h1, h2, h3, h4, h5, Bool.not_true, Bool.false_eq_true, if_false]
  by_cases hr : readCounter (connectWrites s url pg) "connections" pg.tRead pg.readOk
      ≥ cfg.DailyConnections
  · simp only [hr, if_true, connectTargets_append, connectTargets_noteEvents,
      connectTargets_sendEvents]
    cases hb : pg.bodyWide <;> simp [connectTargets, List.filterMap_cons]
  · cases hp : connectPause cfg pg <;>
    · simp only [hr, if_false, if_true, Bool.false_eq_true, connectTargets_append,
        connectTargets_noteEvents, connectTargets_sendEvents]
      cases hb : pg.bodyWide <;> simp [connectTargets, List.filterMap_cons]

theorem connectWrites_connections (s : Store) (url : String) (pg : ConnectPage)
    (hok : pg.saveOk = true) :
    (connectWrites s url pg).connections =
      if url ∈ profileURLs s then
        s.connections.map (fun r => if r.profile_url = url then { r with status := "requested" } else r)
      else s.connections ++ [⟨url, pg.name, pg.company, "requested", some pg.tSave, none, none⟩] := by
  unfold connectWrites SaveConnection keepOnError
  simp only [hok, if_true, afterIncrement_connections]
  by_cases hin : url ∈ profileURLs s
  · have hany : s.connections.any (fun r => r.profile_url == url) = true :=
      (any_url_iff _ _).2 hin
    simp [hany, hin]
  · have hany : ¬ s.connections.any (fun r => r.profile_url == url) = true :=
      fun h => hin ((any_url_iff _ _).1 h)
    simp [hany, hin]

theorem connectWrites_messages (s : Store) (url : String) (pg : ConnectPage) :
    (connectWrites s url pg).messages = s.messages := by
  unfold connectWrites
  rw [keepOnError_SaveConnection_messages, afterIncrement_messages]

theorem mem_profileURLs_iff (s : Store) (url : String) :
    url ∈ profileURLs s ↔ rowsOf s url ≠ [] := by
  unfold profileURLs rowsOf
  simp only [List.mem_map, ne_eq, List.filter_eq_nil_iff, beq_iff_eq, not_forall, Classical.not_imp,
    not_not]
  constructor
  · rintro ⟨r, hr, h⟩; exact ⟨r, hr, h⟩
  · rintro ⟨r, hr, h⟩; exact ⟨r, hr, h⟩

theorem connectWrites_rowsOf_other (s : Store) (url u : String) (pg : ConnectPage)
    (hok : pg.saveOk = true) (hne : u ≠ url) :
    rowsOf (connectWrites s url pg) u = rowsOf s u := by
  unfold rowsOf
  rw [connectWrites_connections s url pg hok]
  by_cases hin : url ∈ profileURLs s
  · rw [if_pos hin, List.filter_map]
    have hf : ((fun r : Connection => r.profile_url == u) ∘
        (fun r : Connection => if r.profile_url = url then { r with status := "requested" } else r))
        = (fun r : Connection => r.profile_url == u) := by
      funext r
      by_cases h : r.profile_url = url <;> simp [h]
    rw [hf]
    conv_rhs => rw [← List.map_id (List.filter _ s.connections)]
    apply List.map_congr_left
    intro r hr
    have hru : r.profile_url = u := by simpa using (List.mem_filter.1 hr).2
    have : ¬ r.profile_url = url := fun h => hne (hru ▸ h)
    simp [this]
  · rw [if_neg hin, List.filter_append]
    have : ¬ url = u := fun h => hne h.symm
    simp [List.filter_cons, this]

theorem connectWrites_rowsOf_self (s : Store) (url : String) (pg : ConnectPage)
    (hok : pg.saveOk = true) :
    rowsOf (connectWrites s url pg) url ≠ [] ∧
    ∀ r ∈ rowsOf (connectWrites s url pg) url, r.status = "requested" := by
  unfold rowsOf
  rw [connectWrites_connections s url pg hok]
  by_cases hin : url ∈ profileURLs s
  · rw [if_pos hin]
    constructor
    · obtain ⟨r, hr, hu⟩ := List.mem_map.1 hin
      intro hnil
      have hmem : ({ r with status := "requested" } : Connection) ∈
          List.filter (fun r => r.profile_url == url)
            (s.connections.map (fun r => if r.profile_url = url
              then { r with status := "requested" } else r)) := by
        refine List.mem_filter.2 ⟨List.mem_map.2 ⟨r, hr, by simp [hu]⟩, by simpa using hu⟩
      rw [hnil] at hmem
      exact absurd hmem (List.not_mem_nil _)
    · intro r hr
      obtain ⟨hm, hu⟩ := List.mem_filter.1 hr
      obtain ⟨r0, _, h0⟩ := List.mem_map.1 hm
      by_cases h : r0.profile_url = url
      · rw [if_pos h] at h0; rw [← h0]
      · rw [if_neg h] at h0
        subst h0
        exact absurd (by simpa using hu) h
  · rw [if_neg hin, List.filter_append]
    have hnone : List.filter (fun r => r.profile_url == url) s.connections = [] := by
      have := (mem_profileURLs_iff s url).not.1 hin
      simpa [rowsOf] using this
    rw [hnone]
    simp [List.filter_cons]

theorem connectWrites_profileURLs (s : Store) (url : String) (pg : ConnectPage)
    (hok : pg.saveOk = true) :
    profileURLs (connectWrites s url pg) =
      if url ∈ profileURLs s then profileURLs s else profileURLs s ++ [url] := by
  unfold profileURLs
  rw [connectWrites_connections s url pg hok]
  by_cases hin : url ∈ profileURLs s
  · have hin2 : url ∈ s.connections.map (fun r => r.profile_url) := hin
    rw [if_pos hin, if_pos hin2, map_url_setStatus]
  · have hin2 : ¬ url ∈ s.connections.map (fun r => r.profile_url) := hin
    rw [if_neg hin, if_neg hin2]
    simp

/-! ## Pauses -/

theorem wrap64_id (n : Int) (h1 : -2 ^ 63 ≤ n) (h2 : n < 2 ^ 63) : wrap64 n = n := by
  unfold wrap64
  omega

theorem wrap64_sub_wrap64 (a b : Int) : wrap64 (wrap64 a - b) = wrap64 (a - b) := by
  unfold wrap64
  omega

theorem randIntn_pos (n : Int) (draw : Nat) (hn : 0 < n) :
    randIntn n draw = some ((draw : Int) % n) ∧ 0 ≤ (draw : Int) % n ∧ (draw : Int) % n < n := by
  unfold randIntn
  rw [if_neg (by omega)]
  exact ⟨rfl, Int.emod_nonneg _ (by omega), Int.emod_lt_of_pos _ hn⟩

theorem randIntn_hit (n a : Int) (h0 : 0 ≤ a) (hlt : a < n) :
    randIntn n a.toNat = some a := by
  unfold randIntn
  rw [if_neg (by omega), Int.toNat_of_nonneg h0, Int.emod_eq_of_lt h0 hlt]

theorem RandomPause_returns (minMs maxMs jitterMs : Int) (draw1 draw2 : Nat)
    (hj : 0 ≤ jitterMs) (hj2 : jitterMs < 2 ^ 63 - 1)
    (hm : maxMs ≤ minMs ∨ maxMs - minMs < 2 ^ 63) :
    (RandomPause minMs maxMs jitterMs draw1 draw2).isSome = true := by
  have h1 : 0 < wrap64 ((if maxMs ≤ minMs then wrap64 (minMs + 50) else maxMs) - minMs) := by
    by_cases h : maxMs ≤ minMs
    · rw [if_pos h, wrap64_sub_wrap64]
      unfold wrap64
      omega
    · rw [if_neg h]
      have : maxMs - minMs < 2 ^ 63 := by
        rcases hm with hm | hm
        · exact absurd hm h
        · exact hm
      rw [wrap64_id _ (by omega) this]
      omega
  have h2 : 0 < wrap64 (jitterMs + 1) := by
    rw [wrap64_id _ (by omega) (by omega)]
    omega
  unfold RandomPause
  simp only [(randIntn_pos _ draw1 h1).1, (randIntn_pos _ draw2 h2).1, Option.isSome_some]

theorem ThinkTime_returns (baseMs : Int) (draw : Nat) (h1 : -400 < baseMs) (h2 : baseMs < 2 ^ 63) :
    (ThinkTime baseMs draw).isSome = true := by
  have hd : -200 < Int.tdiv baseMs 2 ∧ Int.tdiv baseMs 2 < 2 ^ 62 := by
    rcases le_or_lt 0 baseMs with h | h
    · rw [Int.tdiv_eq_ediv h (by norm_num)]
      omega
    · have : Int.tdiv baseMs 2 = -((-baseMs) / 2) := by
        rw [← Int.tdiv_eq_ediv (by omega) (by norm_num), Int.neg_tdiv, neg_neg]
      rw [this]
      omega
  have h3 : 0 < wrap64 (Int.tdiv baseMs 2 + 200) := by
    rw [wrap64_id _ (by omega) (by omega)]
    omega
  unfold ThinkTime
  simp only [(randIntn_pos _ draw h3).1, Option.isSome_some]

theorem connectPause_of_safe (cfg : Config) (pg : ConnectPage) (hp : cfg.pauseSafe)
    (ht : cfg.thinkSafe) : connectPause cfg pg = true := by
  unfold connectPause
  rw [RandomPause_returns _ _ _ _ _ hp.1 hp.2.1 hp.2.2, ThinkTime_returns _ _ ht.1 ht.2]
  rfl

theorem followPause_of_safe (cfg : Config) (pg : FollowPage) (hp : cfg.pauseSafe) :
    followPause cfg pg = true := by
  unfold followPause
  exact RandomPause_returns _ _ _ _ _ hp.1 hp.2.1 hp.2.2

theorem searchPause_of_safe (cfg : Config) (pg : SearchPage) (hp : cfg.pauseSafe) :
    searchPause cfg pg = true := by
  unfold searchPause
  exact RandomPause_returns _ _ _ _ _ hp.1 hp.2.1 hp.2.2

theorem demoCfg_safe : demoCfg.pauseSafe ∧ demoCfg.thinkSafe := by
  unfold Config.pauseSafe Config.thinkSafe demoCfg
  norm_num

theorem roomyCfg_safe : roomyCfg.pauseSafe ∧ roomyCfg.thinkSafe := by
  unfold Config.pauseSafe Config.thinkSafe roomyCfg
  norm_num

/-- C19 (counterexample): with `jitter_ms` the largest `int`, `jitter_ms + 1`
wraps to the smallest one and `rand.Intn` panics; with `min_ms = -5 * 10^18` and
`max_ms = 5 * 10^18` the difference wraps to a negative number and `rand.Intn`
panics; with `min_ms = 9223372036855` (and `max_ms` one more, no jitter) the
delay of 9223372036855 ms is in the claimed range, but its conversion to
nanoseconds wraps and `time.Sleep` gets a negative duration. -/
theorem RandomPause_overflow :
    (0 : Int) ≤ 9223372036854775807 ∧
    RandomPause 500 1800 9223372036854775807 0 0 = none ∧
    RandomPause (-5000000000000000000) 5000000000000000000 0 0 0 = none ∧
    RandomPause 9223372036855 9223372036856 0 0 0 = some (-9223372036854551616) ∧
    RandomPause 500 1800 400 0 0 = some (500 * 1000000) := by
  decide

/-- C19 (amended): for every `min_ms`, `max_ms` and `jitter_ms >= 0` for which
the two ends of the range, `min_ms` and `M - 1 + jitter_ms`, are durations that
fit in `int64` nanoseconds, where `M = max_ms` if `max_ms > min_ms` and
`M = min_ms + 50` otherwise, and every outcome of the two draws, `RandomPause`
does not panic and hands `time.Sleep` the duration of `d` milliseconds for a `d`
with `min_ms <= d <= M - 1 + jitter_ms`; and every `d` of that range is the
duration for some outcome of the draws. -/
theorem RandomPause_bounds (minMs maxMs jitterMs : Int) (hj : 0 ≤ jitterMs)
    (hlo : -2 ^ 63 ≤ minMs * 1000000)
    (hhi : ((if maxMs > minMs then maxMs else minMs + 50) - 1 + jitterMs) * 1000000 < 2 ^ 63) :
    (∀ draw1 draw2 : Nat, ∃ d, RandomPause minMs maxMs jitterMs draw1 draw2 = some (d * 1000000) ∧
      minMs ≤ d ∧ d ≤ (if maxMs > minMs then maxMs else minMs + 50) - 1 + jitterMs) ∧
    (∀ d : Int, minMs ≤ d → d ≤ (if maxMs > minMs then maxMs else minMs + 50) - 1 + jitterMs →
      ∃ draw1 draw2 : Nat, RandomPause minMs maxMs jitterMs draw1 draw2 = some (d * 1000000)) := by
  have hM : (if maxMs ≤ minMs then wrap64 (minMs + 50) else maxMs)
      = (if maxMs > minMs then maxMs else minMs + 50) := by
    by_cases h : maxMs ≤ minMs
    · rw [if_pos h, if_neg (by omega)] at *
      exact wrap64_id _ (by omega) (by omega)
    · rw [if_neg h, if_pos (by omega)]
  have hpos : 0 < (if maxMs > minMs then maxMs else minMs + 50) - minMs := by
    by_cases h : maxMs > minMs
    · rw [if_pos h]; omega
    · rw [if_neg h]; omega
  have hw1 : wrap64 ((if maxMs > minMs then maxMs else minMs + 50) - minMs)
      = (if maxMs > minMs then maxMs else minMs + 50) - minMs :=
    wrap64_id _ (by omega) (by omega)
  have hw2 : wrap64 (jitterMs + 1) = jitterMs + 1 := wrap64_id _ (by omega) (by omega)
  have key : ∀ a b : Int, 0 ≤ a → a < (if maxMs > minMs then maxMs else minMs + 50) - minMs →
      0 ≤ b → b < jitterMs + 1 →
      wrap64 (wrap64 (wrap64 (minMs + a) + b) * 1000000) = (minMs + a + b) * 1000000 := by
    intro a b ha1 ha2 hb1 hb2
    rw [wrap64_id (minMs + a) (by omega) (by omega), wrap64_id (minMs + a + b) (by omega) (by omega),
      wrap64_id _ (by omega) (by omega)]
  constructor
  · intro draw1 draw2
    obtain ⟨a1, a2, a3⟩ := randIntn_pos _ draw1 hpos
    obtain ⟨b1, b2, b3⟩ := randIntn_pos (jitterMs + 1) draw2 (by omega)
    refine ⟨minMs + (draw1 : Int) % ((if maxMs > minMs then maxMs else minMs + 50) - minMs)
      + (draw2 : Int) % (jitterMs + 1), ?_, by omega, by omega⟩
    unfold RandomPause
    simp only [hM, hw1, hw2, a1, b1, key _ _ a2 a3 b2 b3]
  · intro d hlo2 hhi2
    have hsplit : ∃ a b : Int, 0 ≤ a ∧
        a < (if maxMs > minMs then maxMs else minMs + 50) - minMs ∧ 0 ≤ b ∧ b < jitterMs + 1 ∧
        d = minMs + a + b := by
      by_cases hd : d - minMs < (if maxMs > minMs then maxMs else minMs + 50) - minMs
      · exact ⟨d - minMs, 0, by omega, hd, le_refl _, by omega, by ring⟩
      · exact ⟨(if maxMs > minMs then maxMs else minMs + 50) - minMs - 1,
          d - minMs - ((if maxMs > minMs then maxMs else minMs + 50) - minMs - 1),
          by omega, by omega, by omega, by omega, by ring⟩
    obtain ⟨a, b, ha1, ha2, hb1, hb2, rfl⟩ := hsplit
    refine ⟨a.toNat, b.toNat, ?_⟩
    unfold RandomPause
    simp only [hM, hw1, hw2, randIntn_hit _ a ha1 ha2, randIntn_hit _ b hb1 hb2,
      key a b ha1 ha2 hb1 hb2]

theorem RandomPause_bounds_witness :
    RandomPause 500 1800 400 1299 400 = some (2199 * 1000000) ∧
    (∃ d, RandomPause 500 1800 400 7 9 = some (d * 1000000) ∧ 500 ≤ d ∧
      d ≤ (if (1800 : Int) > 500 then 1800 else 500 + 50) - 1 + 400) ∧
    (∃ draw1 draw2 : Nat, RandomPause 100 100 0 draw1 draw2 = some (149 * 1000000)) :=
  ⟨by decide,
    (RandomPause_bounds 500 1800 400 (by decide) (by decide) (by decide)).1 7 9,
    (RandomPause_bounds 100 100 0 (by decide) (by decide) (by decide)).2 149 (by decide)
      (by decide)⟩

theorem clickedOn_append (c : String) (a b : List Event) :
    clickedOn c (a ++ b) = clickedOn c a ++ clickedOn c b := by
  simp [clickedOn, List.filterMap_append]

theorem clickedOn_send_noteEvents (cfg : Config) (url : String) (pg : ConnectPage) :
    clickedOn "Send" (noteEvents cfg url pg) = [] := by
  unfold noteEvents clickedOn
  by_cases h1 : pg.addNoteFound <;> by_cases h2 : pg.textAreaFound <;>
    simp [h1, h2, List.filterMap_cons]

theorem connectIteration_act_send (cfg : Config) (s : Store) (url : String) (pg : ConnectPage)
    (h : pg.acts cfg = true) (hs : pg.sendFound = true) :
    clickedOn "Send" (connectIteration cfg s url pg).2.1 = [url] := by
  unfold ConnectPage.acts at h
  simp only [Bool.and_eq_true, Bool.not_eq_true'] at h
  obtain ⟨⟨⟨⟨h1, h2⟩, h3⟩, h4⟩, h5⟩ := h
  unfold connectIteration
  simp only [h1, h2, h3, h4, h5, Bool.not_true, Bool.false_eq_true, if_false]
  by_cases hr : readCounter (connectWrites s url pg) "connections" pg.tRead pg.readOk
      ≥ cfg.DailyConnections
  · simp only [hr, if_true, clickedOn_append, clickedOn_send_noteEvents]
    cases hb : pg.bodyWide <;> simp [clickedOn, sendEvents, hs, List.filterMap_cons]
  · cases hp : connectPause cfg pg <;>
    · simp only [hr, if_false, if_true, Bool.false_eq_true, clickedOn_append,
        clickedOn_send_noteEvents]
      cases hb : pg.bodyWide <;> simp [clickedOn, sendEvents, hs, List.filterMap_cons]

theorem connectLoop_good (cfg : Config) (env : Nat → ConnectPage) (d : Nat)
    (hp : cfg.pauseSafe) (ht : cfg.thinkSafe)
    (henv : ∀ j, (env j).acts cfg = true ∧ (env j).sendFound = true ∧ (env j).countersOn d ∧
      (env j).saveOk = true)
    (urls : List String) :
    ∀ (i : Nat) (s : Store) (b : Nat), urls.Nodup → 0 < b →
      cfg.DailyConnections = counterAt s "connections" d + (b : Int) →
      connectTargets (connectLoop cfg env i s urls).trace = urls.take (min b urls.length) ∧
      clickedOn "Send" (connectLoop cfg env i s urls).trace = urls.take (min b urls.length) ∧
      counterAt (connectLoop cfg env i s urls).store "connections" d
        = counterAt s "connections" d + ((min b urls.length : Nat) : Int) ∧
      (∀ u ∈ urls.take (min b urls.length),
        rowsOf (connectLoop cfg env i s urls).store u ≠ [] ∧
        ∀ r ∈ rowsOf (connectLoop cfg env i s urls).store u, r.status = "requested") ∧
      (∀ u, u ∉ urls.take (min b urls.length) →
        rowsOf (connectLoop cfg env i s urls).store u = rowsOf s u) ∧
      ((∀ u ∈ urls, u ∉ profileURLs s) →
        profileURLs (connectLoop cfg env i s urls).store
          = profileURLs s ++ urls.take (min b urls.length)) ∧
      (connectLoop cfg env i s urls).store.messages = s.messages ∧
      (connectLoop cfg env i s urls).err = none := by
  induction urls with
  | nil => intro i s b _ _ _; simp [connectLoop, connectTargets, clickedOn]
  | cons url rest ih =>
    intro i s b hnd hb hcap
    obtain ⟨hacts, hsend, hcnt, hsave⟩ := henv i
    obtain ⟨hi, hr, hdi, hdr⟩ := hcnt
    obtain ⟨a1, _, a3⟩ := connectIteration_act cfg s url (env i) hacts
    rw [connectPause_of_safe cfg (env i) hp ht] at a3
    have a4 := connectIteration_act_targets cfg s url (env i) hacts
    have a5 := connectIteration_act_send cfg s url (env i) hacts hsend
    have hc1 := connectWrites_counterAt s url (env i) d hi hdi
    rw [hr, readCounter_ok, hdr, hc1] at a3
    have hurl : url ∉ rest := (List.nodup_cons.1 hnd).1
    have hnd2 : rest.Nodup := (List.nodup_cons.1 hnd).2
    rw [connectLoop_cons]
    by_cases hge : counterAt s "connections" d + 1 ≥ cfg.DailyConnections
    · have hb1 : b = 1 := by omega
      subst hb1
      rw [if_pos hge] at a3
      rw [a3]
      have hmin1 : min 1 (url :: rest).length = 1 := by simp
      rw [hmin1]
      simp only [a1, List.take_succ_cons, List.take_zero]
      refine ⟨a4, a5, by rw [hc1]; simp, ?_, ?_, fun hfresh => ?_,
        connectWrites_messages s url _, trivial⟩
      · intro u hu
        rw [List.mem_singleton.1 hu]
        exact connectWrites_rowsOf_self s url _ hsave
      · intro u hu
        exact connectWrites_rowsOf_other s url u _ hsave (fun h => hu (by simp [h]))
      · rw [connectWrites_profileURLs s url _ hsave,
          if_neg (hfresh url (List.mem_cons_self _ _))]
    · rw [if_neg hge, if_pos rfl] at a3
      rw [a3]
      obtain ⟨b2, rfl⟩ : ∃ b2, b = b2 + 2 := ⟨b - 2, by omega⟩
      have hcap2 : cfg.DailyConnections
          = counterAt (connectIteration cfg s url (env i)).1 "connections" d + ((b2 + 1 : Nat) : Int) := by
        rw [a1, hc1, hcap]; push_cast; ring
      obtain ⟨g1, gs, g2, g3, g4, g5, g6, g7⟩ :=
        ih (i + 1) (connectIteration cfg s url (env i)).1 (b2 + 1) hnd2 (by omega) hcap2
      have hmin : min (b2 + 2) (url :: rest).length = min (b2 + 1) rest.length + 1 := by
        simp only [List.length_cons]; omega
      rw [hmin, List.take_succ_cons]
      rw [a1] at g1 gs g2 g3 g4 g5 g6 g7
      simp only [a1, connectTargets_append, clickedOn_append, a4, a5, g1, gs,
        List.singleton_append]
      refine ⟨trivial, trivial, ?_, ?_, ?_, ?_, ?_, g7⟩
      · rw [g2, hc1]; push_cast; ring
      · intro u hu
        rcases List.mem_cons.1 hu with rfl | hu2
        · have hnot : u ∉ rest.take (min (b2 + 1) rest.length) :=
            fun h => hurl (List.mem_of_mem_take h)
          rw [g4 u hnot]
          exact connectWrites_rowsOf_self s u _ hsave
        · exact g3 u hu2
      · intro u hu
        have hne : u ≠ url := fun h => hu (h ▸ List.mem_cons_self _ _)
        have hnot : u ∉ rest.take (min (b2 + 1) rest.length) :=
          fun h => hu (List.mem_cons_of_mem _ h)
        rw [g4 u hnot, connectWrites_rowsOf_other s url u _ hsave hne]
      · intro hfresh
        have hp : profileURLs (connectWrites s url (env i)) = profileURLs s ++ [url] := by
          rw [connectWrites_profileURLs s url _ hsave,
            if_neg (hfresh url (List.mem_cons_self _ _))]
        have hfresh2 : ∀ u ∈ rest, u ∉ profileURLs (connectWrites s url (env i)) := by
          intro u hu hmem
          rw [hp] at hmem
          rcases List.mem_append.1 hmem with h | h
          · exact hfresh u (List.mem_cons_of_mem _ hu) h
          · rw [List.mem_singleton.1 h] at hu
            exact hurl hu
        rw [g5 hfresh2, hp]
        simp
      · rw [g6, connectWrites_messages]

/-- C2 (counterexample): with cap 3, ten candidates and every page offering
Connect and Send inside business hours, a configuration with `jitter_ms: -1`
makes `RandomPause` panic after the first candidate: one connect action, counter
1, no return; the same with `think_time_ms: -400`. With the default delays the
run performs 3 actions and returns no error. -/
theorem quota_run_crashes_in_pause :
    1 ≤ negJitterCfg.DailyConnections ∧ tenProfiles.Nodup ∧
    (SendConnections negJitterCfg (day100 10) true (fun _ => goodPage) emptyStore
      tenProfiles).err = some .crashed ∧
    connectTargets (SendConnections negJitterCfg (day100 10) true (fun _ => goodPage)
      emptyStore tenProfiles).trace = ["p0"] ∧
    counterAt (SendConnections negJitterCfg (day100 10) true (fun _ => goodPage) emptyStore
      tenProfiles).store "connections" 100 = 1 ∧
    (SendConnections negThinkCfg (day100 10) true (fun _ => goodPage) emptyStore
      tenProfiles).err = some .crashed ∧
    connectTargets (SendConnections negThinkCfg (day100 10) true (fun _ => goodPage)
      emptyStore tenProfiles).trace = ["p0"] ∧
    (SendConnections demoCfg (day100 10) true (fun _ => goodPage) emptyStore
      tenProfiles).err = none ∧
    connectTargets (SendConnections demoCfg (day100 10) true (fun _ => goodPage)
      emptyStore tenProfiles).trace = ["p0", "p1", "p2"] := by
  decide

/-- C2 (amended): on a configuration on which `RandomPause` and `ThinkTime` do
not panic, with cap `c >= 1`, distinct candidate URLs, the day counter at 0, and
every iteration not cancelled, inside business hours, on a page that loads and
offers the Connect and Send controls, the Connect click and the counter and
profile statements succeeding, `SendConnections` clicks Connect and then Send on
exactly the first `min c n` candidates in list order, leaves the counter at
`min c n`, leaves each of those profiles recorded with status requested and
every other profile row as it was (on a ledger without these URLs the new rows
are exactly those profiles, in order), returns no error, and its outcome is the
one of a run on the first `min c n` candidates alone: the rest are skipped. -/
theorem quota_reached_mid_loop (cfg : Config) (d : Nat) (t0 : Time) (env : Nat → ConnectPage)
    (s : Store) (urls : List String)
    (hp : cfg.pauseSafe) (ht : cfg.thinkSafe)
    (hcap : 1 ≤ cfg.DailyConnections) (hnd : urls.Nodup)
    (h0 : counterAt s "connections" d = 0) (ht0 : t0.date = d)
    (henv : ∀ j, (env j).acts cfg = true ∧ (env j).sendFound = true ∧ (env j).countersOn d ∧
      (env j).saveOk = true) :
    connectTargets (SendConnections cfg t0 true env s urls).trace
      = urls.take (min cfg.DailyConnections.toNat urls.length) ∧
    clickedOn "Send" (SendConnections cfg t0 true env s urls).trace
      = urls.take (min cfg.DailyConnections.toNat urls.length) ∧
    connectsPerformed (SendConnections cfg t0 true env s urls).trace
      = min cfg.DailyConnections.toNat urls.length ∧
    counterAt (SendConnections cfg t0 true env s urls).store "connections" d
      = ((min cfg.DailyConnections.toNat urls.length : Nat) : Int) ∧
    (∀ u ∈ urls.take (min cfg.DailyConnections.toNat urls.length),
      rowsOf (SendConnections cfg t0 true env s urls).store u ≠ [] ∧
      ∀ r ∈ rowsOf (SendConnections cfg t0 true env s urls).store u, r.status = "requested") ∧
    (∀ u, u ∉ urls.take (min cfg.DailyConnections.toNat urls.length) →
      rowsOf (SendConnections cfg t0 true env s urls).store u = rowsOf s u) ∧
    ((∀ u ∈ urls, u ∉ profileURLs s) →
      profileURLs (SendConnections cfg t0 true env s urls).store
        = profileURLs s ++ urls.take (min cfg.DailyConnections.toNat urls.length)) ∧
    (SendConnections cfg t0 true env s urls).err = none ∧
    SendConnections cfg t0 true env s urls
      = SendConnections cfg t0 true env s
          (urls.take (min cfg.DailyConnections.toNat urls.length)) := by
  have hcnt : ∀ j, (env j).countersOn d := fun j => (henv j).2.2.1
  have hb : cfg.DailyConnections = counterAt s "connections" d + (cfg.DailyConnections.toNat : Int) := by
    rw [h0, Int.toNat_of_nonneg (by omega)]; ring
  have hbpos : 0 < cfg.DailyConnections.toNat := by omega
  have hlt : ¬ readCounter s "connections" t0 true ≥ cfg.DailyConnections := by
    rw [readCounter_ok, ht0, h0]; omega
  have hunf : ∀ l, SendConnections cfg t0 true env s l = connectLoop cfg env 0 s l := by
    intro l; unfold SendConnections; rw [if_neg hlt]
  obtain ⟨g1, gs, g2, g3, g4, g5, _, g7⟩ :=
    connectLoop_good cfg env d hp ht henv urls 0 s cfg.DailyConnections.toNat hnd hbpos hb
  obtain ⟨c1, _, _⟩ := SendConnections_counter cfg d t0 env ht0 hcnt s urls
  rw [hunf urls] at c1 ⊢
  rw [h0, zero_add] at g2
  refine ⟨g1, gs, ?_, g2, g3, g4, g5, g7, ?_⟩
  · rw [g2, h0, zero_add] at c1
    exact_mod_cast c1.symm
  · by_cases hm : urls.length ≤ cfg.DailyConnections.toNat
    · rw [min_eq_right hm, List.take_length, hunf]
    · have hm2 : min cfg.DailyConnections.toNat urls.length = cfg.DailyConnections.toNat :=
        min_eq_left (by omega)
      rw [hm2]
      have hnd2 : (urls.take cfg.DailyConnections.toNat).Nodup :=
        List.Nodup.sublist (List.take_sublist _ _) hnd
      obtain ⟨_, _, k2, _⟩ := connectLoop_good cfg env d hp ht henv
        (urls.take cfg.DailyConnections.toNat) 0 s cfg.DailyConnections.toNat hnd2 hbpos hb
      have hlen : (urls.take cfg.DailyConnections.toNat).length = cfg.DailyConnections.toNat := by
        rw [List.length_take]; omega
      rw [hlen, min_self] at k2
      have hge : cfg.DailyConnections
          ≤ counterAt (SendConnections cfg t0 true env s
              (urls.take cfg.DailyConnections.toNat)).store "connections" d := by
        rw [hunf, k2]; omega
      have := SendConnections_gate cfg d t0 env ht0 hcnt s
        (urls.take cfg.DailyConnections.toNat) (urls.drop cfg.DailyConnections.toNat) hge
      rw [List.take_append_drop, hunf] at this
      exact this

theorem quota_reached_mid_loop_witness :
    (1 ≤ demoCfg.DailyConnections ∧ tenProfiles.Nodup ∧
      counterAt emptyStore "connections" 100 = 0) ∧
    connectTargets
        (SendConnections demoCfg (day100 10) true (fun _ => goodPage) emptyStore tenProfiles).trace
      = tenProfiles.take (min demoCfg.DailyConnections.toNat tenProfiles.length) ∧
    clickedOn "Send"
        (SendConnections demoCfg (day100 10) true (fun _ => goodPage) emptyStore tenProfiles).trace
      = tenProfiles.take (min demoCfg.DailyConnections.toNat tenProfiles.length) ∧
    tenProfiles.take (min demoCfg.DailyConnections.toNat tenProfiles.length) = ["p0", "p1", "p2"] ∧
    connectsPerformed
        (SendConnections demoCfg (day100 10) true (fun _ => goodPage) emptyStore tenProfiles).trace
      = 3 ∧
    counterAt
        (SendConnections demoCfg (day100 10) true (fun _ => goodPage) emptyStore tenProfiles).store
        "connections" 100 = 3 ∧
    (SendConnections demoCfg (day100 10) true (fun _ => goodPage) emptyStore tenProfiles).err
      = none ∧
    SendConnections demoCfg (day100 10) true (fun _ => goodPage) emptyStore tenProfiles
      = SendConnections demoCfg (day100 10) true (fun _ => goodPage) emptyStore
          ["p0", "p1", "p2"] :=
  have h := quota_reached_mid_loop demoCfg 100 (day100 10) (fun _ => goodPage) emptyStore
    tenProfiles demoCfg_safe.1 demoCfg_safe.2 (by decide) (by decide) (by decide) rfl
    (fun _ => ⟨rfl, rfl, ⟨rfl, rfl, rfl, rfl⟩, rfl⟩)
  ⟨⟨by decide, by decide, by decide⟩, h.1, h.2.1, by decide, h.2.2.1, h.2.2.2.1,
    h.2.2.2.2.2.2.2.1, h.2.2.2.2.2.2.2.2⟩

/-! ## Behaviour at concrete inputs -/

/-- An iteration of `SendConnections` that clicks Connect evaluated the
business-hours check to true. -/
theorem connect_action_in_business_hours (cfg : Config) (s : Store) (url : String)
    (pg : ConnectPage) (h : connectsPerformed (connectIteration cfg s url pg).2.1 ≠ 0) :
    NowInBusinessHours cfg.BusinessHoursStart cfg.BusinessHoursEnd pg.tGate = true := by
  cases hacts : pg.acts cfg
  · exact absurd (connectIteration_skip cfg s url pg hacts).2.1 h
  · unfold ConnectPage.acts at hacts
    simp only [Bool.and_eq_true] at hacts
    exact hacts.1.1.1.2

/-- C3 (failing input): with business hours 9 to 17 and every clock reading at
3 o'clock, `SendFollowups` types and sends follow-ups and records message rows
whose `sent_at` hour is 3; no business-hours check is made in that loop. -/
theorem followups_sent_outside_business_hours :
    NowInBusinessHours demoCfg.BusinessHoursStart demoCfg.BusinessHoursEnd (day100 3) = false ∧
    followupsPerformed (SendFollowups demoCfg goodFollowEnv demoLedger).trace = 2 ∧
    Event.click "u1" "Send" true ∈ (SendFollowups demoCfg goodFollowEnv demoLedger).trace ∧
    (SendFollowups demoCfg goodFollowEnv demoLedger).store.messages
      = [⟨"u1", "hello Ann, from Acme", day100 3⟩, ⟨"u2", "hello Ann, from Acme", day100 3⟩] := by
  decide

/-- C6 (failing input): `u1` is accepted in the ledger; a `SendConnections` run
whose candidate list contains `u1` saves it again and its status is requested. -/
theorem accepted_profile_becomes_requested :
    (rowsOf demoLedger "u1").map (fun r => r.status) = ["accepted"] ∧
    (rowsOf (SendConnections demoCfg (day100 10) true (fun _ => goodPage) demoLedger
        ["u1"]).store "u1").map (fun r => r.status) = ["requested"] := by
  decide

/-- C7 (failing input): `u2` already has a profile record with status requested;
`SendConnections` navigates to it, clicks Connect again and increments the counter. -/
theorem requested_profile_contacted_again :
    "u2" ∈ profileURLs demoLedger ∧
    Event.navigate "u2" true
      ∈ (SendConnections demoCfg (day100 10) true (fun _ => goodPage) demoLedger ["u2"]).trace ∧
    Event.click "u2" "Connect" true
      ∈ (SendConnections demoCfg (day100 10) true (fun _ => goodPage) demoLedger ["u2"]).trace ∧
    counterAt demoLedger "connections" 100 = 2 ∧
    counterAt (SendConnections demoCfg (day100 10) true (fun _ => goodPage) demoLedger
      ["u2"]).store "connections" 100 = 3 := by
  decide

/-- C8 (failing input): after a `SendFollowups` run that sent and recorded a
follow-up to `u1`, `PendingFollowups` still returns `u1`, and a second run over
the resulting ledger records a second message to `u1`. -/
theorem second_followup_to_same_profile :
    (messagesTo (SendFollowups roomyCfg goodFollowEnv demoLedger).store "u1").length = 1 ∧
    PendingFollowups (SendFollowups roomyCfg goodFollowEnv demoLedger).store true
      = .ok ["u1", "u2"] ∧
    (messagesTo (SendFollowups roomyCfg goodFollowEnv
      (SendFollowups roomyCfg goodFollowEnv demoLedger).store).store "u1").length = 2 :=
  ⟨by decide, rfl, by decide⟩

/-- C10 (failing input): `demoLedger` satisfies the agreement on day 100 (counter
2, two rows contacted that day); after `SendConnections` on a list holding the
already present `u1`, the counter is 3 and the rows contacted that day are still 2. -/
theorem counter_exceeds_ledger_rows :
    counterAt demoLedger "connections" 100 = contactedOn demoLedger 100 ∧
    counterAt (SendConnections roomyCfg (day100 10) true (fun _ => goodPage) demoLedger
      ["u1"]).store "connections" 100 = 3 ∧
    contactedOn (SendConnections roomyCfg (day100 10) true (fun _ => goodPage) demoLedger
      ["u1"]).store 100 = 2 := by
  decide


/-- C9 (counterexample): on a page without a `Send` control, and on a page whose
click on `Send` fails, `SendConnections` still increments the counter and saves
the profile; `SendFollowups` without a `Send` control still increments the
messages counter and records the message rows. -/
theorem ledger_written_without_send :
    (Event.click "a" "Send" true
        ∉ (SendConnections demoCfg (day100 10) true (fun _ => noSendPage) emptyStore ["a"]).trace ∧
      Event.click "a" "Send" false
        ∉ (SendConnections demoCfg (day100 10) true (fun _ => noSendPage) emptyStore ["a"]).trace ∧
      counterAt (SendConnections demoCfg (day100 10) true (fun _ => noSendPage) emptyStore
        ["a"]).store "connections" 100 = 1 ∧
      profileURLs (SendConnections demoCfg (day100 10) true (fun _ => noSendPage) emptyStore
        ["a"]).store = ["a"]) ∧
    (Event.click "a" "Send" false
        ∈ (SendConnections demoCfg (day100 10) true (fun _ => failSendPage) emptyStore ["a"]).trace ∧
      counterAt (SendConnections demoCfg (day100 10) true (fun _ => failSendPage) emptyStore
        ["a"]).store "connections" 100 = 1 ∧
      profileURLs (SendConnections demoCfg (day100 10) true (fun _ => failSendPage) emptyStore
        ["a"]).store = ["a"]) ∧
    (Event.click "u1" "Send" true ∉ (SendFollowups demoCfg noSendFollowEnv demoLedger).trace ∧
      Event.click "u1" "Send" false ∉ (SendFollowups demoCfg noSendFollowEnv demoLedger).trace ∧
      counterAt demoLedger "messages" 100 = 0 ∧
      counterAt (SendFollowups demoCfg noSendFollowEnv demoLedger).store "messages" 100 = 2 ∧
      (messagesTo (SendFollowups demoCfg noSendFollowEnv demoLedger).store "u1").length = 1) := by
  decide

theorem mem_connect_click (cfg : Config) (s : Store) (url : String) (pg : ConnectPage)
    (h : pg.acts cfg = true) :
    Event.click url "Connect" true ∈ (connectIteration cfg s url pg).2.1 := by
  unfold ConnectPage.acts at h
  simp only [Bool.and_eq_true, Bool.not_eq_true'] at h
  obtain ⟨⟨⟨⟨h1, h2⟩, h3⟩, h4⟩, h5⟩ := h
  unfold connectIteration
  simp only [h1, h2, h3, h4, h5, Bool.not_true, Bool.false_eq_true, if_false]
  by_cases hr : readCounter (connectWrites s url pg) "connections" pg.tRead pg.readOk
      ≥ cfg.DailyConnections
  · simp [hr]
  · cases hp : connectPause cfg pg <;> simp [hr]

theorem mem_followup_typed (cfg : Config) (s : Store) (url : String) (pg : FollowPage)
    (h : pg.acts = true) :
    Event.typeText url "textbox" (followBody cfg pg) true ∈ (followIteration cfg s url pg).2.1 := by
  unfold FollowPage.acts at h
  simp only [Bool.and_eq_true, Bool.not_eq_true'] at h
  obtain ⟨⟨⟨⟨h1, h2⟩, h3⟩, h4⟩, h5⟩ := h
  unfold followIteration
  simp only [h1, h2, h3, h4, h5, Bool.not_true, Bool.false_eq_true, if_false]
  by_cases hr : readCounter (followWrites cfg s url pg) "messages" pg.tRead pg.readOk
      ≥ cfg.DailyMessages
  · simp [hr]
  · cases hp : followPause cfg pg <;> simp [hr]

/-- C9 (amended): in `SendConnections` the counter is incremented and the profile
upserted for a candidate exactly in the iterations whose click on Connect
succeeded (the click is in the trace); in every other iteration the ledger is
unchanged; whether the `Send` control is found and whether its click succeeds
makes no difference to the ledger. Likewise in `SendFollowups` the messages
counter and the message row are written exactly in the iterations in which the
message was typed successfully, whatever happens with `Send`. -/
theorem ledger_written_after_action (cfg : Config) (s : Store) (url : String)
    (pg : ConnectPage) (fp : FollowPage) :
    (pg.acts cfg = false → (connectIteration cfg s url pg).1 = s) ∧
    (pg.acts cfg = true →
      (connectIteration cfg s url pg).1 = connectWrites s url pg ∧
      Event.click url "Connect" true ∈ (connectIteration cfg s url pg).2.1 ∧
      (pg.incrOk = true →
        counterAt (connectWrites s url pg) "connections" pg.tIncr.date
          = counterAt s "connections" pg.tIncr.date + 1) ∧
      (pg.saveOk = true → rowsOf (connectWrites s url pg) url ≠ [])) ∧
    (∀ found clicked : Bool,
      (connectIteration cfg s url { pg with sendFound := found, sendClickOk := clicked }).1
        = (connectIteration cfg s url pg).1) ∧
    (fp.acts = false → (followIteration cfg s url fp).1 = s) ∧
    (fp.acts = true →
      (followIteration cfg s url fp).1 = followWrites cfg s url fp ∧
      Event.typeText url "textbox" (followBody cfg fp) true ∈ (followIteration cfg s url fp).2.1 ∧
      (fp.incrOk = true →
        counterAt (followWrites cfg s url fp) "messages" fp.tIncr.date
          = counterAt s "messages" fp.tIncr.date + 1) ∧
      (fp.insertOk = true →
        messagesTo (followWrites cfg s url fp) url
          = messagesTo s url ++ [⟨url, followBody cfg fp, fp.tMsg⟩])) ∧
    (∀ found clicked : Bool,
      (followIteration cfg s url { fp with sendFound := found, sendClickOk := clicked }).1
        = (followIteration cfg s url fp).1) := by
  refine ⟨fun h => (connectIteration_skip cfg s url pg h).1, fun h => ?_, fun f c => ?_,
    fun h => (followIteration_skip cfg s url fp h).1, fun h => ?_, fun f c => ?_⟩
  · exact ⟨(connectIteration_act cfg s url pg h).1, mem_connect_click cfg s url pg h,
      fun hi => connectWrites_counterAt s url pg _ hi rfl,
      fun hs => (connectWrites_rowsOf_self s url pg hs).1⟩
  · cases hacts : pg.acts cfg
    · have h2 : ConnectPage.acts cfg { pg with sendFound := f, sendClickOk := c } = false := hacts
      rw [(connectIteration_skip cfg s url pg hacts).1, (connectIteration_skip cfg s url _ h2).1]
    · have h2 : ConnectPage.acts cfg { pg with sendFound := f, sendClickOk := c } = true := hacts
      rw [(connectIteration_act cfg s url pg hacts).1, (connectIteration_act cfg s url _ h2).1]
      rfl
  · refine ⟨(followIteration_act cfg s url fp h).1, mem_followup_typed cfg s url fp h,
      fun hi => followWrites_counterAt cfg s url fp _ hi rfl, fun hs => ?_⟩
    unfold followWrites messagesTo SaveMessage keepOnError
    simp only [hs, if_true, afterIncrement_messages]
    cases fp.updateOk <;> simp [List.filter_append, List.filter_cons]
  · cases hacts : fp.acts
    · have h2 : FollowPage.acts { fp with sendFound := f, sendClickOk := c } = false := hacts
      rw [(followIteration_skip cfg s url fp hacts).1, (followIteration_skip cfg s url _ h2).1]
    · have h2 : FollowPage.acts { fp with sendFound := f, sendClickOk := c } = true := hacts
      rw [(followIteration_act cfg s url fp hacts).1, (followIteration_act cfg s url _ h2).1]
      rfl

theorem ledger_written_after_action_witness :
    noSendPage.acts demoCfg = true ∧
    (connectIteration demoCfg emptyStore "a" noSendPage).1 = connectWrites emptyStore "a" noSendPage ∧
    Event.click "a" "Connect" true ∈ (connectIteration demoCfg emptyStore "a" noSendPage).2.1 :=
  ⟨rfl,
    ((ledger_written_after_action demoCfg emptyStore "a" noSendPage noSendFollow).2.1 rfl).1,
    ((ledger_written_after_action demoCfg emptyStore "a" noSendPage noSendFollow).2.1 rfl).2.1⟩


/-! ## Business hours, acceptance, messages, ledger failures -/

/-- C12 (failing input): with `business_hours` unset (start = end = 0) the check
is false at hour 10, and at every hour of the day; `SendConnections` then cools
down on every candidate and performs no connect action. -/
theorem unset_business_hours_never_allowed :
    NowInBusinessHours unsetHoursCfg.BusinessHoursStart unsetHoursCfg.BusinessHoursEnd
      (day100 10) = false ∧
    (List.range 24).all (fun h => !NowInBusinessHours 0 0 ⟨100, h, 0⟩) = true ∧
    (SendConnections unsetHoursCfg (day100 10) true (fun _ => goodPage) emptyStore
      ["a", "b"]).trace = [.cooldown 300, .cooldown 300] ∧
    connectsPerformed (SendConnections unsetHoursCfg (day100 10) true (fun _ => goodPage)
      emptyStore ["a", "b"]).trace = 0 := by
  decide

/-- C13 (counterexample): `u1` is already accepted, with `accepted_at` on day 100;
`MarkAccepted` on day 101 succeeds and overwrites `accepted_at`, so the ledger
is not left as it was. -/
theorem MarkAccepted_restamps_accepted :
    (rowsOf demoLedger "u1").map (fun r => (r.status, r.accepted_at))
      = [("accepted", some ⟨100, 15, 0⟩)] ∧
    (rowsOf (keepOnError demoLedger (MarkAccepted demoLedger "u1" ⟨101, 9, 0⟩ true)) "u1").map
      (fun r => (r.status, r.accepted_at)) = [("accepted", some ⟨101, 9, 0⟩)] ∧
    keepOnError demoLedger (MarkAccepted demoLedger "u1" ⟨101, 9, 0⟩ true) ≠ demoLedger := by
  decide

/-- C13 (amended): `MarkAccepted(url)` succeeds, sets on every row of `url` the
status to accepted and `accepted_at` to the current time and keeps every other
field, every other row and the other tables; called again on the result with
the same clock reading it changes nothing, and called again at any later time
it keeps every status and changes only `accepted_at` of that profile. -/
theorem MarkAccepted_effect (s : Store) (url : String) (now now2 : Time) :
    ∃ s1, MarkAccepted s url now true = .ok s1 ∧
      s1.messages = s.messages ∧ s1.counters = s.counters ∧
      List.Forall₂
        (fun r r1 =>
          if r.profile_url = url then
            r1.profile_url = r.profile_url ∧ r1.status = "accepted" ∧
            r1.accepted_at = some now ∧ r1.name = r.name ∧ r1.company = r.company ∧
            r1.contacted_at = r.contacted_at ∧ r1.last_message_at = r.last_message_at
          else r1 = r)
        s.connections s1.connections ∧
      MarkAccepted s1 url now true = .ok s1 ∧
      ∃ s2, MarkAccepted s1 url now2 true = .ok s2 ∧
        List.Forall₂
          (fun r1 r2 =>
            if r1.profile_url = url then r2 = { r1 with accepted_at := some now2 } else r2 = r1)
          s1.connections s2.connections := by
  unfold MarkAccepted
  simp only [if_true]
  refine ⟨_, rfl, rfl, rfl, ?_, ?_, _, rfl, ?_⟩
  · rw [List.forall₂_map_right_iff, List.forall₂_same]
    intro r _
    by_cases h : r.profile_url = url <;> simp [h]
  · congr 1
    simp only [List.map_map]
    congr 1
    conv_rhs => rw [← List.map_id s.connections]
    rw [List.map_map]
    apply List.map_congr_left
    intro r _
    by_cases h : r.profile_url = url <;> simp [h]
  · rw [List.forall₂_map_right_iff, List.forall₂_same]
    intro r hr
    obtain ⟨r0, _, rfl⟩ := List.mem_map.1 hr
    by_cases h : r0.profile_url = url <;> simp [h]

theorem MarkAccepted_effect_witness :
    ∃ s1, MarkAccepted demoLedger "u2" ⟨101, 9, 0⟩ true = .ok s1 ∧
      s1.messages = demoLedger.messages ∧ s1.counters = demoLedger.counters :=
  match MarkAccepted_effect demoLedger "u2" ⟨101, 9, 0⟩ ⟨101, 10, 0⟩ with
  | ⟨s1, h, hm, hc, _⟩ => ⟨s1, h, hm, hc⟩

/-- C14: `SaveMessage(url, body)` succeeds and appends exactly the row
`(url, body, sent_at = now)` after the existing message rows; on a working
database it sets `last_message_at` on the rows of `url` and changes no other
field (status included), no other row and no counter; when `url` has no profile
row, or when the profile update fails, table `connections` is unchanged and the
call still succeeds with the message row appended. -/
theorem SaveMessage_effect (s : Store) (url body : String) (now now2 : Time) :
    (∃ s1, SaveMessage s url body now now2 true true = .ok s1 ∧
      s1.messages = s.messages ++ [⟨url, body, now⟩] ∧ s1.counters = s.counters ∧
      List.Forall₂
        (fun r r1 =>
          if r.profile_url = url then
            r1.profile_url = r.profile_url ∧ r1.last_message_at = some now2 ∧
            r1.status = r.status ∧ r1.name = r.name ∧ r1.company = r.company ∧
            r1.contacted_at = r.contacted_at ∧ r1.accepted_at = r.accepted_at
          else r1 = r)
        s.connections s1.connections ∧
      (url ∉ profileURLs s → s1.connections = s.connections)) ∧
    SaveMessage s url body now now2 true false
      = .ok { s with messages := s.messages ++ [⟨url, body, now⟩] } := by
  unfold SaveMessage
  simp only [if_true]
  refine ⟨⟨_, rfl, rfl, rfl, ?_, ?_⟩, by simp⟩
  · rw [List.forall₂_map_right_iff, List.forall₂_same]
    intro r _
    by_cases h : r.profile_url = url <;> simp [h]
  · intro hnot
    show List.map _ s.connections = s.connections
    conv_rhs => rw [← List.map_id s.connections]
    apply List.map_congr_left
    intro r hr
    have : ¬ r.profile_url = url := fun h => hnot (List.mem_map.2 ⟨r, hr, h⟩)
    simp [this]

theorem SaveMessage_effect_witness :
    "zz" ∉ profileURLs demoLedger ∧
    ∃ s1, SaveMessage demoLedger "zz" "hi" ⟨101, 9, 0⟩ ⟨101, 9, 1⟩ true true = .ok s1 ∧
      s1.messages = demoLedger.messages ++ [⟨"zz", "hi", ⟨101, 9, 0⟩⟩] ∧
      s1.connections = demoLedger.connections :=
  ⟨by decide,
    match (SaveMessage_effect demoLedger "zz" "hi" ⟨101, 9, 0⟩ ⟨101, 9, 1⟩).1 with
    | ⟨s1, h, hm, _, _, hc⟩ => ⟨s1, h, hm, hc (by decide)⟩⟩

theorem connectLoop_err (cfg : Config) (env : Nat → ConnectPage) (urls : List String) :
    ∀ (i : Nat) (s : Store),
      (connectLoop cfg env i s urls).err = none ∨
      (connectLoop cfg env i s urls).err = some .cancelled ∨
      ((connectLoop cfg env i s urls).err = some .crashed ∧
        ∃ j, connectPause cfg (env j) = false) := by
  induction urls with
  | nil => intro i s; simp [connectLoop]
  | cons url rest ih =>
    intro i s
    rw [connectLoop_cons]
    cases hacts : (env i).acts cfg
    · rcases (connectIteration_skip cfg s url (env i) hacts).2.2 with h | ⟨h, _⟩
      · rw [h]; exact ih _ _
      · rw [h]; exact Or.inr (Or.inl rfl)
    · rw [(connectIteration_act cfg s url (env i) hacts).2.2]
      by_cases hr : readCounter (connectWrites s url (env i)) "connections" (env i).tRead
          (env i).readOk ≥ cfg.DailyConnections
      · rw [if_pos hr]; exact Or.inl rfl
      · rw [if_neg hr]
        cases hp : connectPause cfg (env i)
        · exact Or.inr (Or.inr ⟨rfl, i, hp⟩)
        · exact ih _ _

theorem followLoop_err (cfg : Config) (env : Nat → FollowPage) (urls : List String) :
    ∀ (i : Nat) (s : Store),
      (followLoop cfg env i s urls).err = none ∨
      (followLoop cfg env i s urls).err = some .cancelled ∨
      ((followLoop cfg env i s urls).err = some .crashed ∧
        ∃ j, followPause cfg (env j) = false) := by
  induction urls with
  | nil => intro i s; simp [followLoop]
  | cons url rest ih =>
    intro i s
    rw [followLoop_cons]
    cases hacts : (env i).acts
    · rcases (followIteration_skip cfg s url (env i) hacts).2.2 with h | ⟨h, _⟩
      · rw [h]; exact ih _ _
      · rw [h]; exact Or.inr (Or.inl rfl)
    · rw [(followIteration_act cfg s url (env i) hacts).2.2]
      by_cases hr : readCounter (followWrites cfg s url (env i)) "messages" (env i).tRead
          (env i).readOk ≥ cfg.DailyMessages
      · rw [if_pos hr]; exact Or.inl rfl
      · rw [if_neg hr]
        cases hp : followPause cfg (env i)
        · exact Or.inr (Or.inr ⟨rfl, i, hp⟩)
        · exact ih _ _

theorem acceptLoop_err (env : Nat → AcceptPage) (urls : List String) :
    ∀ (i : Nat) (s : Store),
      (acceptLoop env i s urls).err = none ∨
      (acceptLoop env i s urls).err = some .cancelled := by
  induction urls with
  | nil => intro i s; simp [acceptLoop]
  | cons url rest ih =>
    intro i s
    unfold acceptLoop acceptIteration
    cases (env i).cancelled <;> cases (env i).navigateOk <;> cases (env i).messageFound <;>
      simp [ih]

/-- C11 (counterexample): with cap 3 and every read of the day counter failing,
`SendConnections` returns no error and clicks Connect on all ten candidates;
with every increment failing it does the same; with every message insert
failing `SendFollowups` returns no error and still types both follow-ups. -/
theorem storage_failures_not_fatal :
    ((SendConnections demoCfg (day100 10) false (fun _ => blindPage) emptyStore tenProfiles).err
        = none ∧
      connectsPerformed
        (SendConnections demoCfg (day100 10) false (fun _ => blindPage) emptyStore
          tenProfiles).trace = 10) ∧
    ((SendConnections demoCfg (day100 10) true (fun _ => stuckPage) emptyStore tenProfiles).err
        = none ∧
      connectsPerformed
        (SendConnections demoCfg (day100 10) true (fun _ => stuckPage) emptyStore
          tenProfiles).trace = 10) ∧
    ((SendFollowups demoCfg lostInsertEnv demoLedger).err = none ∧
      followupsPerformed (SendFollowups demoCfg lostInsertEnv demoLedger).trace = 2 ∧
      (SendFollowups demoCfg lostInsertEnv demoLedger).store.messages = []) := by
  decide

/-- C11 (amended): the only ledger failures that end a phase are those of the two
list queries of `SendFollowups`: a failing `RequestedConnections` makes it
return the storage error before any action, a failing `PendingFollowups` makes
it return the storage error after the acceptance sweep with no follow-up
performed. `SendConnections` never returns a storage error, whichever of its
ledger statements fail, and `SendFollowups` returns one only for those two
queries: failures of reading or incrementing the counter, upserting the
profile, marking accepted or inserting the message are dropped. Unless a pause
panics, which no configuration with valid delays allows, `SendConnections`
returns `nil` or the cancellation error. -/
theorem storage_errors_returned (cfg : Config) (env : FollowEnv) (s : Store) (t0 : Time)
    (ok0 : Bool) (cenv : Nat → ConnectPage) (profiles : List String) :
    (env.requestedOk = false →
      SendFollowups cfg env s = ⟨s, [], some (.storage .dbFault)⟩) ∧
    (env.requestedOk = true → env.pendingOk = false →
      (detectAccepted env.requestedOk env.accept s).err = none →
      SendFollowups cfg env s
        = ⟨(detectAccepted env.requestedOk env.accept s).store,
            (detectAccepted env.requestedOk env.accept s).trace, some (.storage .dbFault)⟩ ∧
      followupsPerformed (SendFollowups cfg env s).trace = 0) ∧
    ((SendConnections cfg t0 ok0 cenv s profiles).err = none ∨
      (SendConnections cfg t0 ok0 cenv s profiles).err = some .cancelled ∨
      (SendConnections cfg t0 ok0 cenv s profiles).err = some .crashed) ∧
    (cfg.pauseSafe → cfg.thinkSafe →
      (SendConnections cfg t0 ok0 cenv s profiles).err = none ∨
      (SendConnections cfg t0 ok0 cenv s profiles).err = some .cancelled) ∧
    (∀ e, (SendFollowups cfg env s).err = some (.storage e) →
      env.requestedOk = false ∨ env.pendingOk = false) := by
  refine ⟨fun h => ?_, fun h1 h2 h3 => ?_, ?_, fun hp ht => ?_, fun e he => ?_⟩
  · unfold SendFollowups detectAccepted RequestedConnections
    simp [h]
  · have hsp : sendPending cfg env (detectAccepted env.requestedOk env.accept s).store
        = ⟨(detectAccepted env.requestedOk env.accept s).store, [], some (.storage .dbFault)⟩ := by
      unfold sendPending PendingFollowups
      simp [h2]
    have hsf : SendFollowups cfg env s
        = ⟨(detectAccepted env.requestedOk env.accept s).store,
            (detectAccepted env.requestedOk env.accept s).trace, some (.storage .dbFault)⟩ := by
      unfold SendFollowups
      simp only [h3, hsp, List.append_nil]
    refine ⟨hsf, ?_⟩
    rw [hsf]
    exact (detectAccepted_frame _ _ _).2.2.1
  · unfold SendConnections
    split
    · exact Or.inl rfl
    · rcases connectLoop_err cfg cenv profiles 0 s with h | h | ⟨h, _⟩
      · exact Or.inl h
      · exact Or.inr (Or.inl h)
      · exact Or.inr (Or.inr h)
  · unfold SendConnections
    split
    · exact Or.inl rfl
    · rcases connectLoop_err cfg cenv profiles 0 s with h | h | ⟨_, j, hj⟩
      · exact Or.inl h
      · exact Or.inr h
      · rw [connectPause_of_safe cfg (cenv j) hp ht] at hj
        exact absurd hj (by decide)
  · by_contra hcon
    simp only [not_or, Bool.not_eq_false] at hcon
    obtain ⟨hr, hp⟩ := hcon
    have hd : (detectAccepted env.requestedOk env.accept s).err = none ∨
        (detectAccepted env.requestedOk env.accept s).err = some .cancelled := by
      unfold detectAccepted RequestedConnections
      simp only [hr, if_true]
      exact acceptLoop_err env.accept _ 0 s
    unfold SendFollowups at he
    rcases hd with hd | hd
    · simp only [hd] at he
      unfold sendPending PendingFollowups at he
      simp only [hp, if_true] at he
      split at he
      · simp at he
      · rcases followLoop_err cfg env.follow _ 0 _ with h | h | ⟨h, _⟩ <;> rw [h] at he <;>
          simp at he
    · simp only [hd] at he
      simp at he

theorem storage_errors_returned_witness :
    noRequestedEnv.requestedOk = false ∧
    SendFollowups demoCfg noRequestedEnv demoLedger
      = ⟨demoLedger, [], some (.storage .dbFault)⟩ :=
  ⟨rfl,
    (storage_errors_returned demoCfg noRequestedEnv demoLedger (day100 10) true
      (fun _ => goodPage) []).1 rfl⟩

/-! ## Search deduplication -/

theorem collectLink_fold (links : List (Option String)) :
    ∀ (seen results : List String), (∀ u, u ∈ seen ↔ u ∈ results) →
      (∀ u, u ∈ (links.foldl collectLink (seen, results)).1
        ↔ u ∈ (links.foldl collectLink (seen, results)).2) ∧
      (links.foldl collectLink (seen, results)).2
        = (links.filterMap id).foldl appendNew results := by
  induction links with
  | nil => intro seen results h; exact ⟨h, rfl⟩
  | cons l rest ih =>
    intro seen results h
    cases l with
    | none => simpa [collectLink] using ih seen results h
    | some x =>
      have hfm : List.filterMap id (some x :: rest) = x :: List.filterMap id rest := rfl
      rw [hfm]
      simp only [List.foldl_cons, collectLink, appendNew]
      by_cases hx : x ∈ seen
      · have hx2 : x ∈ results := (h x).1 hx
        rw [if_pos hx, if_pos hx2]
        exact ih seen results h
      · have hx2 : x ∉ results := fun hh => hx ((h x).2 hh)
        rw [if_neg hx, if_neg hx2]
        apply ih
        intro u
        simp only [List.mem_cons, List.mem_append, List.mem_singleton]
        rw [h u]
        tauto

theorem loadedPages_le (env : Nat → SearchPage) (count : Nat) :
    ∀ p, loadedPages env count p ≤ count := by
  induction count with
  | zero => intro p; simp [loadedPages]
  | succ k ih =>
    intro p
    unfold loadedPages
    split
    · have := ih (p + 1); omega
    · omega

theorem loadedPages_all (env : Nat → SearchPage) (count : Nat) :
    ∀ p, (∀ q, p ≤ q → q < p + count → (env q).navigateOk = true) →
      loadedPages env count p = count := by
  induction count with
  | zero => intro p _; rfl
  | succ k ih =>
    intro p h
    unfold loadedPages
    rw [if_pos (h p (le_refl _) (by omega)), ih (p + 1) (fun q h1 h2 => h q (by omega) (by omega))]

theorem loadedPages_first (env : Nat → SearchPage) (count : Nat) :
    ∀ p j, j < count → (∀ q, p ≤ q → q < p + j → (env q).navigateOk = true) →
      (env (p + j)).navigateOk = false → loadedPages env count p = j := by
  induction count with
  | zero => intro p j hj; omega
  | succ k ih =>
    intro p j hj h hf
    unfold loadedPages
    cases j with
    | zero =>
      rw [Nat.add_zero] at hf
      simp [hf]
    | succ j =>
      rw [if_pos (h p (le_refl _) (by omega)),
        ih (p + 1) j (by omega) (fun q h1 h2 => h q (by omega) (by omega))
          (by rw [show p + 1 + j = p + (j + 1) by omega]; exact hf)]

theorem searchLoop_spec (cfg : Config) (hp : cfg.pauseSafe) (base : String)
    (env : Nat → SearchPage) (count : Nat) :
    ∀ (p : Nat) (seen results : List String), (∀ u, u ∈ seen ↔ u ∈ results) →
      (searchLoop cfg base env count p seen results).err
        = (if loadedPages env count p = count then none else some .navigation) ∧
      (searchLoop cfg base env count p seen results).results
        = (collectedHrefs env (loadedPages env count p) p).foldl appendNew results ∧
      navigated (searchLoop cfg base env count p seen results).trace
        = (List.range (min (loadedPages env count p + 1) count)).map
            (fun j => searchURL base (p + j)) := by
  induction count with
  | zero => intro p seen results _; simp [searchLoop, collectedHrefs, loadedPages, navigated]
  | succ k ih =>
    intro p seen results h
    have hle := loadedPages_le env k (p + 1)
    have hrange : ∀ m, (List.range (m + 1)).map (fun j => searchURL base (p + j))
        = searchURL base p :: (List.range m).map (fun j => searchURL base (p + 1 + j)) := by
      intro m
      rw [List.range_succ_eq_map, List.map_cons, List.map_map]
      congr 1
      apply List.map_congr_left
      intro j _
      simp only [Function.comp, Nat.add_zero]
      congr 1
      omega
    unfold searchLoop loadedPages
    cases hn : (env p).navigateOk
    · simp [collectedHrefs, navigated, List.range_succ]
    · simp only [Bool.not_true, Bool.false_eq_true, if_false, if_true,
        searchPause_of_safe cfg (env p) hp]
      have hmin : min (loadedPages env k (p + 1) + 1 + 1) (k + 1)
          = min (loadedPages env k (p + 1) + 1) k + 1 := by omega
      cases he : (env p).elementsOk
      · simp only [Bool.not_false, if_true]
        obtain ⟨g1, g2, g3⟩ := ih (p + 1) seen results h
        refine ⟨?_, ?_, ?_⟩
        · rw [g1]
          by_cases hl : loadedPages env k (p + 1) = k <;> simp [hl]
        · rw [g2]
          simp [collectedHrefs, pageHrefs, he]
        · rw [hmin, hrange, ← g3]
          simp [navigated, List.filterMap_cons]
      · simp only [Bool.not_true, Bool.false_eq_true, if_false]
        obtain ⟨c1, c2⟩ := collectLink_fold (env p).hrefs seen results h
        obtain ⟨g1, g2, g3⟩ := ih (p + 1) _ _ c1
        refine ⟨?_, ?_, ?_⟩
        · rw [g1]
          by_cases hl : loadedPages env k (p + 1) = k <;> simp [hl]
        · rw [g2, c2]
          simp [collectedHrefs, pageHrefs, he, List.foldl_append]
        · rw [hmin, hrange, ← g3]
          simp [navigated, List.filterMap_cons]

theorem foldl_appendNew_eq (l : List String) :
    l.foldl appendNew [] = (l.reverse.dedup).reverse := by
  induction l using List.reverseRecOn with
  | nil => rfl
  | append_singleton l x ih =>
    rw [List.foldl_append, List.foldl_cons, List.foldl_nil, ih, List.reverse_append,
      List.reverse_singleton, List.singleton_append]
    unfold appendNew
    by_cases hx : x ∈ l
    · have h1 : x ∈ (l.reverse.dedup).reverse := by simpa using hx
      have h2 : x ∈ l.reverse := by simpa using hx
      rw [if_pos h1, List.dedup_cons_of_mem h2]
    · have h1 : x ∉ (l.reverse.dedup).reverse := by simpa using hx
      have h2 : x ∉ l.reverse := by simpa using hx
      rw [if_neg h1, List.dedup_cons_of_not_mem h2, List.reverse_cons]

/-- C20 (counterexample): with `pagination_pages = -1` the range `1..-1` is
empty, yet `PeopleSearch` visits page 1 and returns its hrefs; with
`jitter_ms: -1` and three pages it panics in `RandomPause` right after the
navigation to page 1 and returns nothing; and when the navigation to page 3
fails it returns the hrefs of pages 1 and 2 together with the error. -/
theorem PeopleSearch_outside_page_range :
    navigated (PeopleSearch demoCfg "q" (-1) demoSearch).trace = ["q&page=1"] ∧
    (PeopleSearch demoCfg "q" (-1) demoSearch).results = ["a", "b"] ∧
    (PeopleSearch negJitterCfg "q" 3 demoSearch).err = some .crashed ∧
    (PeopleSearch negJitterCfg "q" 3 demoSearch).trace = [.navigate "q&page=1" true] ∧
    (PeopleSearch demoCfg "q" 3 brokenThird).err = some .navigation ∧
    (PeopleSearch demoCfg "q" 3 brokenThird).results = ["a", "b"] ∧
    (PeopleSearch demoCfg "q" 3 demoSearch).results = ["a", "b", "c", "d"] := by
  decide

/-- C20 (amended): for `pagination_pages >= 1` below the largest `int` (at
which the loop counter would wrap), a configuration on which `RandomPause` does
not panic, and every sequence of result pages,
`PeopleSearch` navigates to pages `1, 2, ...` up to the first page whose
navigation fails, or to all of pages `1..pagination_pages` when none fails, and
returns the concatenation of the per-page href lists of the pages that loaded (a
page whose element lookup fails contributes nothing and does not fail the phase,
a link without href is skipped) with every later duplicate removed: no URL
occurs twice, a URL is in the result exactly when it was collected, and the
result keeps the first occurrence of each URL, in order. It returns no error
exactly when every page loaded, and the navigation error otherwise. -/
theorem PeopleSearch_dedup (cfg : Config) (base : String) (paginationPages : Int)
    (env : Nat → SearchPage) (hpos : 1 ≤ paginationPages)
    (hmax : paginationPages < 2 ^ 63 - 1) (hp : cfg.pauseSafe) :
    (PeopleSearch cfg base paginationPages env).results.Nodup ∧
    (∀ u, u ∈ (PeopleSearch cfg base paginationPages env).results
      ↔ u ∈ collectedHrefs env (loadedPages env paginationPages.toNat 1) 1) ∧
    (PeopleSearch cfg base paginationPages env).results
      = ((collectedHrefs env (loadedPages env paginationPages.toNat 1) 1).reverse.dedup).reverse ∧
    navigated (PeopleSearch cfg base paginationPages env).trace
      = (List.range (min (loadedPages env paginationPages.toNat 1 + 1) paginationPages.toNat)).map
          (fun j => searchURL base (1 + j)) ∧
    ((∀ q : Nat, 1 ≤ q → (q : Int) ≤ paginationPages → (env q).navigateOk = true) →
      loadedPages env paginationPages.toNat 1 = paginationPages.toNat ∧
      (PeopleSearch cfg base paginationPages env).err = none) ∧
    (∀ k : Nat, 1 ≤ k → (k : Int) ≤ paginationPages →
      (∀ q : Nat, 1 ≤ q → q < k → (env q).navigateOk = true) → (env k).navigateOk = false →
      loadedPages env paginationPages.toNat 1 = k - 1 ∧
      (PeopleSearch cfg base paginationPages env).err = some .navigation) := by
  have heff : effectivePages paginationPages = paginationPages.toNat := by
    unfold effectivePages
    rw [if_neg (by omega)]
  obtain ⟨h1, h2, h3⟩ := searchLoop_spec cfg hp base env paginationPages.toNat 1 [] []
    (fun u => Iff.rfl)
  have hres : (PeopleSearch cfg base paginationPages env).results
      = ((collectedHrefs env (loadedPages env paginationPages.toNat 1) 1).reverse.dedup).reverse := by
    unfold PeopleSearch
    rw [heff, h2, foldl_appendNew_eq]
  have herr : (PeopleSearch cfg base paginationPages env).err
      = (if loadedPages env paginationPages.toNat 1 = paginationPages.toNat then none
          else some .navigation) := by
    unfold PeopleSearch
    rw [heff, h1]
  refine ⟨?_, ?_, hres, ?_, ?_, ?_⟩
  · rw [hres]
    exact List.nodup_reverse.2 (List.nodup_dedup _)
  · intro u
    rw [hres]
    simp
  · unfold PeopleSearch
    rw [heff, h3]
  · intro hall
    have := loadedPages_all env paginationPages.toNat 1 (fun q h1 h2 => hall q h1 (by omega))
    exact ⟨this, by rw [herr, if_pos this]⟩
  · intro k hk1 hk2 hbefore hfail
    have hk : 1 + (k - 1) = k := by omega
    have := loadedPages_first env paginationPages.toNat 1 (k - 1) (by omega)
      (fun q h1 h2 => hbefore q h1 (by omega)) (by rw [hk]; exact hfail)
    refine ⟨this, ?_⟩
    rw [herr, if_neg (by omega)]

theorem PeopleSearch_dedup_witness :
    (PeopleSearch demoCfg "q" 3 demoSearch).err = none ∧
    (PeopleSearch demoCfg "q" 3 demoSearch).results = ["a", "b", "c", "d"] ∧
    collectedHrefs demoSearch 3 1 = ["a", "b", "a", "b", "c", "a", "d"] ∧
    navigated (PeopleSearch demoCfg "q" 3 demoSearch).trace
      = ["q&page=1", "q&page=2", "q&page=3"] ∧
    (PeopleSearch demoCfg "q" 3 demoSearch).results.Nodup ∧
    loadedPages brokenThird (3 : Int).toNat 1 = 3 - 1 ∧
    (PeopleSearch demoCfg "q" 3 brokenThird).err = some .navigation :=
  have h := PeopleSearch_dedup demoCfg "q" 3 demoSearch (by decide) (by decide) demoCfg_safe.1
  have hall : ∀ q : Nat, 1 ≤ q → (q : Int) ≤ 3 → (demoSearch q).navigateOk = true := by
    intro q _ _
    match q with
    | 0 => rfl
    | 1 => rfl
    | 2 => rfl
    | _ + 3 => rfl
  have h2 := (PeopleSearch_dedup demoCfg "q" 3 brokenThird (by decide) (by decide)
    demoCfg_safe.1).2.2.2.2.2
    3 (by decide) (by decide) (by
      intro q h1 h2
      match q with
      | 1 => rfl
      | 2 => rfl) rfl
  ⟨(h.2.2.2.2.1 hall).2, by decide, by decide, by decide, h.1, h2.1, h2.2⟩

/-! ## Typing -/

theorem singleton_eq_backspace (c : Char) : String.singleton c = backspaceKey ↔ c = '\x08' := by
  constructor
  · intro h
    have h2 : (String.singleton c).data = backspaceKey.data := by rw [h]
    simpa [backspaceKey, String.singleton] using h2
  · rintro rfl; rfl

theorem sinkStep_char (acc : List Char) (c : Char) (hc : c ≠ '\x08') :
    sinkStep acc (String.singleton c) = acc ++ [c] := by
  unfold sinkStep
  rw [if_neg (fun h => hc ((singleton_eq_backspace c).1 h))]
  rfl

theorem sinkStep_backspace (acc : List Char) (c : Char) :
    sinkStep (acc ++ [c]) backspaceKey = acc := by
  unfold sinkStep
  rw [if_pos rfl, List.dropLast_concat]

theorem typeChars_sink (env : Nat → TypingStep) (henv : ∀ j, (env j).inputOk = true)
    (cs : List Char) :
    ∀ (i : Nat) (acc : List Char), '\x08' ∉ cs →
      (typeChars env i cs).2 = none ∧
      (typeChars env i cs).1.foldl sinkStep acc = acc ++ cs ∧
      ∃ groups : List (List String), (typeChars env i cs).1 = groups.flatten ∧
        List.Forall₂
          (fun c g => g = [String.singleton c] ∨
            g = [String.singleton c, backspaceKey, String.singleton c])
          cs groups := by
  induction cs with
  | nil => intro i acc _; exact ⟨rfl, by simp [typeChars], [], rfl, List.Forall₂.nil⟩
  | cons c rest ih =>
    intro i acc hb
    have hc : c ≠ '\x08' := fun h => hb (h ▸ List.mem_cons_self _ _)
    have hrest : '\x08' ∉ rest := fun h => hb (List.mem_cons_of_mem _ h)
    obtain ⟨g1, g2, groups, g3, g4⟩ := ih (i + 1) (acc ++ [c]) hrest
    unfold typeChars
    simp only [henv i, Bool.not_true, Bool.false_eq_true, if_false]
    by_cases hd : (env i).draw % 10 = 0
    · simp only [hd, if_true]
      refine ⟨g1, ?_, [String.singleton c, backspaceKey, String.singleton c] :: groups, ?_,
        List.Forall₂.cons (Or.inr rfl) g4⟩
      · rw [List.foldl_append, List.foldl_cons, sinkStep_char acc c hc, List.foldl_cons,
          sinkStep_backspace, List.foldl_cons, sinkStep_char acc c hc, List.foldl_nil, g2]
        simp
      · simp [g3]
    · simp only [hd, if_false]
      refine ⟨g1, ?_, [String.singleton c] :: groups, ?_, List.Forall₂.cons (Or.inl rfl) g4⟩
      · rw [List.foldl_append, List.foldl_cons, sinkStep_char acc c hc, List.foldl_nil, g2]
        simp
      · simp [g3]

/-- C16 (counterexample): for the text `a` followed by the backspace character
U+0008, typed without any correction, the keys emitted are `a` and a backspace,
and the sink ends up empty instead of holding the text. -/
theorem typing_backspace_character_lost :
    (TypeHumanWithTypos plainTyping "a\x08").1 = ["a", backspaceKey] ∧
    (TypeHumanWithTypos plainTyping "a\x08").2 = none ∧
    sinkText (TypeHumanWithTypos plainTyping "a\x08").1 = "" ∧
    sinkText (TypeHumanWithTypos plainTyping "a\x08").1 ≠ "a\x08" := by
  decide

/-- C16 (amended): for every string `S` that does not contain the backspace
character U+0008 and every outcome of the correction draws, in a call in which
no first input of a character fails, `TypeHumanWithTypos(S)` returns no error,
feeding the keys it emits, in order, to the accumulating sink leaves the sink
holding exactly `S`, and the keys are, character by character of `S`, either
the character alone or the character, a backspace and the character again: no
wrong character is emitted. -/
theorem typing_preserves_text (env : Nat → TypingStep) (S : String)
    (henv : ∀ j, (env j).inputOk = true) (hS : '\x08' ∉ S.data) :
    (TypeHumanWithTypos env S).2 = none ∧
    sinkText (TypeHumanWithTypos env S).1 = S ∧
    ∃ groups : List (List String), (TypeHumanWithTypos env S).1 = groups.flatten ∧
      List.Forall₂
        (fun c g => g = [String.singleton c] ∨
          g = [String.singleton c, backspaceKey, String.singleton c])
        S.data groups := by
  obtain ⟨h1, h2, h3⟩ := typeChars_sink env henv S.data 0 [] hS
  refine ⟨h1, ?_, h3⟩
  unfold sinkText TypeHumanWithTypos
  rw [h2, List.nil_append]

theorem typing_preserves_text_witness :
    '\x08' ∉ "hello".data ∧
    sinkText (TypeHumanWithTypos demoTyping "hello").1 = "hello" ∧
    (TypeHumanWithTypos demoTyping "hello").1
      = ["h", backspaceKey, "h", "e", "l", "l", backspaceKey, "l", "o"] :=
  ⟨by decide, (typing_preserves_text demoTyping "hello" (fun _ => rfl) (by decide)).2.1,
    by decide⟩


/-! ## Template rendering -/

theorem replaceAllAux_skip (old new : List Char) (xs ys : List Char) :
    replaceAllAux old new xs.length (xs ++ ys) = replaceAllAux old new 0 ys := by
  induction xs with
  | nil => rfl
  | cons x rest ih =>
    simp only [List.length_cons, List.cons_append]
    cases hr : rest ++ ys <;> simp [replaceAllAux, ← hr, ih]

theorem replaceAllAux_no_open (p new : List Char) (xs ys : List Char) (h : '\x7b' ∉ xs) :
    replaceAllAux ('\x7b' :: p) new 0 (xs ++ ys) = xs ++ replaceAllAux ('\x7b' :: p) new 0 ys := by
  induction xs with
  | nil => rfl
  | cons x rest ih =>
    have hx : ¬ '\x7b' = x := fun e => h (e ▸ List.mem_cons_self _ _)
    have hrest : '\x7b' ∉ rest := fun e => h (List.mem_cons_of_mem _ e)
    have hx2 : ('\x7b' == x) = false := by simpa using hx
    rw [List.cons_append, replaceAllAux, startsWith, hx2, Bool.false_and, if_neg (by simp),
      ih hrest, List.cons_append]

theorem startsWith_hole (k w rest : List Char) (hk : braceFree k) (hw : braceFree w) :
    startsWith (k ++ ['\x7d']) (w ++ '\x7d' :: rest) = decide (w = k) := by
  induction k generalizing w with
  | nil =>
    cases w with
    | nil => simp [startsWith]
    | cons c w2 =>
      have hc : ¬ '\x7d' = c := fun e => hw.2 (e ▸ List.mem_cons_self _ _)
      simp [startsWith, hc]
  | cons a k2 ih =>
    have ha : ¬ a = '\x7d' := fun e => hk.2 (e ▸ List.mem_cons_self _ _)
    have hk2 : braceFree k2 :=
      ⟨fun e => hk.1 (List.mem_cons_of_mem _ e), fun e => hk.2 (List.mem_cons_of_mem _ e)⟩
    cases w with
    | nil => simp [startsWith, ha]
    | cons c w2 =>
      have hw2 : braceFree w2 :=
        ⟨fun e => hw.1 (List.mem_cons_of_mem _ e), fun e => hw.2 (List.mem_cons_of_mem _ e)⟩
      rw [List.cons_append, List.cons_append, startsWith, ih w2 hk2 hw2]
      by_cases h1 : a = c
      · subst h1; by_cases h2 : w2 = k2 <;> simp [h2]
      · have h1b : ¬ c = a := fun e => h1 e.symm
        simp [h1, h1b]

theorem replaceAll_pieces (k v : List Char) (hk : braceFree k) (ps : List Piece)
    (hps : ∀ p ∈ ps, p.braceFree) :
    replaceAllAux ('\x7b' :: (k ++ ['\x7d'])) v 0 (piecesText ps)
      = piecesText (ps.map (fillKey k v)) := by
  induction ps with
  | nil => rfl
  | cons p rest ih =>
    have hrest : ∀ q ∈ rest, q.braceFree := fun q hq => hps q (List.mem_cons_of_mem _ hq)
    have hp : p.braceFree := hps p (List.mem_cons_self _ _)
    cases p with
    | text s =>
      simp only [piecesText, Piece.chars, List.map_cons, fillKey]
      rw [replaceAllAux_no_open _ _ _ _ hp.1, ih hrest]
    | hole w =>
      simp only [piecesText, Piece.chars, List.map_cons, fillKey, List.cons_append,
        List.append_assoc, List.singleton_append]
      rw [replaceAllAux]
      simp only [startsWith, beq_self_eq_true, Bool.true_and, startsWith_hole k w _ hk hp,
        decide_eq_true_eq]
      by_cases hwk : w = k
      · subst hwk
        rw [if_pos rfl, if_pos rfl]
        have hlen : ('\x7b' :: (w ++ ['\x7d'])).length - 1 = (w ++ ['\x7d']).length := by simp
        rw [hlen]
        have := replaceAllAux_skip ('\x7b' :: (w ++ ['\x7d'])) v (w ++ ['\x7d']) (piecesText rest)
        simp only [List.append_assoc, List.singleton_append] at this
        simp only [List.nil_append]
        rw [this, ih hrest]
      · rw [if_neg hwk, if_neg hwk]
        have hw1 : '\x7b' ∉ w ++ ['\x7d'] := by
          intro e
          rcases List.mem_append.1 e with e | e
          · exact hp.1 e
          · simp at e
        have := replaceAllAux_no_open (k ++ ['\x7d']) v (w ++ ['\x7d']) (piecesText rest) hw1
        simp only [List.append_assoc, List.singleton_append] at this
        simp only [List.nil_append]
        rw [this, ih hrest]
        simp [piecesText, Piece.chars]

theorem fillPiece_nil (p : Piece) : fillPiece [] p = p := by
  cases p <;> rfl

theorem fillPiece_cons (k v : String) (data : List (String × String)) (p : Piece) :
    fillPiece data (fillKey k.data v.data p) = fillPiece ((k, v) :: data) p := by
  cases p with
  | text s => rfl
  | hole w =>
    by_cases h : w = k.data
    · simp [fillKey, fillPiece, valueOf, h]
    · simp [fillKey, fillPiece, valueOf, h]

theorem fillKey_braceFree (k v : List Char) (hv : braceFree v) (p : Piece) (hp : p.braceFree) :
    (fillKey k v p).braceFree := by
  cases p with
  | text s => exact hp
  | hole w =>
    by_cases h : w = k
    · simpa [fillKey, h, Piece.braceFree] using hv
    · simpa [fillKey, h, Piece.braceFree] using hp

theorem placeholder_data (k : String) :
    ("\x7b" ++ k ++ "\x7d").data = '\x7b' :: (k.data ++ ['\x7d']) := by
  simp [String.data_append]

theorem Template_cons (tmpl k v : String) (data : List (String × String)) :
    Template tmpl ((k, v) :: data) = Template (ReplaceAll tmpl ("\x7b" ++ k ++ "\x7d") v) data := by
  simp [Template]

theorem Template_pieces (data : List (String × String)) :
    ∀ (ps : List Piece), (∀ p ∈ ps, p.braceFree) →
      (∀ kv ∈ data, braceFree kv.1.data ∧ braceFree kv.2.data) →
      Template (String.mk (piecesText ps)) data
        = String.mk (piecesText (ps.map (fillPiece data))) := by
  induction data with
  | nil =>
    intro ps _ _
    have : ps.map (fillPiece []) = ps := by
      conv_rhs => rw [← List.map_id ps]
      exact List.map_congr_left (fun p _ => fillPiece_nil p)
    rw [this]; rfl
  | cons kv rest ih =>
    intro ps hps hdata
    obtain ⟨k, v⟩ := kv
    have hkv := hdata (k, v) (List.mem_cons_self _ _)
    have hrest : ∀ kv ∈ rest, braceFree kv.1.data ∧ braceFree kv.2.data :=
      fun kv h => hdata kv (List.mem_cons_of_mem _ h)
    have hps2 : ∀ p ∈ ps.map (fillKey k.data v.data), p.braceFree := by
      intro p hp
      obtain ⟨q, hq, rfl⟩ := List.mem_map.1 hp
      exact fillKey_braceFree _ _ hkv.2 q (hps q hq)
    rw [Template_cons]
    unfold ReplaceAll
    rw [placeholder_data]
    simp only []
    rw [replaceAll_pieces k.data v.data hkv.1 ps hps, ih _ hps2 hrest, List.map_map]
    congr 2
    exact List.map_congr_left (fun p _ => fillPiece_cons k v rest p)


/-- C15 (counterexample): the template `{a}` with the map `a -> {b}`, `b -> X`,
visited in this order, renders to `X`, while replacing the one placeholder of
the template by its value gives `{b}`; and a template with nested braces around
`{x}` renders, with `x -> a`, `a -> Z`, to `Z` although its only placeholder is
the one of `x`. -/
theorem Template_rescans_replaced_text :
    String.mk (piecesText [Piece.hole "a".data]) = "{a}" ∧
    Template "{a}" [("a", "{b}"), ("b", "X")] = "X" ∧
    String.mk (piecesText ([Piece.hole "a".data].map (fillPiece [("a", "{b}"), ("b", "X")])))
      = "{b}" ∧
    Template "\x7b\x7bx\x7d\x7d" [("x", "a"), ("a", "Z")] = "Z" ∧
    String.mk (piecesText ([Piece.text "\x7b".data, Piece.hole "x".data,
      Piece.text "\x7d".data].map (fillPiece [("x", "a"), ("a", "Z")]))) = "{a}" := by
  decide

/-- C15 (amended): for every template made of brace-free text and placeholders
`{w}` with brace-free `w`, and every substitution map whose keys and values
contain no brace, visited in any order, `Template` returns the template with
every placeholder whose key is in the map replaced by that key's value and all
other text, placeholders of absent keys included, unchanged. -/
theorem Template_fills_placeholders (ps : List Piece) (data : List (String × String))
    (hps : ∀ p ∈ ps, p.braceFree)
    (hdata : ∀ kv ∈ data, braceFree kv.1.data ∧ braceFree kv.2.data) :
    Template (String.mk (piecesText ps)) data
      = String.mk (piecesText (ps.map (fillPiece data))) :=
  Template_pieces data ps hps hdata

theorem helloPieces_braceFree : ∀ p ∈ helloPieces, p.braceFree := by
  intro p hp
  simp only [helloPieces, List.mem_cons, List.mem_singleton, List.not_mem_nil, or_false] at hp
  rcases hp with rfl | rfl | rfl | rfl <;>
    exact ⟨by decide, by decide⟩

theorem helloData_braceFree (data : List (String × String))
    (h : data = [("name", "A"), ("company", "B")] ∨ data = [("company", "B"), ("name", "A")]) :
    ∀ kv ∈ data, braceFree kv.1.data ∧ braceFree kv.2.data := by
  intro kv hkv
  rcases h with rfl | rfl <;>
    (simp only [List.mem_cons, List.mem_singleton, List.not_mem_nil, or_false] at hkv
     rcases hkv with rfl | rfl <;> exact ⟨⟨by decide, by decide⟩, ⟨by decide, by decide⟩⟩)

theorem Template_fills_placeholders_witness :
    String.mk (piecesText helloPieces) = "hello {name}, from {company}" ∧
    Template (String.mk (piecesText helloPieces)) [("name", "A"), ("company", "B")]
      = "hello A, from B" ∧
    Template (String.mk (piecesText helloPieces)) [("company", "B"), ("name", "A")]
      = "hello A, from B" :=
  ⟨by decide,
    (Template_fills_placeholders helloPieces [("name", "A"), ("company", "B")]
      helloPieces_braceFree (helloData_braceFree _ (Or.inl rfl))).trans (by decide),
    (Template_fills_placeholders helloPieces [("company", "B"), ("name", "A")]
      helloPieces_braceFree (helloData_braceFree _ (Or.inr rfl))).trans (by decide)⟩

/-! ## float64 rounding and the pointer path -/

theorem ilog2_zero (k acc : Nat) : ilog2 k acc 0 = acc := by
  induction k generalizing acc with
  | zero => rfl
  | succ k ih =>
    unfold ilog2
    rw [if_neg (by have := Nat.pos_pow_of_pos (acc + 2 ^ k) (by norm_num : 0 < 2); omega)]
    exact ih acc

theorem ilog2_spec (k : Nat) : ∀ acc n, 2 ^ acc ≤ n → n < 2 ^ (acc + 2 ^ k) →
    2 ^ (ilog2 k acc n) ≤ n ∧ n < 2 ^ (ilog2 k acc n + 1) := by
  induction k with
  | zero => intro acc n h1 h2; exact ⟨h1, by simpa using h2⟩
  | succ k ih =>
    intro acc n h1 h2
    unfold ilog2
    by_cases h : 2 ^ (acc + 2 ^ k) ≤ n
    · rw [if_pos h]
      apply ih _ _ h
      have : acc + 2 ^ k + 2 ^ k = acc + 2 ^ (k + 1) := by rw [pow_succ]; omega
      rw [this]; exact h2
    · rw [if_neg h]
      exact ih _ _ h1 (by omega)

/-- The shift chosen by `roundMag`. -/
theorem shift_spec (f : Nat) (hf : f < 2 ^ 2098) :
    (ilog2 12 0 f - 52 = 0 ∧ f < 2 ^ 53) ∨
    (0 < ilog2 12 0 f - 52 ∧ 2 ^ (ilog2 12 0 f - 52 + 52) ≤ f ∧
      f < 2 ^ (ilog2 12 0 f - 52 + 53)) := by
  rcases Nat.eq_zero_or_pos f with rfl | hpos
  · left
    rw [ilog2_zero]
    exact ⟨rfl, Nat.pos_pow_of_pos _ (by norm_num)⟩
  · have hlt : f < 2 ^ (0 + 2 ^ 12) :=
      lt_of_lt_of_le hf (Nat.pow_le_pow_right (by norm_num) (by norm_num))
    obtain ⟨h1, h2⟩ := ilog2_spec 12 0 f (by simpa using hpos) hlt
    by_cases hs : ilog2 12 0 f ≤ 52
    · left
      refine ⟨by omega, lt_of_lt_of_le h2 (Nat.pow_le_pow_right (by norm_num) (by omega))⟩
    · right
      have e1 : ilog2 12 0 f - 52 + 52 = ilog2 12 0 f := by omega
      have e2 : ilog2 12 0 f - 52 + 53 = ilog2 12 0 f + 1 := by omega
      rw [e1, e2]
      exact ⟨by omega, h1, h2⟩

theorem rne_bounds (n d : Nat) (hd : 0 < d) :
    n / d ≤ roundNearestEven n d ∧ roundNearestEven n d ≤ n / d + 1 ∧
    (n % d = 0 → roundNearestEven n d = n / d) ∧
    2 * (roundNearestEven n d * d) ≤ 2 * n + d ∧ 2 * n ≤ 2 * (roundNearestEven n d * d) + d := by
  have hdm := Nat.div_add_mod n d
  have hml := Nat.mod_lt n hd
  have hmul : d * (n / d) = (n / d) * d := Nat.mul_comm _ _
  unfold roundNearestEven
  by_cases h1 : 2 * (n % d) < d
  · rw [if_pos h1]
    refine ⟨le_refl _, by omega, fun _ => rfl, by omega, by omega⟩
  · rw [if_neg h1]
    by_cases h2 : d < 2 * (n % d)
    · rw [if_pos h2]
      refine ⟨by omega, le_refl _, fun h => by omega, ?_, ?_⟩
      · rw [Nat.add_mul]; omega
      · rw [Nat.add_mul]; omega
    · rw [if_neg h2]
      by_cases h3 : (n / d) % 2 = 0
      · rw [if_pos h3]
        refine ⟨le_refl _, by omega, fun _ => rfl, by omega, by omega⟩
      · rw [if_neg h3]
        refine ⟨by omega, le_refl _, fun h => by omega, ?_, ?_⟩
        · rw [Nat.add_mul]; omega
        · rw [Nat.add_mul]; omega

theorem rne_ge (n d a : Nat) (hd : 0 < d) (h : a * d ≤ n) : a ≤ roundNearestEven n d :=
  le_trans ((Nat.le_div_iff_mul_le hd).2 h) (rne_bounds n d hd).1

theorem rne_le (n d b : Nat) (hd : 0 < d) (h : n ≤ b * d) : roundNearestEven n d ≤ b := by
  obtain ⟨_, h2, h3, _, _⟩ := rne_bounds n d hd
  by_cases hr : n % d = 0
  · rw [h3 hr]
    exact Nat.div_le_of_le_mul (by rw [Nat.mul_comm]; exact h)
  · have hlt : n / d < b := by
      rw [Nat.div_lt_iff_lt_mul hd]
      rcases Nat.lt_or_ge n (b * d) with h4 | h4
      · exact h4
      · have : n = b * d := le_antisymm h h4
        rw [this, Nat.mul_mod_left] at hr
        exact absurd rfl hr
    omega

/-- A magnitude that `float64` represents exactly: below `2^1024` and with at
most 53 significant bits. -/

theorem roundMag_bracket (n d lo hi : Nat) (hd : 0 < d) (hlo : isMag lo) (hhi : isMag hi)
    (h1 : lo * d ≤ n) (h2 : n ≤ hi * d) :
    ∃ k, roundMag n d = some k ∧ lo ≤ k ∧ k ≤ hi ∧ isMag k := by
  obtain ⟨hlo1, ml, jl, hml, rfl⟩ := hlo
  obtain ⟨hhi1, mh, jh, hmh, rfl⟩ := hhi
  have hfl : n / d ≤ mh * 2 ^ jh := Nat.div_le_of_le_mul (by rw [Nat.mul_comm]; exact h2)
  have hf : n / d < 2 ^ 2098 := lt_of_le_of_lt hfl hhi1
  have hfd : n / d * d ≤ n := Nat.div_mul_le_self n d
  set s := ilog2 12 0 (n / d) - 52 with hs
  have hDpos : 0 < d * 2 ^ s := Nat.mul_pos hd (Nat.pos_pow_of_pos _ (by norm_num))
  set m := roundNearestEven n (d * 2 ^ s) with hm
  -- upper bound
  have hup : m * 2 ^ s ≤ mh * 2 ^ jh := by
    by_cases hj : s ≤ jh
    · have e : mh * 2 ^ jh = mh * 2 ^ (jh - s) * 2 ^ s := by
        rw [Nat.mul_assoc, ← pow_add, Nat.sub_add_cancel hj]
      rw [e]
      apply Nat.mul_le_mul_right
      apply rne_le _ _ _ hDpos
      calc n ≤ mh * 2 ^ jh * d := h2
        _ = mh * 2 ^ (jh - s) * (d * 2 ^ s) := by rw [e]; ring
    · have hspos : 0 < s := by omega
      rcases shift_spec (n / d) hf with ⟨h0, _⟩ | ⟨_, h3, _⟩
      · omega
      · have hle : mh * 2 ^ jh ≤ 2 ^ (s + 52) := by
          calc mh * 2 ^ jh ≤ 2 ^ 53 * 2 ^ jh := Nat.mul_le_mul_right _ hmh
            _ = 2 ^ (53 + jh) := by rw [pow_add]
            _ ≤ 2 ^ (s + 52) := Nat.pow_le_pow_right (by norm_num) (by omega)
        have hm52 : m ≤ 2 ^ 52 := by
          apply rne_le _ _ _ hDpos
          calc n ≤ mh * 2 ^ jh * d := h2
            _ ≤ 2 ^ (s + 52) * d := Nat.mul_le_mul_right _ hle
            _ = 2 ^ 52 * (d * 2 ^ s) := by rw [pow_add]; ring
        calc m * 2 ^ s ≤ 2 ^ 52 * 2 ^ s := Nat.mul_le_mul_right _ hm52
          _ = 2 ^ (s + 52) := by rw [pow_add]; ring
          _ ≤ n / d := h3
          _ ≤ mh * 2 ^ jh := hfl
  -- lower bound
  have hdown : ml * 2 ^ jl ≤ m * 2 ^ s := by
    by_cases hj : s ≤ jl
    · have e : ml * 2 ^ jl = ml * 2 ^ (jl - s) * 2 ^ s := by
        rw [Nat.mul_assoc, ← pow_add, Nat.sub_add_cancel hj]
      rw [e]
      apply Nat.mul_le_mul_right
      apply rne_ge _ _ _ hDpos
      calc ml * 2 ^ (jl - s) * (d * 2 ^ s) = ml * 2 ^ jl * d := by rw [e]; ring
        _ ≤ n := h1
    · have hspos : 0 < s := by omega
      rcases shift_spec (n / d) hf with ⟨h0, _⟩ | ⟨_, h3, _⟩
      · omega
      · have hq : 2 ^ 52 ≤ m := by
          apply rne_ge _ _ _ hDpos
          calc 2 ^ 52 * (d * 2 ^ s) = 2 ^ (s + 52) * d := by rw [pow_add]; ring
            _ ≤ n / d * d := Nat.mul_le_mul_right _ h3
            _ ≤ n := hfd
        calc ml * 2 ^ jl ≤ 2 ^ 53 * 2 ^ jl := Nat.mul_le_mul_right _ hml
          _ = 2 ^ (53 + jl) := by rw [pow_add]
          _ ≤ 2 ^ (52 + s) := Nat.pow_le_pow_right (by norm_num) (by omega)
          _ = 2 ^ 52 * 2 ^ s := by rw [pow_add]
          _ ≤ m * 2 ^ s := Nat.mul_le_mul_right _ hq
  have hfin : m * 2 ^ s < 2 ^ 2098 := lt_of_le_of_lt hup hhi1
  -- the mantissa has at most 53 bits
  have hmant : m ≤ 2 ^ 53 := by
    have hq : n / (d * 2 ^ s) < 2 ^ 53 := by
      rw [Nat.div_lt_iff_lt_mul hDpos]
      have hlt : n < (n / d + 1) * d := by
        have := Nat.div_add_mod n d
        have := Nat.mod_lt n hd
        rw [Nat.add_mul, Nat.mul_comm (n / d) d]
        omega
      rcases shift_spec (n / d) hf with ⟨h0, h3⟩ | ⟨_, _, h4⟩
      · have hs0 : s = 0 := h0
        rw [hs0, pow_zero, Nat.mul_one]
        calc n < (n / d + 1) * d := hlt
          _ ≤ 2 ^ 53 * d := Nat.mul_le_mul_right _ h3
      · calc n < (n / d + 1) * d := hlt
          _ ≤ 2 ^ (s + 53) * d := Nat.mul_le_mul_right _ h4
          _ = 2 ^ 53 * (d * 2 ^ s) := by rw [pow_add]; ring
    have := (rne_bounds n (d * 2 ^ s) hDpos).2.1
    omega
  refine ⟨m * 2 ^ s, ?_, hdown, hup, hfin, m, s, hmant, rfl⟩
  unfold roundMag
  rw [if_neg (by omega), if_neg (by omega)]
  simp only [← hs, ← hm]
  rw [if_neg (by omega)]

theorem roundMag_form (n d k : Nat) (hd : 0 < d) (h : roundMag n d = some k) :
    ∃ m s, k = m * 2 ^ s ∧ m ≤ 2 ^ 53 ∧ k < 2 ^ 2098 ∧
      2 * (k * d) ≤ 2 * n + d * 2 ^ s ∧ 2 * n ≤ 2 * (k * d) + d * 2 ^ s ∧
      (s = 0 ∨ d * 2 ^ s * 2 ^ 52 ≤ n) := by
  unfold roundMag at h
  rw [if_neg (by omega)] at h
  by_cases hf : 2 ^ 2098 ≤ n / d
  · rw [if_pos hf] at h; exact absurd h (by simp)
  rw [if_neg hf] at h
  simp only at h
  by_cases ho : 2 ^ 2098 ≤ roundNearestEven n (d * 2 ^ (ilog2 12 0 (n / d) - 52))
      * 2 ^ (ilog2 12 0 (n / d) - 52)
  · rw [if_pos ho] at h; exact absurd h (by simp)
  rw [if_neg ho] at h
  have hk := Option.some.inj h
  set s := ilog2 12 0 (n / d) - 52 with hs
  have hDpos : 0 < d * 2 ^ s := Nat.mul_pos hd (Nat.pos_pow_of_pos _ (by norm_num))
  set m := roundNearestEven n (d * 2 ^ s) with hm
  have hfd : n / d * d ≤ n := Nat.div_mul_le_self n d
  have hlt : n < (n / d + 1) * d := by
    have := Nat.div_add_mod n d
    have := Nat.mod_lt n hd
    rw [Nat.add_mul, Nat.mul_comm (n / d) d]
    omega
  obtain ⟨_, r2, _, r4, r5⟩ := rne_bounds n (d * 2 ^ s) hDpos
  have hkd : k * d = m * (d * 2 ^ s) := by rw [← hk]; ring
  refine ⟨m, s, hk.symm, ?_, by omega, by rw [hkd]; exact r4, by rw [hkd]; exact r5, ?_⟩
  · have hq : n / (d * 2 ^ s) < 2 ^ 53 := by
      rw [Nat.div_lt_iff_lt_mul hDpos]
      rcases shift_spec (n / d) (by omega) with ⟨h0, h3⟩ | ⟨_, _, h4⟩
      · have hs0 : s = 0 := h0
        rw [hs0, pow_zero, Nat.mul_one]
        calc n < (n / d + 1) * d := hlt
          _ ≤ 2 ^ 53 * d := Nat.mul_le_mul_right _ h3
      · calc n < (n / d + 1) * d := hlt
          _ ≤ 2 ^ (s + 53) * d := Nat.mul_le_mul_right _ h4
          _ = 2 ^ 53 * (d * 2 ^ s) := by rw [pow_add]; ring
    omega
  · rcases shift_spec (n / d) (by omega) with ⟨h0, _⟩ | ⟨_, h3, _⟩
    · exact Or.inl h0
    · right
      calc d * 2 ^ s * 2 ^ 52 = 2 ^ (s + 52) * d := by rw [pow_add]; ring
        _ ≤ n / d * d := Nat.mul_le_mul_right _ h3
        _ ≤ n := hfd

theorem roundMag_isMag (n d k : Nat) (hd : 0 < d) (h : roundMag n d = some k) : isMag k := by
  obtain ⟨m, s, h1, h2, h3, _⟩ := roundMag_form n d k hd h
  exact ⟨h3, m, s, h2, h1⟩

theorem roundMag_exact (k : Nat) (hk : isMag k) : roundMag k 1 = some k := by
  obtain ⟨k2, h1, h2, h3, _⟩ := roundMag_bracket k 1 k k (by norm_num) hk hk (by simp) (by simp)
  have : k2 = k := le_antisymm h3 h2
  rw [h1, this]

theorem isFloat_iff (k : Int) : isFloat k ↔ isMag k.natAbs := by
  unfold isFloat roundFrac
  constructor
  · intro h
    cases hm : roundMag k.natAbs 1 with
    | none => rw [hm] at h; exact absurd h (by simp)
    | some j =>
      rw [hm] at h
      have hj := roundMag_isMag _ _ _ (by norm_num) hm
      have hkj : k.natAbs = j := by
        have := Option.some.inj h
        by_cases hneg : k < 0
        · rw [if_pos hneg] at this; omega
        · rw [if_neg hneg] at this; omega
      rw [hkj]; exact hj
  · intro h
    rw [roundMag_exact _ h]
    simp only
    by_cases hneg : k < 0
    · rw [if_pos hneg]; congr 1; omega
    · rw [if_neg hneg]; congr 1; omega

theorem isMag_zero : isMag 0 := ⟨Nat.pos_pow_of_pos _ (by norm_num), 0, 0, by norm_num, by simp⟩

theorem isFloat_neg (k : Int) (h : isFloat k) : isFloat (-k) := by
  rw [isFloat_iff] at h ⊢
  rwa [Int.natAbs_neg]

/-- Rounding keeps a number between any two `float64` values that enclose it. -/
theorem roundFrac_bracket (n : Int) (d : Nat) (lo hi : Int) (hd : 0 < d)
    (hlo : isFloat lo) (hhi : isFloat hi) (h1 : lo * d ≤ n) (h2 : n ≤ hi * d) :
    ∃ k, roundFrac n d = some k ∧ lo ≤ k ∧ k ≤ hi ∧ isFloat k := by
  have hdI : (0 : Int) < d := by exact_mod_cast hd
  rw [isFloat_iff] at hlo hhi
  by_cases hn : n < 0
  · -- negative: work with magnitudes
    have hlo_neg : lo < 0 := by
      by_contra hc
      have : 0 ≤ lo * d := Int.mul_nonneg (by omega) (by omega)
      omega
    have hup : n.natAbs ≤ lo.natAbs * d := by
      have : -n ≤ -lo * d := by rw [Int.neg_mul]; omega
      zify
      rw [abs_of_neg hn, abs_of_neg hlo_neg]
      exact this
    obtain ⟨k, hk1, hk2, hk3, hk4⟩ : ∃ k, roundMag n.natAbs d = some k ∧
        (if hi ≤ 0 then hi.natAbs else 0) ≤ k ∧ k ≤ lo.natAbs ∧ isMag k := by
      by_cases hh : hi ≤ 0
      · rw [if_pos hh]
        apply roundMag_bracket _ _ _ _ hd hhi hlo _ hup
        have : -hi * d ≤ -n := by rw [Int.neg_mul]; omega
        zify
        rw [abs_of_neg hn, abs_of_nonpos hh]
        exact this
      · rw [if_neg hh]
        exact roundMag_bracket _ _ _ _ hd isMag_zero hlo (by simp) hup
    refine ⟨-(k : Int), ?_, ?_, ?_, ?_⟩
    · unfold roundFrac; rw [hk1]; simp [hn]
    · omega
    · by_cases hh : hi ≤ 0
      · rw [if_pos hh] at hk2; omega
      · omega
    · rw [isFloat_iff, Int.natAbs_neg, Int.natAbs_ofNat]; exact hk4
  · have hhi_nn : 0 ≤ hi := by
      by_contra hc
      have : hi * d < 0 := Int.mul_neg_of_neg_of_pos (by omega) hdI
      omega
    have hup : n.natAbs ≤ hi.natAbs * d := by
      zify
      rw [abs_of_nonneg (by omega : 0 ≤ n), abs_of_nonneg hhi_nn]
      exact h2
    obtain ⟨k, hk1, hk2, hk3, hk4⟩ : ∃ k, roundMag n.natAbs d = some k ∧
        (if 0 ≤ lo then lo.natAbs else 0) ≤ k ∧ k ≤ hi.natAbs ∧ isMag k := by
      by_cases hh : 0 ≤ lo
      · rw [if_pos hh]
        apply roundMag_bracket _ _ _ _ hd hlo hhi _ hup
        zify
        rw [abs_of_nonneg (by omega : 0 ≤ n), abs_of_nonneg hh]
        exact h1
      · rw [if_neg hh]
        exact roundMag_bracket _ _ _ _ hd isMag_zero hhi (by simp) hup
    refine ⟨(k : Int), ?_, ?_, ?_, ?_⟩
    · unfold roundFrac; rw [hk1]; simp [hn]
    · by_cases hh : 0 ≤ lo
      · rw [if_pos hh] at hk2; omega
      · omega
    · omega
    · rw [isFloat_iff, Int.natAbs_ofNat]; exact hk4

theorem roundFrac_isFloat (n : Int) (d : Nat) (k : Int) (hd : 0 < d)
    (h : roundFrac n d = some k) : isFloat k := by
  unfold roundFrac at h
  cases hm : roundMag n.natAbs d with
  | none => rw [hm] at h; exact absurd h (by simp)
  | some j =>
    rw [hm] at h
    have hj := roundMag_isMag _ _ _ hd hm
    have := Option.some.inj h
    rw [isFloat_iff, ← this]
    by_cases hneg : n < 0
    · rw [if_pos hneg, Int.natAbs_neg, Int.natAbs_ofNat]; exact hj
    · rw [if_neg hneg, Int.natAbs_ofNat]; exact hj

/-- The rounding error: at most half a unit, or at most the fraction `2^-53` of
the number. -/
theorem roundFrac_error (n : Int) (d : Nat) (k : Int) (hd : 0 < d)
    (h : roundFrac n d = some k) :
    |(k : ℚ) - (n : ℚ) / d| ≤ 1 / 2 ∨ |(k : ℚ) - (n : ℚ) / d| ≤ |(n : ℚ) / d| / 2 ^ 53 := by
  unfold roundFrac at h
  cases hm : roundMag n.natAbs d with
  | none => rw [hm] at h; exact absurd h (by simp)
  | some j =>
    rw [hm] at h
    obtain ⟨m, s, _, _, _, e1, e2, e3⟩ := roundMag_form _ _ _ hd hm
    have hk := Option.some.inj h
    have hdq : (0 : ℚ) < d := by exact_mod_cast hd
    -- the statement for the magnitudes
    have hmag : |(j : ℚ) - (n.natAbs : ℚ) / d| ≤ 1 / 2 ∨
        |(j : ℚ) - (n.natAbs : ℚ) / d| ≤ ((n.natAbs : ℚ) / d) / 2 ^ 53 := by
      have e1q : 2 * ((j : ℚ) * d) ≤ 2 * (n.natAbs : ℚ) + d * 2 ^ s := by exact_mod_cast e1
      have e2q : 2 * (n.natAbs : ℚ) ≤ 2 * ((j : ℚ) * d) + d * 2 ^ s := by exact_mod_cast e2
      set q : ℚ := (n.natAbs : ℚ) / d with hq
      have hqd : q * d = (n.natAbs : ℚ) := by rw [hq]; field_simp
      rw [← hqd] at e1q e2q
      have g1 : 2 * (j : ℚ) ≤ 2 * q + 2 ^ s := by
        apply le_of_mul_le_mul_right _ hdq
        linarith
      have g2 : 2 * q ≤ 2 * (j : ℚ) + 2 ^ s := by
        apply le_of_mul_le_mul_right _ hdq
        linarith
      have habs : |(j : ℚ) - q| ≤ 2 ^ s / 2 := by
        rw [abs_le]
        constructor <;> linarith
      rcases e3 with e3 | e3
      · left
        rw [e3] at habs
        simpa using habs
      · right
        have e3q : (d : ℚ) * 2 ^ s * 2 ^ 52 ≤ (n.natAbs : ℚ) := by exact_mod_cast e3
        rw [← hqd] at e3q
        have g3 : (2 : ℚ) ^ s * 2 ^ 52 ≤ q := by
          apply le_of_mul_le_mul_right _ hdq
          linarith
        refine le_trans habs ?_
        rw [div_le_div_iff₀ (by norm_num) (by positivity)]
        have : (2 : ℚ) ^ 53 = 2 * 2 ^ 52 := by norm_num
        rw [this]
        linarith
    have hnabs : ((n.natAbs : ℕ) : ℚ) = |(n : ℚ)| := by
      rw [Nat.cast_natAbs, Int.cast_abs]
    rw [hnabs] at hmag
    have hdiv : |(n : ℚ) / d| = |(n : ℚ)| / d := by rw [abs_div, abs_of_pos hdq]
    rw [hdiv]
    by_cases hneg : n < 0
    · rw [if_pos hneg] at hk
      have hnq : (n : ℚ) < 0 := by exact_mod_cast hneg
      rw [← hk]
      have : ((-(j : Int) : Int) : ℚ) - (n : ℚ) / d = -((j : ℚ) - |(n : ℚ)| / d) := by
        rw [abs_of_neg hnq]; push_cast; ring
      rw [this, abs_neg]
      exact hmag
    · rw [if_neg hneg] at hk
      have hnq : (0 : ℚ) ≤ (n : ℚ) := by exact_mod_cast (by omega : 0 ≤ n)
      rw [← hk]
      have : (((j : Int) : Int) : ℚ) - (n : ℚ) / d = (j : ℚ) - |(n : ℚ)| / d := by
        rw [abs_of_nonneg hnq]; push_cast; ring
      rw [this]
      exact hmag

theorem F64.add_val (a b : F64) (p q : Int) (ha : a.val = some p) (hb : b.val = some q) :
    (a + b).val = roundFrac (p + q) 1 := by
  show (F64.add a b).val = _
  unfold F64.add
  rw [ha, hb]

theorem F64.sub_val (a b : F64) (p q : Int) (ha : a.val = some p) (hb : b.val = some q) :
    (a - b).val = roundFrac (p - q) 1 := by
  show (F64.sub a b).val = _
  unfold F64.sub
  rw [ha, hb]

theorem F64.mul_val (a b : F64) (p q : Int) (ha : a.val = some p) (hb : b.val = some q) :
    (a * b).val = roundFrac (p * q) (2 ^ 1074) := by
  show (F64.mul a b).val = _
  unfold F64.mul
  rw [ha, hb]

theorem F64.div_val (a b : F64) (p q : Int) (ha : a.val = some p) (hb : b.val = some q)
    (hq : 0 < q) : (a / b).val = roundFrac (p * 2 ^ 1074) q.natAbs := by
  show (F64.div a b).val = _
  unfold F64.div
  rw [ha, hb]
  simp only
  rw [if_neg (by omega)]

theorem isFloat_zero : isFloat 0 := by decide!

theorem isFloat_nat (n : Nat) (hn : n ≤ 2 ^ 53) : isFloat ((n : Int) * 2 ^ 1074) := by
  rw [isFloat_iff]
  have e : ((n : Int) * 2 ^ 1074).natAbs = n * 2 ^ 1074 := by
    rw [Int.natAbs_mul, Int.natAbs_ofNat, Int.natAbs_pow]
    rfl
  rw [e]
  refine ⟨?_, n, 1074, hn, rfl⟩
  calc n * 2 ^ 1074 ≤ 2 ^ 53 * 2 ^ 1074 := Nat.mul_le_mul_right _ hn
    _ = 2 ^ 1127 := by rw [← pow_add]
    _ < 2 ^ 2098 := Nat.pow_lt_pow_right (by norm_num) (by norm_num)

theorem F64.ofFrac_nat (n : Nat) (hn : n ≤ 2 ^ 53) :
    (F64.ofFrac n 1).val = some ((n : Int) * 2 ^ 1074) := by
  have h := isFloat_nat n hn
  unfold isFloat at h
  unfold F64.ofFrac
  simp only []
  exact h

theorem F64.ofNat_val (n : Nat) (hn : n ≤ 2 ^ 53) :
    (OfNat.ofNat n : F64).val = some ((n : Int) * 2 ^ 1074) := by
  show (F64.ofFrac n 1).val = _
  exact F64.ofFrac_nat n hn

/-- The pattern `x + r * c - d` of lines 19, 20, 38 and 39 for a draw `r` of
`[0, 1)`: when `x`, `x + c`, `x - d` and `x + c - d` are `float64` values the
result lies between `x - d` and `x + c - d`. -/
theorem jitter_bracket (x r c d : F64) (X R C D : Int)
    (hx : x.val = some X) (hr : r.val = some R) (hc : c.val = some C) (hd : d.val = some D)
    (hR0 : 0 ≤ R) (hR1 : R < 2 ^ 1074) (hC0 : 0 ≤ C) (fC : isFloat C)
    (f1 : isFloat X) (f2 : isFloat (X + C)) (f3 : isFloat (X - D)) (f4 : isFloat (X + C - D)) :
    ∃ k, (x + r * c - d).val = some k ∧ X - D ≤ k ∧ k ≤ X + C - D ∧ isFloat k := by
  have hU : (0 : Int) < 2 ^ 1074 := by positivity
  obtain ⟨k1, e1, l1, u1, _⟩ := roundFrac_bracket (R * C) (2 ^ 1074) 0 C (by positivity)
    isFloat_zero fC (by simpa using Int.mul_nonneg hR0 hC0)
    (by push_cast; rw [Int.mul_comm]; exact Int.mul_le_mul_of_nonneg_left (by omega) hC0)
  have h1 : (r * c).val = some k1 := by rw [F64.mul_val r c R C hr hc]; exact e1
  obtain ⟨k2, e2, l2, u2, _⟩ := roundFrac_bracket (X + k1) 1 X (X + C) (by norm_num) f1 f2
    (by push_cast; omega) (by push_cast; omega)
  have h2 : (x + r * c).val = some k2 := by rw [F64.add_val x _ X k1 hx h1]; exact e2
  obtain ⟨k3, e3, l3, u3, f⟩ := roundFrac_bracket (k2 - D) 1 (X - D) (X + C - D) (by norm_num)
    f3 f4 (by push_cast; omega) (by push_cast; omega)
  exact ⟨k3, by rw [F64.sub_val _ d k2 D h2 hd]; exact e3, l3, u3, f⟩

theorem F64.eq_of_val (a b : F64) (h : a.val = b.val) : a = b := by
  cases a; cases b
  simp only [F64.mk.injEq]
  exact h

theorem F64.inUnit_elim (r : F64) (h : r.inUnit) :
    ∃ k, r.val = some k ∧ isFloat k ∧ 0 ≤ k ∧ k < 2 ^ 1074 := h

theorem F64.targetExact_elim (c : F64) (h : c.targetExact) :
    ∃ k, c.val = some k ∧ isFloat k ∧ |k| ≤ 2 ^ 52 * 2 ^ 1074 ∧
      isFloat (k - 6 * 2 ^ 1074) ∧ isFloat (k + 6 * 2 ^ 1074) ∧ isFloat (k + 12 * 2 ^ 1074) ∧
      isFloat (k - 3 * 2 ^ 1073) ∧ isFloat (k + 3 * 2 ^ 1073) ∧ isFloat (k + 3 * 2 ^ 1074) := h

theorem isFloat_two_pow (j : Nat) (hj : j < 2098) : isFloat ((2 : Int) ^ j) := by
  rw [isFloat_iff, Int.natAbs_pow]
  exact ⟨Nat.pow_lt_pow_right (by norm_num) hj, 1, j, by norm_num, by simp⟩

theorem const_vals :
    (0 : F64).val = some 0 ∧ (1 : F64).val = some (2 ^ 1074) ∧ (2 : F64).val = some (2 * 2 ^ 1074) ∧
    (3 : F64).val = some (3 * 2 ^ 1074) ∧ (6 : F64).val = some (6 * 2 ^ 1074) ∧
    (12 : F64).val = some (12 * 2 ^ 1074) ∧ (80 : F64).val = some (80 * 2 ^ 1074) ∧
    (100 : F64).val = some (100 * 2 ^ 1074) ∧ (150 : F64).val = some (150 * 2 ^ 1074) ∧
    (200 : F64).val = some (200 * 2 ^ 1074) ∧ (1.5 : F64).val = some (3 * 2 ^ 1073) ∧
    (0.6 : F64).val = some (5404319552844595 * 2 ^ 1021) := by
  decide!

theorem overshoot_near (x y : F64) (dr : MouseDraws) (hv : dr.valid)
    (hx : x.targetExact) (hy : y.targetExact) :
    (overshoot x y dr).x.within x 6 1 ∧ (overshoot x y dr).y.within y 6 1 ∧
    (∃ k, (overshoot x y dr).x.val = some k ∧ isFloat k) ∧
    (∃ k, (overshoot x y dr).y.val = some k ∧ isFloat k) := by
  obtain ⟨_, _, h3, h4, _⟩ := hv
  obtain ⟨X, eX, fX, _, fX1, fX2, fX3, _⟩ := F64.targetExact_elim x hx
  obtain ⟨Y, eY, fY, _, fY1, fY2, fY3, _⟩ := F64.targetExact_elim y hy
  obtain ⟨R3, e3, f3, a3, b3⟩ := F64.inUnit_elim _ h3
  obtain ⟨R4, e4, f4, a4, b4⟩ := F64.inUnit_elim _ h4
  have c12 := const_vals.2.2.2.2.2.1
  have c6 := const_vals.2.2.2.2.1
  have f12 : isFloat (12 * 2 ^ 1074) := isFloat_nat 12 (by norm_num)
  obtain ⟨k, hk, l, u, fk⟩ := jitter_bracket x dr.overX 12 6 X R3 _ _ eX e3 c12 c6 a3 b3
    (by positivity) f12 fX fX3 fX1 (by
      have : X + 12 * 2 ^ 1074 - 6 * 2 ^ 1074 = X + 6 * 2 ^ 1074 := by ring
      rw [this]; exact fX2)
  obtain ⟨k2, hk2, l2, u2, fk2⟩ := jitter_bracket y dr.overY 12 6 Y R4 _ _ eY e4 c12 c6 a4 b4
    (by positivity) f12 fY fY3 fY1 (by
      have : Y + 12 * 2 ^ 1074 - 6 * 2 ^ 1074 = Y + 6 * 2 ^ 1074 := by ring
      rw [this]; exact fY2)
  have hox : (overshoot x y dr).x.val = some k := hk
  have hoy : (overshoot x y dr).y.val = some k2 := hk2
  refine ⟨?_, ?_, ⟨k, hox, fk⟩, ⟨k2, hoy, fk2⟩⟩
  · refine ⟨k, X, hox, eX, ?_⟩
    simp only [Nat.cast_one, mul_one, Nat.cast_ofNat]
    rw [abs_le]
    constructor <;> omega
  · refine ⟨k2, Y, hoy, eY, ?_⟩
    simp only [Nat.cast_one, mul_one, Nat.cast_ofNat]
    rw [abs_le]
    constructor <;> omega

theorem microPoint_near (x y : F64) (dr : MouseDraws) (hv : dr.valid)
    (hx : x.targetExact) (hy : y.targetExact) (i : Nat) :
    (microPoint x y dr i).x.within x 3 2 ∧ (microPoint x y dr i).y.within y 3 2 := by
  obtain ⟨h3, h4⟩ := hv.2.2.2.2 i
  obtain ⟨X, eX, fX, _, _, _, _, fX1, fX2, fX3⟩ := F64.targetExact_elim x hx
  obtain ⟨Y, eY, fY, _, _, _, _, fY1, fY2, fY3⟩ := F64.targetExact_elim y hy
  obtain ⟨R3, e3, f3, a3, b3⟩ := F64.inUnit_elim _ h3
  obtain ⟨R4, e4, f4, a4, b4⟩ := F64.inUnit_elim _ h4
  have c3 := const_vals.2.2.2.1
  have c15 := const_vals.2.2.2.2.2.2.2.2.2.2.1
  have f3c : isFloat (3 * 2 ^ 1074) := isFloat_nat 3 (by norm_num)
  have hpow : (2 : Int) ^ 1074 = 2 * 2 ^ 1073 := by norm_num
  obtain ⟨k, hk, l, u, fk⟩ := jitter_bracket x (dr.microX i) 3 1.5 X R3 _ _ eX e3 c3 c15 a3 b3
    (by positivity) f3c fX fX3 fX1 (by
      have : X + 3 * 2 ^ 1074 - 3 * 2 ^ 1073 = X + 3 * 2 ^ 1073 := by rw [hpow]; ring
      rw [this]; exact fX2)
  obtain ⟨k2, hk2, l2, u2, fk2⟩ := jitter_bracket y (dr.microY i) 3 1.5 Y R4 _ _ eY e4 c3 c15
    a4 b4 (by positivity) f3c fY fY3 fY1 (by
      have : Y + 3 * 2 ^ 1074 - 3 * 2 ^ 1073 = Y + 3 * 2 ^ 1073 := by rw [hpow]; ring
      rw [this]; exact fY2)
  have hmx : (microPoint x y dr i).x.val = some k := hk
  have hmy : (microPoint x y dr i).y.val = some k2 := hk2
  constructor
  · refine ⟨k, X, hmx, eX, ?_⟩
    simp only [Nat.cast_ofNat]
    rw [hpow] at u ⊢
    have : |k - X| ≤ 3 * 2 ^ 1073 := by rw [abs_le]; constructor <;> omega
    omega
  · refine ⟨k2, Y, hmy, eY, ?_⟩
    simp only [Nat.cast_ofNat]
    rw [hpow] at u2 ⊢
    have : |k2 - Y| ≤ 3 * 2 ^ 1073 := by rw [abs_le]; constructor <;> omega
    omega

/-- A number that is a `float64` is left as it is by rounding. -/
theorem roundFrac_exact (k : Int) (d : Nat) (hd : 0 < d) (hk : isFloat k) :
    roundFrac (k * d) d = some k := by
  obtain ⟨j, e, l, u, _⟩ := roundFrac_bracket (k * d) d k k hd hk hk le_rfl le_rfl
  have : j = k := by omega
  rw [e, this]

theorem F64.mul_zero_left (a b : F64) (q : Int) (ha : a.val = some 0) (hb : b.val = some q) :
    (a * b).val = some 0 := by
  rw [F64.mul_val a b 0 q ha hb]
  have h := roundFrac_exact 0 (2 ^ 1074) (by positivity) isFloat_zero
  simp only [zero_mul] at h ⊢
  exact h

theorem F64.one_mul_val (a b : F64) (q : Int) (ha : a.val = some (2 ^ 1074))
    (hb : b.val = some q) (fq : isFloat q) : (a * b).val = some q := by
  rw [F64.mul_val a b _ q ha hb]
  have h := roundFrac_exact q (2 ^ 1074) (by positivity) fq
  have e : (2 : Int) ^ 1074 * q = q * ((2 ^ 1074 : Nat) : Int) := by push_cast; ring
  rw [e]
  exact h

theorem F64.zero_add_val (a b : F64) (q : Int) (ha : a.val = some 0) (hb : b.val = some q)
    (fq : isFloat q) : (a + b).val = some q := by
  rw [F64.add_val a b 0 q ha hb]
  have h := roundFrac_exact q 1 (by norm_num) fq
  simp only [Nat.cast_one, mul_one] at h
  rw [zero_add]
  exact h

theorem F64.sub_self_val (a : F64) (q : Int) (ha : a.val = some q) : (a - a).val = some 0 := by
  rw [F64.sub_val a a q q ha ha, sub_self]
  exact isFloat_zero

theorem F64.div_self_val (a : F64) (q : Int) (ha : a.val = some q) (hq : 0 < q) :
    (a / a).val = some (2 ^ 1074) := by
  rw [F64.div_val a a q q ha ha hq]
  have h := roundFrac_exact (2 ^ 1074) q.natAbs (by omega) (isFloat_two_pow 1074 (by norm_num))
  have e : q * (2 : Int) ^ 1074 = 2 ^ 1074 * (q.natAbs : Int) := by
    rw [Int.natAbs_of_nonneg (by omega)]; ring
  rw [e]
  exact h

/-- At `t = 1` the Bezier expression is the overshoot coordinate itself: the
first two terms are products by zero and the third a product by one. -/
theorem bezier_one (t s c o : F64) (S C O : Int) (ht : t.val = some (2 ^ 1074))
    (hs : s.val = some S) (hc : c.val = some C) (ho : o.val = some O) (fO : isFloat O) :
    bezier t s c o = o := by
  apply F64.eq_of_val
  have h1 := const_vals.2.1
  have h2 := const_vals.2.2.1
  have hu : (1 - t).val = some 0 := by
    have := F64.sub_self_val t _ ht
    rw [F64.sub_val 1 t _ _ h1 ht, sub_self]
    exact isFloat_zero
  have huu : ((1 - t) * (1 - t)).val = some 0 := F64.mul_zero_left _ _ 0 hu hu
  have ha : ((1 - t) * (1 - t) * s).val = some 0 := F64.mul_zero_left _ _ S huu hs
  have h2u : (2 * (1 - t)).val = some 0 := by
    rw [F64.mul_val 2 (1 - t) _ 0 h2 hu, mul_zero]
    have h := roundFrac_exact 0 (2 ^ 1074) (by positivity) isFloat_zero
    simp only [zero_mul] at h
    exact h
  have h2ut : (2 * (1 - t) * t).val = some 0 := F64.mul_zero_left _ _ _ h2u ht
  have hb : (2 * (1 - t) * t * c).val = some 0 := F64.mul_zero_left _ _ C h2ut hc
  have htt : (t * t).val = some (2 ^ 1074) :=
    F64.one_mul_val t t _ ht ht (isFloat_two_pow 1074 (by norm_num))
  have hd : (t * t * o).val = some O := F64.one_mul_val _ o O htt ho fO
  have hab : ((1 - t) * (1 - t) * s + 2 * (1 - t) * t * c).val = some 0 :=
    F64.zero_add_val _ _ 0 ha hb isFloat_zero
  unfold bezier
  rw [F64.zero_add_val _ _ O hab hd fO, ho]

/-- A draw of `[0, 1)` times a constant `c ≥ 0` lies between `0` and `c`. -/
theorem unit_mul_bracket (r c : F64) (R C : Int) (hr : r.val = some R) (hc : c.val = some C)
    (hR0 : 0 ≤ R) (hR1 : R < 2 ^ 1074) (hC0 : 0 ≤ C) (fC : isFloat C) :
    ∃ k, (r * c).val = some k ∧ 0 ≤ k ∧ k ≤ C ∧ isFloat k := by
  obtain ⟨k1, e1, l1, u1, f⟩ := roundFrac_bracket (R * C) (2 ^ 1074) 0 C (by positivity)
    isFloat_zero fC (by simpa using Int.mul_nonneg hR0 hC0)
    (by push_cast; rw [Int.mul_comm]; exact Int.mul_le_mul_of_nonneg_left (by omega) hC0)
  exact ⟨k1, by rw [F64.mul_val r c R C hr hc]; exact e1, l1, u1, f⟩

theorem isFloat_lits :
    isFloat (80 * 2 ^ 1074) ∧ isFloat (100 * 2 ^ 1074) ∧ isFloat (150 * 2 ^ 1074) ∧
    isFloat (200 * 2 ^ 1074) ∧ isFloat (230 * 2 ^ 1074) ∧ isFloat (300 * 2 ^ 1074) := by
  decide!

/-- The origin of the path has finite coordinates. -/
theorem pathStart_finite (dr : MouseDraws) (hv : dr.valid) :
    (∃ k, (pathStart dr).x.val = some k ∧ 100 * 2 ^ 1074 ≤ k ∧ k ≤ 300 * 2 ^ 1074 ∧ isFloat k) ∧
    (∃ k, (pathStart dr).y.val = some k ∧ 80 * 2 ^ 1074 ≤ k ∧ k ≤ 230 * 2 ^ 1074 ∧ isFloat k) := by
  obtain ⟨h1, h2, _⟩ := hv
  obtain ⟨R1, e1, _, a1, b1⟩ := F64.inUnit_elim _ h1
  obtain ⟨R2, e2, _, a2, b2⟩ := F64.inUnit_elim _ h2
  have c200 := const_vals.2.2.2.2.2.2.2.2.2.1
  have c150 := const_vals.2.2.2.2.2.2.2.2.1
  have c100 := const_vals.2.2.2.2.2.2.2.1
  have c80 := const_vals.2.2.2.2.2.2.1
  obtain ⟨f80, f100, f150, f200, f230, f300⟩ := isFloat_lits
  constructor
  · obtain ⟨k1, hm, l1, u1, _⟩ := unit_mul_bracket dr.startX 200 R1 _ e1 c200 a1 b1
      (by positivity) f200
    obtain ⟨k2, f2, l2, u2, fk⟩ := roundFrac_bracket (k1 + 100 * 2 ^ 1074) 1 (100 * 2 ^ 1074)
      (300 * 2 ^ 1074) (by norm_num) f100 f300
      (by simp only [Nat.cast_one, mul_one]; omega) (by simp only [Nat.cast_one, mul_one]; omega)
    exact ⟨k2, by
      show (dr.startX * 200 + 100).val = _
      rw [F64.add_val _ _ k1 _ hm c100]; exact f2, l2, u2, fk⟩
  · obtain ⟨k1, hm, l1, u1, _⟩ := unit_mul_bracket dr.startY 150 R2 _ e2 c150 a2 b2
      (by positivity) f150
    obtain ⟨k2, f2, l2, u2, fk⟩ := roundFrac_bracket (k1 + 80 * 2 ^ 1074) 1 (80 * 2 ^ 1074)
      (230 * 2 ^ 1074) (by norm_num) f80 f230
      (by simp only [Nat.cast_one, mul_one]; omega) (by simp only [Nat.cast_one, mul_one]; omega)
    exact ⟨k2, by
      show (dr.startY * 150 + 80).val = _
      rw [F64.add_val _ _ k1 _ hm c80]; exact f2, l2, u2, fk⟩

/-- Rounding keeps a number of magnitude at most `2^j` finite and within `2^j`. -/
theorem roundFrac_bounded (n : Int) (d : Nat) (j : Nat) (hd : 0 < d) (hj : j < 2098)
    (h : |n| ≤ 2 ^ j * d) : ∃ k, roundFrac n d = some k ∧ |k| ≤ 2 ^ j ∧ isFloat k := by
  have f := isFloat_two_pow j hj
  rw [abs_le] at h
  obtain ⟨k, e, l, u, fk⟩ := roundFrac_bracket n d (-(2 ^ j)) (2 ^ j) hd (isFloat_neg _ f) f
    (by rw [neg_mul]; exact h.1) h.2
  exact ⟨k, e, abs_le.2 ⟨l, u⟩, fk⟩

theorem F64.add_bounded (a b : F64) (p q : Int) (j : Nat) (hj : j < 2098)
    (ha : a.val = some p) (hb : b.val = some q) (h : |p + q| ≤ 2 ^ j) :
    ∃ k, (a + b).val = some k ∧ |k| ≤ 2 ^ j ∧ isFloat k := by
  rw [F64.add_val a b p q ha hb]
  exact roundFrac_bounded _ 1 j (by norm_num) hj (by simpa using h)

theorem F64.sub_bounded (a b : F64) (p q : Int) (j : Nat) (hj : j < 2098)
    (ha : a.val = some p) (hb : b.val = some q) (h : |p - q| ≤ 2 ^ j) :
    ∃ k, (a - b).val = some k ∧ |k| ≤ 2 ^ j ∧ isFloat k := by
  rw [F64.sub_val a b p q ha hb]
  exact roundFrac_bounded _ 1 j (by norm_num) hj (by simpa using h)

/-- A product by a factor of magnitude at most one. -/
theorem F64.mul_bounded (a b : F64) (p q : Int) (j : Nat) (hj : j < 2098)
    (ha : a.val = some p) (hb : b.val = some q) (hp : |p| ≤ 2 ^ j) (hq : |q| ≤ 2 ^ 1074) :
    ∃ k, (a * b).val = some k ∧ |k| ≤ 2 ^ j ∧ isFloat k := by
  rw [F64.mul_val a b p q ha hb]
  apply roundFrac_bounded _ _ j (by positivity) hj
  rw [abs_mul]
  push_cast
  exact mul_le_mul hp hq (abs_nonneg _) (by positivity)

/-- A quotient by a divisor that is at least one. -/
theorem F64.div_bounded (a b : F64) (p q : Int) (j : Nat) (hj : j < 2098)
    (ha : a.val = some p) (hb : b.val = some q) (hp : |p| ≤ 2 ^ j) (hq : 2 ^ 1074 ≤ q) :
    ∃ k, (a / b).val = some k ∧ |k| ≤ 2 ^ j ∧ isFloat k := by
  have hU : (0 : Int) < 2 ^ 1074 := by positivity
  rw [F64.div_val a b p q ha hb (by omega)]
  apply roundFrac_bounded _ _ j (by omega) hj
  rw [abs_mul, abs_of_pos hU, Int.natAbs_of_nonneg (by omega)]
  exact mul_le_mul hp hq (by positivity) (by positivity)

theorem dispatchMoves_done (ok : Nat → Bool) (pts : List Point) :
    ∀ k, (dispatchMoves ok k pts).2 = none → (dispatchMoves ok k pts).1 = pts := by
  induction pts with
  | nil => intro k _; rfl
  | cons p rest ih =>
    intro k h
    unfold dispatchMoves at h ⊢
    cases hk : ok k
    · simp [hk] at h
    · simp only [hk, if_true] at h ⊢
      rw [ih (k + 1) h]

theorem dispatchMoves_allOk (ok : Nat → Bool) (hok : ∀ k, ok k = true) (pts : List Point) :
    ∀ k, dispatchMoves ok k pts = (pts, none) := by
  induction pts with
  | nil => intro k; rfl
  | cons p rest ih => intro k; simp [dispatchMoves, hok k, ih (k + 1)]

theorem pathSteps_bounds (dr : MouseDraws) : 12 ≤ pathSteps dr ∧ pathSteps dr ≤ 21 := by
  unfold pathSteps
  omega

/-- The last iteration of the first loop has `t = 1`. -/
theorem last_fraction (dr : MouseDraws) :
    (F64.ofFrac (pathSteps dr) 1 / F64.ofFrac (pathSteps dr) 1).val = some (2 ^ 1074) := by
  have hb := pathSteps_bounds dr
  have h := F64.ofFrac_nat (pathSteps dr) (by
    calc pathSteps dr ≤ 21 := hb.2
      _ ≤ 2 ^ 53 := by norm_num)
  exact F64.div_self_val _ _ h (by
    have : (0 : Int) < 2 ^ 1074 := by positivity
    have h12 : (12 : Int) ≤ (pathSteps dr : Int) := by exact_mod_cast hb.1
    exact Int.mul_pos (by omega) this)

/-- When the overshoot point is finite (and not within a factor `2^97` of the
largest `float64`) the last curve point is the overshoot point. -/
theorem curvePoint_last (x y : F64) (dr : MouseDraws) (hv : dr.valid) (OX OY : Int)
    (eOX : (overshoot x y dr).x.val = some OX) (eOY : (overshoot x y dr).y.val = some OY)
    (bX : |OX| ≤ 2 ^ 2000) (bY : |OY| ≤ 2 ^ 2000) (fOX : isFloat OX) (fOY : isFloat OY) :
    curvePoint x y dr (pathSteps dr) = overshoot x y dr := by
  obtain ⟨⟨SX, eSX, lSX, uSX, fSX⟩, ⟨SY, eSY, lSY, uSY, fSY⟩⟩ := pathStart_finite dr hv
  have c2 := const_vals.2.2.1
  have c06 := const_vals.2.2.2.2.2.2.2.2.2.2.2
  have hU : (0 : Int) < 2 ^ 1074 := by positivity
  rw [abs_le] at bX bY
  -- the control point is finite
  obtain ⟨A, eA, bA, _⟩ := F64.add_bounded _ _ SX OX 2001 (by norm_num) eSX eOX (by
    rw [abs_le]; constructor <;> omega)
  obtain ⟨CX, eCX, _⟩ := F64.div_bounded _ 2 A _ 2001 (by norm_num) eA c2 bA (by omega)
  obtain ⟨D, eD, bD, _⟩ := F64.sub_bounded _ _ OY SY 2001 (by norm_num) eOY eSY (by
    rw [abs_le]; constructor <;> omega)
  obtain ⟨E, eE, bE, _⟩ := F64.mul_bounded _ 0.6 D _ 2001 (by norm_num) eD c06 bD (by
    rw [abs_le]; constructor <;> omega)
  rw [abs_le] at bE
  obtain ⟨CY, eCY, _⟩ := F64.add_bounded _ _ SY E 2002 (by norm_num) eSY eE (by
    rw [abs_le]; constructor <;> omega)
  unfold curvePoint
  simp only []
  rw [bezier_one _ _ _ _ SX CX OX (last_fraction dr) eSX eCX eOX fOX,
    bezier_one _ _ _ _ SY CY OY (last_fraction dr) eSY eCY eOY fOY]

theorem curvePoints_getLast (x y : F64) (dr : MouseDraws) (hv : dr.valid) (OX OY : Int)
    (eOX : (overshoot x y dr).x.val = some OX) (eOY : (overshoot x y dr).y.val = some OY)
    (bX : |OX| ≤ 2 ^ 2000) (bY : |OY| ≤ 2 ^ 2000) (fOX : isFloat OX) (fOY : isFloat OY) :
    (curvePoints x y dr).getLast? = some (overshoot x y dr) := by
  unfold curvePoints
  obtain ⟨m, hm⟩ : ∃ m, pathSteps dr = m + 1 := ⟨pathSteps dr - 1, by
    have := (pathSteps_bounds dr).1; omega⟩
  rw [hm, List.range_succ, List.map_append, List.map_singleton, List.getLast?_append,
    List.getLast?_singleton, ← hm, curvePoint_last x y dr hv OX OY eOX eOY bX bY fOX fOY]
  rfl

/-- For a target on exact marks the curve ends on the overshoot point. -/
theorem curvePoints_getLast_exact (x y : F64) (dr : MouseDraws) (hv : dr.valid)
    (hx : x.targetExact) (hy : y.targetExact) :
    (curvePoints x y dr).getLast? = some (overshoot x y dr) := by
  obtain ⟨wx, wy, ⟨OX, eOX, fOX⟩, ⟨OY, eOY, fOY⟩⟩ := overshoot_near x y dr hv hx hy
  obtain ⟨X, eX, _, bX, _⟩ := F64.targetExact_elim x hx
  obtain ⟨Y, eY, _, bY, _⟩ := F64.targetExact_elim y hy
  have nOX : |OX - X| ≤ 6 * 2 ^ 1074 := by
    obtain ⟨p, q, hp, hq, h⟩ := wx
    rw [eOX] at hp; rw [eX] at hq
    cases hp; cases hq
    simpa using h
  have nOY : |OY - Y| ≤ 6 * 2 ^ 1074 := by
    obtain ⟨p, q, hp, hq, h⟩ := wy
    rw [eOY] at hp; rw [eY] at hq
    cases hp; cases hq
    simpa using h
  rw [abs_le] at nOX nOY bX bY
  exact curvePoints_getLast x y dr hv OX OY eOX eOY
    (by rw [abs_le]; constructor <;> omega) (by rw [abs_le]; constructor <;> omega) fOX fOY

theorem zero_inUnit : F64.inUnit 0 := by decide!

theorem zeroDraws_valid : zeroDraws.valid :=
  ⟨zero_inUnit, zero_inUnit, zero_inUnit, zero_inUnit, fun _ => ⟨zero_inUnit, zero_inUnit⟩⟩

theorem isFloat_int_mul_pow (m : Int) (j : Nat) (hm : |m| ≤ 2 ^ 53) (hj : j ≤ 2000) :
    isFloat (m * 2 ^ j) := by
  rw [isFloat_iff]
  have e : (m * 2 ^ j).natAbs = m.natAbs * 2 ^ j := by
    rw [Int.natAbs_mul, Int.natAbs_pow]
    rfl
  have hm2 : m.natAbs ≤ 2 ^ 53 := by
    zify
    exact hm
  rw [e]
  refine ⟨?_, m.natAbs, j, hm2, rfl⟩
  calc m.natAbs * 2 ^ j ≤ 2 ^ 53 * 2 ^ j := Nat.mul_le_mul_right _ hm2
    _ = 2 ^ (53 + j) := by rw [← pow_add]
    _ < 2 ^ 2098 := Nat.pow_lt_pow_right (by norm_num) (by omega)

/-- Every whole or half pixel of magnitude at most `2^51` is a target on exact
marks. -/
theorem halfPixel_targetExact (n : Int) (hn : |n| ≤ 2 ^ 52) :
    (⟨some (n * 2 ^ 1073)⟩ : F64).targetExact := by
  have hU : (2 : Int) ^ 1074 = 2 * 2 ^ 1073 := by norm_num
  rw [abs_le] at hn
  have hb : ∀ c : Int, |c| ≤ 24 → isFloat ((n + c) * 2 ^ 1073) := by
    intro c hc
    rw [abs_le] at hc
    exact isFloat_int_mul_pow _ 1073 (by rw [abs_le]; constructor <;> omega) (by norm_num)
  refine ⟨n * 2 ^ 1073, rfl, ?_, ?_, ?_, ?_, ?_, ?_, ?_, ?_⟩
  · simpa using hb 0 (by norm_num)
  · rw [abs_mul, abs_of_pos (by positivity : (0 : Int) < 2 ^ 1073), hU]
    have : |n| ≤ 2 ^ 52 := abs_le.2 hn
    calc |n| * 2 ^ 1073 ≤ 2 ^ 52 * 2 ^ 1073 := by
          exact Int.mul_le_mul_of_nonneg_right this (by positivity)
      _ ≤ 2 ^ 52 * (2 * 2 ^ 1073) := by
          have : (0 : Int) < 2 ^ 1073 := by positivity
          nlinarith
  · have := hb (-12) (by norm_num)
    rw [hU]
    have e : n * 2 ^ 1073 - 6 * (2 * 2 ^ 1073) = (n + -12) * 2 ^ 1073 := by ring
    rw [e]; exact this
  · have := hb 12 (by norm_num)
    rw [hU]
    have e : n * 2 ^ 1073 + 6 * (2 * 2 ^ 1073) = (n + 12) * 2 ^ 1073 := by ring
    rw [e]; exact this
  · have := hb 24 (by norm_num)
    rw [hU]
    have e : n * 2 ^ 1073 + 12 * (2 * 2 ^ 1073) = (n + 24) * 2 ^ 1073 := by ring
    rw [e]; exact this
  · have := hb (-3) (by norm_num)
    have e : n * 2 ^ 1073 - 3 * 2 ^ 1073 = (n + -3) * 2 ^ 1073 := by ring
    rw [e]; exact this
  · have := hb 3 (by norm_num)
    have e : n * 2 ^ 1073 + 3 * 2 ^ 1073 = (n + 3) * 2 ^ 1073 := by ring
    rw [e]; exact this
  · have := hb 6 (by norm_num)
    rw [hU]
    have e : n * 2 ^ 1073 + 3 * (2 * 2 ^ 1073) = (n + 6) * 2 ^ 1073 := by ring
    rw [e]; exact this

/-- C17 (counterexample): rounding moves the overshoot point and the
micro-corrections off the marks of the claim. With the target `(0.1, 0)` and all
draws zero the call completes and its last curve point, the overshoot point, is
more than 6 px from the target on the x axis. With the target `(2^54, 0)` and
the overshoot draw `1 - 2^-53` the overshoot point is `2^54 + 8`, and with the
target `(2^52, 0)` and the micro-correction draws `1 - 2^-53` every
micro-correction is at `2^52 + 2`, farther than 1.5 px. -/
theorem overshoot_rounded_off_target :
    (zeroDraws.valid ∧ (MoveHumanlike 0.1 0 zeroDraws).2 = none ∧
      (curvePoints 0.1 0 zeroDraws).getLast? = some (overshoot 0.1 0 zeroDraws) ∧
      ¬ (overshoot 0.1 0 zeroDraws).x.within 0.1 6 1) ∧
    (lateDraws.valid ∧ (MoveHumanlike (F64.ofFrac (2 ^ 54) 1) 0 lateDraws).2 = none ∧
      (curvePoints (F64.ofFrac (2 ^ 54) 1) 0 lateDraws).getLast?
        = some (overshoot (F64.ofFrac (2 ^ 54) 1) 0 lateDraws) ∧
      (overshoot (F64.ofFrac (2 ^ 54) 1) 0 lateDraws).x = F64.ofFrac (2 ^ 54 + 8) 1 ∧
      ¬ (overshoot (F64.ofFrac (2 ^ 54) 1) 0 lateDraws).x.within (F64.ofFrac (2 ^ 54) 1) 6 1) ∧
    ((MoveHumanlike (F64.ofFrac (2 ^ 52) 1) 0 lateDraws).2 = none ∧
      ∀ m ∈ microPoints (F64.ofFrac (2 ^ 52) 1) 0 lateDraws,
        m.x = F64.ofFrac (2 ^ 52 + 2) 1 ∧ ¬ m.x.within (F64.ofFrac (2 ^ 52) 1) 3 2) := by
  have hl : F64.inUnit (F64.ofFrac (2 ^ 53 - 1) (2 ^ 53)) := by decide!
  refine ⟨⟨zeroDraws_valid, by decide!, by decide!, by decide!⟩,
    ⟨⟨zero_inUnit, zero_inUnit, hl, zero_inUnit, fun _ => ⟨hl, zero_inUnit⟩⟩,
      by decide!, by decide!, by decide!, by decide!⟩, by decide!, by decide!⟩

/-- C17 (amended): for every target `(x, y)` whose coordinates are on exact
marks (every whole or half pixel of magnitude at most `2^51` is) and every
outcome of the random draws, the pointer-moved events of a `MoveHumanlike` call
that completes are the 12 to 21 curve points, the last of which is the overshoot
point within 6 px of the target on each axis, then exactly three
micro-correction points, each within 1.5 px of the target on each axis, then a
final event at exactly `(x, y)`. -/
theorem MoveHumanlike_ends_on_target (x y : F64) (dr : MouseDraws) (hv : dr.valid)
    (hx : x.targetExact) (hy : y.targetExact)
    (hdone : (MoveHumanlike x y dr).2 = none) :
    (MoveHumanlike x y dr).1 = curvePoints x y dr ++ microPoints x y dr ++ [⟨x, y⟩] ∧
    12 ≤ (curvePoints x y dr).length ∧ (curvePoints x y dr).length ≤ 21 ∧
    (curvePoints x y dr).getLast? = some (overshoot x y dr) ∧
    (overshoot x y dr).x.within x 6 1 ∧ (overshoot x y dr).y.within y 6 1 ∧
    (microPoints x y dr).length = 3 ∧
    (∀ m ∈ microPoints x y dr, m.x.within x 3 2 ∧ m.y.within y 3 2) ∧
    (MoveHumanlike x y dr).1.getLast? = some ⟨x, y⟩ := by
  have hev : (MoveHumanlike x y dr).1 = curvePoints x y dr ++ microPoints x y dr ++ [⟨x, y⟩] :=
    dispatchMoves_done _ _ 0 hdone
  have hlen : (curvePoints x y dr).length = pathSteps dr := by simp [curvePoints]
  refine ⟨hev, ?_, ?_, curvePoints_getLast_exact x y dr hv hx hy,
    (overshoot_near x y dr hv hx hy).1, (overshoot_near x y dr hv hx hy).2.1,
    by simp [microPoints], ?_, ?_⟩
  · rw [hlen]; exact (pathSteps_bounds dr).1
  · rw [hlen]; exact (pathSteps_bounds dr).2
  · intro m hm
    obtain ⟨i, _, rfl⟩ := List.mem_map.1 hm
    exact microPoint_near x y dr hv hx hy i
  · rw [hev]; simp

theorem MoveHumanlike_ends_on_target_witness :
    (1000 : F64).targetExact ∧ (500 : F64).targetExact ∧
    (MoveHumanlike 1000 500 zeroDraws).2 = none ∧
    (MoveHumanlike 1000 500 zeroDraws).1.getLast? = some ⟨1000, 500⟩ ∧
    (curvePoints 1000 500 zeroDraws).getLast? = some (overshoot 1000 500 zeroDraws) ∧
    (overshoot 1000 500 zeroDraws).x.within 1000 6 1 :=
  ⟨by decide!, by decide!, by decide!,
    (MoveHumanlike_ends_on_target 1000 500 zeroDraws zeroDraws_valid (by decide!) (by decide!)
      (by decide!)).2.2.2.2.2.2.2.2,
    (MoveHumanlike_ends_on_target 1000 500 zeroDraws zeroDraws_valid (by decide!) (by decide!)
      (by decide!)).2.2.2.1,
    (MoveHumanlike_ends_on_target 1000 500 zeroDraws zeroDraws_valid (by decide!) (by decide!)
      (by decide!)).2.2.2.2.1⟩

theorem F64.near_mono (a : F64) (q e e2 : ℚ) (h : a.near q e) (he : e ≤ e2) : a.near q e2 := by
  obtain ⟨k, hk, hb⟩ := h
  exact ⟨k, hk, le_trans hb he⟩

theorem F64.near_shift (a : F64) (q q2 e e2 : ℚ) (h : a.near q e) (hq : |q - q2| ≤ e2) :
    a.near q2 (e + e2) := by
  obtain ⟨k, hk, hb⟩ := h
  refine ⟨k, hk, ?_⟩
  have : (k : ℚ) / 2 ^ 1074 - q2 = ((k : ℚ) / 2 ^ 1074 - q) + (q - q2) := by ring
  rw [this]
  exact le_trans (abs_add _ _) (add_le_add hb hq)

/-- Rounding a number of magnitude at most `B`, with `1 ≤ B ≤ 2^1023`, gives a
finite value within `B * 2^-53`. -/
theorem roundFrac_near (n : Int) (d : Nat) (B : ℚ) (hd : 0 < d) (hB1 : 1 ≤ B)
    (hB2 : B ≤ 2 ^ 1023) (h : |(n : ℚ) / d| ≤ B * 2 ^ 1074) :
    ∃ k, roundFrac n d = some k ∧ |(k : ℚ) - (n : ℚ) / d| ≤ B * 2 ^ 1074 / 2 ^ 53 := by
  have hdq : (0 : ℚ) < d := by exact_mod_cast hd
  have hU : (0 : ℚ) < 2 ^ 1074 := by positivity
  have hn : |n| ≤ 2 ^ 2097 * (d : Int) := by
    have h1 : |(n : ℚ)| ≤ 2 ^ 2097 * d := by
      rw [abs_div, abs_of_pos hdq, div_le_iff₀ hdq] at h
      have e : (2 : ℚ) ^ 2097 = 2 ^ 1023 * 2 ^ 1074 := by rw [← pow_add]
      rw [e]
      calc |(n : ℚ)| ≤ B * 2 ^ 1074 * d := h
        _ ≤ 2 ^ 1023 * 2 ^ 1074 * d := by
          apply mul_le_mul_of_nonneg_right _ hdq.le
          exact mul_le_mul_of_nonneg_right hB2 hU.le
    have h2 : ((|n| : Int) : ℚ) ≤ ((2 ^ 2097 * (d : Int) : Int) : ℚ) := by
      push_cast
      exact h1
    exact_mod_cast h2
  obtain ⟨k, hk, _, _⟩ := roundFrac_bounded n d 2097 hd (by norm_num) hn
  refine ⟨k, hk, ?_⟩
  rcases roundFrac_error n d k hd hk with h1 | h1
  · refine le_trans h1 ?_
    have e : (2 : ℚ) ^ 1074 = 2 ^ 1021 * 2 ^ 53 := by rw [← pow_add]
    have e2 : B * 2 ^ 1074 / 2 ^ 53 = B * 2 ^ 1021 := by
      rw [e, ← mul_assoc, mul_div_assoc, div_self (ne_of_gt (by positivity)), mul_one]
    rw [e2]
    have h1021 : (1 : ℚ) ≤ 2 ^ 1021 := one_le_pow₀ (by norm_num)
    nlinarith
  · refine le_trans h1 ?_
    exact div_le_div_of_nonneg_right h (by positivity)

theorem abs_le_of_near (v q e : ℚ) (h : |v - q| ≤ e) : |v| ≤ |q| + e := by
  have : v = (v - q) + q := by ring
  calc |v| = |(v - q) + q| := by rw [← this]
    _ ≤ |v - q| + |q| := abs_add _ _
    _ ≤ |q| + e := by linarith

theorem add_core (U p q k qa qb ea eb B : ℚ) (hU : 0 < U) (bp : |p / U - qa| ≤ ea)
    (bq : |q / U - qb| ≤ eb) (hB : |qa| + |qb| + ea + eb ≤ B) :
    |(p + q) / 1| ≤ B * U ∧
    (|k - (p + q) / 1| ≤ B * U / 2 ^ 53 → |k / U - (qa + qb)| ≤ ea + eb + B / 2 ^ 53) := by
  have h1 := abs_le_of_near _ _ _ bp
  have h2 := abs_le_of_near _ _ _ bq
  have hs : |p / U + q / U| ≤ B := le_trans (abs_add _ _) (by linarith)
  constructor
  · have e : (p + q) / 1 = (p / U + q / U) * U := by field_simp
    rw [e, abs_mul, abs_of_pos hU]
    exact mul_le_mul_of_nonneg_right hs hU.le
  · intro hk
    have e : k / U - (qa + qb) = (k - (p + q) / 1) / U + (p / U - qa) + (q / U - qb) := by
      field_simp; ring
    have h3 : |(k - (p + q) / 1) / U| ≤ B / 2 ^ 53 := by
      rw [abs_div, abs_of_pos hU, div_le_iff₀ hU]
      calc |k - (p + q) / 1| ≤ B * U / 2 ^ 53 := hk
        _ = B / 2 ^ 53 * U := by ring
    rw [e]
    calc |(k - (p + q) / 1) / U + (p / U - qa) + (q / U - qb)|
        ≤ |(k - (p + q) / 1) / U + (p / U - qa)| + |q / U - qb| := abs_add _ _
      _ ≤ |(k - (p + q) / 1) / U| + |p / U - qa| + |q / U - qb| := by
          linarith [abs_add ((k - (p + q) / 1) / U) (p / U - qa)]
      _ ≤ ea + eb + B / 2 ^ 53 := by linarith

theorem F64.add_near (a b : F64) (qa qb ea eb B : ℚ) (ha : a.near qa ea) (hb : b.near qb eb)
    (hB : |qa| + |qb| + ea + eb ≤ B) (hB1 : 1 ≤ B) (hB2 : B ≤ 2 ^ 1023) :
    (a + b).near (qa + qb) (ea + eb + B / 2 ^ 53) := by
  obtain ⟨p, hp, bp⟩ := ha
  obtain ⟨q, hq, bq⟩ := hb
  obtain ⟨c1, c2⟩ := add_core (2 ^ 1074) p q 0 qa qb ea eb B (by positivity) bp bq hB
  obtain ⟨k, hk, ek⟩ := roundFrac_near (p + q) 1 B (by norm_num) hB1 hB2 (by
    push_cast; exact c1)
  refine ⟨k, by rw [F64.add_val a b p q hp hq]; exact hk, ?_⟩
  refine (add_core (2 ^ 1074) p q k qa qb ea eb B (by positivity) bp bq hB).2 ?_
  push_cast at ek
  exact ek

theorem F64.sub_near (a b : F64) (qa qb ea eb B : ℚ) (ha : a.near qa ea) (hb : b.near qb eb)
    (hB : |qa| + |qb| + ea + eb ≤ B) (hB1 : 1 ≤ B) (hB2 : B ≤ 2 ^ 1023) :
    (a - b).near (qa - qb) (ea + eb + B / 2 ^ 53) := by
  obtain ⟨p, hp, bp⟩ := ha
  obtain ⟨q, hq, bq⟩ := hb
  have bq2 : |((-q : Int) : ℚ) / 2 ^ 1074 - -qb| ≤ eb := by
    have : ((-q : Int) : ℚ) / 2 ^ 1074 - -qb = -((q : ℚ) / 2 ^ 1074 - qb) := by
      push_cast; ring
    rw [this, abs_neg]; exact bq
  have hB' : |qa| + |-qb| + ea + eb ≤ B := by rw [abs_neg]; exact hB
  obtain ⟨c1, c2⟩ := add_core (2 ^ 1074) p (-q : Int) 0 qa (-qb) ea eb B (by positivity) bp bq2 hB'
  obtain ⟨k, hk, ek⟩ := roundFrac_near (p - q) 1 B (by norm_num) hB1 hB2 (by
    push_cast at c1 ⊢; rw [sub_eq_add_neg]; exact c1)
  refine ⟨k, by rw [F64.sub_val a b p q hp hq]; exact hk, ?_⟩
  rw [sub_eq_add_neg qa qb]
  refine (add_core (2 ^ 1074) p (-q : Int) k qa (-qb) ea eb B (by positivity) bp bq2 hB').2 ?_
  push_cast at ek ⊢
  rw [← sub_eq_add_neg]
  exact ek

theorem mul_core (U p q k qa qb ea eb Ma Mb B : ℚ) (hU : 0 < U) (bp : |p / U - qa| ≤ ea)
    (bq : |q / U - qb| ≤ eb) (hMa : |qa| ≤ Ma) (hMb : |qb| ≤ Mb)
    (hB : (Ma + ea) * (Mb + eb) ≤ B) :
    |p * q / U| ≤ B * U ∧
    (|k - p * q / U| ≤ B * U / 2 ^ 53 →
      |k / U - qa * qb| ≤ ea * (Mb + eb) + Ma * eb + B / 2 ^ 53) := by
  have h1 := abs_le_of_near _ _ _ bp
  have h2 := abs_le_of_near _ _ _ bq
  have hea : 0 ≤ ea := le_trans (abs_nonneg _) bp
  have heb : 0 ≤ eb := le_trans (abs_nonneg _) bq
  have hMa0 : 0 ≤ Ma := le_trans (abs_nonneg _) hMa
  have hs : |p / U * (q / U)| ≤ B := by
    rw [abs_mul]
    calc |p / U| * |q / U| ≤ (Ma + ea) * (Mb + eb) :=
          mul_le_mul (by linarith) (by linarith) (abs_nonneg _) (by linarith)
      _ ≤ B := hB
  constructor
  · have e : p * q / U = (p / U * (q / U)) * U := by field_simp; ring
    rw [e, abs_mul, abs_of_pos hU]
    exact mul_le_mul_of_nonneg_right hs hU.le
  · intro hk
    have e : k / U - qa * qb
        = (k - p * q / U) / U + ((p / U - qa) * (q / U) + qa * (q / U - qb)) := by
      field_simp; ring
    have h3 : |(k - p * q / U) / U| ≤ B / 2 ^ 53 := by
      rw [abs_div, abs_of_pos hU, div_le_iff₀ hU]
      calc |k - p * q / U| ≤ B * U / 2 ^ 53 := hk
        _ = B / 2 ^ 53 * U := by ring
    have h4 : |(p / U - qa) * (q / U)| ≤ ea * (Mb + eb) := by
      rw [abs_mul]
      exact mul_le_mul bp (by linarith) (abs_nonneg _) hea
    have h5 : |qa * (q / U - qb)| ≤ Ma * eb := by
      rw [abs_mul]
      exact mul_le_mul hMa bq (abs_nonneg _) hMa0
    rw [e]
    calc |(k - p * q / U) / U + ((p / U - qa) * (q / U) + qa * (q / U - qb))|
        ≤ |(k - p * q / U) / U| + |(p / U - qa) * (q / U) + qa * (q / U - qb)| := abs_add _ _
      _ ≤ |(k - p * q / U) / U| + (|(p / U - qa) * (q / U)| + |qa * (q / U - qb)|) := by
          linarith [abs_add ((p / U - qa) * (q / U)) (qa * (q / U - qb))]
      _ ≤ ea * (Mb + eb) + Ma * eb + B / 2 ^ 53 := by linarith

theorem F64.mul_near (a b : F64) (qa qb ea eb Ma Mb B : ℚ) (ha : a.near qa ea)
    (hb : b.near qb eb) (hMa : |qa| ≤ Ma) (hMb : |qb| ≤ Mb)
    (hB : (Ma + ea) * (Mb + eb) ≤ B) (hB1 : 1 ≤ B) (hB2 : B ≤ 2 ^ 1023) :
    (a * b).near (qa * qb) (ea * (Mb + eb) + Ma * eb + B / 2 ^ 53) := by
  obtain ⟨p, hp, bp⟩ := ha
  obtain ⟨q, hq, bq⟩ := hb
  obtain ⟨c1, c2⟩ := mul_core (2 ^ 1074) p q 0 qa qb ea eb Ma Mb B (by positivity) bp bq
    hMa hMb hB
  obtain ⟨k, hk, ek⟩ := roundFrac_near (p * q) (2 ^ 1074) B (by positivity) hB1 hB2 (by
    push_cast; exact c1)
  refine ⟨k, by rw [F64.mul_val a b p q hp hq]; exact hk, ?_⟩
  refine (mul_core (2 ^ 1074) p q k qa qb ea eb Ma Mb B (by positivity) bp bq hMa hMb hB).2 ?_
  push_cast at ek
  exact ek

theorem div_core (U p q k B : ℚ) (hU : 0 < U) (hq : 0 < q) (hB : |p / q| ≤ B) :
    |p * U / q| ≤ B * U ∧
    (|k - p * U / q| ≤ B * U / 2 ^ 53 → |k / U - p / q| ≤ B / 2 ^ 53) := by
  constructor
  · have e : p * U / q = p / q * U := by field_simp
    rw [e, abs_mul, abs_of_pos hU]
    exact mul_le_mul_of_nonneg_right hB hU.le
  · intro hk
    have e : k / U - p / q = (k - p * U / q) / U := by field_simp; ring
    rw [e, abs_div, abs_of_pos hU, div_le_iff₀ hU]
    calc |k - p * U / q| ≤ B * U / 2 ^ 53 := hk
      _ = B / 2 ^ 53 * U := by ring

/-- A quotient of two values by a positive divisor: one rounding of the exact
quotient. -/
theorem F64.div_near (a b : F64) (p q : Int) (B : ℚ) (ha : a.val = some p) (hb : b.val = some q)
    (hq : 0 < q) (hB : |(p : ℚ) / q| ≤ B) (hB1 : 1 ≤ B) (hB2 : B ≤ 2 ^ 1023) :
    (a / b).near ((p : ℚ) / q) (B / 2 ^ 53) := by
  have hqq : (0 : ℚ) < q := by exact_mod_cast hq
  have hcast : ((q.natAbs : Nat) : ℚ) = (q : ℚ) := by
    have h : ((q.natAbs : Nat) : Int) = q := Int.natAbs_of_nonneg (by omega)
    have h2 : (((q.natAbs : Nat) : Int) : ℚ) = (q : ℚ) := by rw [h]
    rw [← h2]
    exact (Int.cast_natCast q.natAbs).symm
  obtain ⟨c1, c2⟩ := div_core (2 ^ 1074) p q 0 B (by positivity) hqq hB
  obtain ⟨k, hk, ek⟩ := roundFrac_near (p * 2 ^ 1074) q.natAbs B (by omega) hB1 hB2 (by
    push_cast; rw [hcast]; exact c1)
  refine ⟨k, by rw [F64.div_val a b p q ha hb hq]; exact hk, ?_⟩
  refine (div_core (2 ^ 1074) p q k B (by positivity) hqq hB).2 ?_
  push_cast at ek
  rw [hcast] at ek
  exact ek

theorem F64.near_of_val (a : F64) (k : Int) (h : a.val = some k) :
    a.near ((k : ℚ) / 2 ^ 1074) 0 :=
  ⟨k, h, by simp⟩

theorem F64.near_of_val_mul (a : F64) (c : ℚ) (k : Int) (h : a.val = some k)
    (hk : (k : ℚ) = c * 2 ^ 1074) : a.near c 0 := by
  refine ⟨k, h, ?_⟩
  rw [hk, mul_div_assoc, div_self (ne_of_gt (by positivity)), mul_one, sub_self, abs_zero]

theorem const_near :
    (1 : F64).near 1 0 ∧ (2 : F64).near 2 0 ∧ (3 : F64).near 3 0 ∧ (6 : F64).near 6 0 ∧
    (12 : F64).near 12 0 ∧ (1.5 : F64).near (3 / 2) 0 ∧ (0.6 : F64).near (3 / 5) (1 / 2 ^ 53) := by
  obtain ⟨_, c1, c2, c3, c6, c12, _, _, _, _, c15, c06⟩ := const_vals
  have h1073 : (2 : ℚ) ^ 1074 = 2 * 2 ^ 1073 := by rw [pow_succ]; ring
  have h1021 : (2 : ℚ) ^ 1074 = 2 ^ 53 * 2 ^ 1021 := by rw [← pow_add]
  refine ⟨F64.near_of_val_mul _ 1 _ c1 (by push_cast; ring),
    F64.near_of_val_mul _ 2 _ c2 (by push_cast; ring),
    F64.near_of_val_mul _ 3 _ c3 (by push_cast; ring),
    F64.near_of_val_mul _ 6 _ c6 (by push_cast; ring),
    F64.near_of_val_mul _ 12 _ c12 (by push_cast; ring),
    F64.near_of_val_mul _ (3 / 2) _ c15 (by push_cast; rw [h1073]; ring), ?_⟩
  have h := F64.near_of_val_mul _ (5404319552844595 / 2 ^ 53) _ c06 (by
    push_cast; rw [h1021]; field_simp; ring)
  have := F64.near_shift _ _ (3 / 5) _ (1 / 2 ^ 53) h (by
    rw [abs_le]; constructor <;> norm_num)
  simpa using this

theorem abs_mul_le (a b A B : ℚ) (ha : |a| ≤ A) (hb : |b| ≤ B) : |a * b| ≤ A * B := by
  rw [abs_mul]
  exact mul_le_mul ha hb (abs_nonneg _) (le_trans (abs_nonneg _) ha)

/-- The Bezier expression of lines 28 and 29 in floating point: within
`150 * M * 2^-53` of the exact expression, `M` bounding the three points. -/
theorem bezier_near (t s c o : F64) (τ qs qc qo ec M : ℚ)
    (ht : t.near τ (1 / 2 ^ 53)) (hτ0 : 0 ≤ τ) (hτ1 : τ ≤ 1)
    (hs : s.near qs 0) (hc : c.near qc ec) (ho : o.near qo 0)
    (hqs : |qs| ≤ M) (hqc : |qc| ≤ M) (hqo : |qo| ≤ M)
    (hec : ec ≤ 16 * M / 2 ^ 53) (hM1 : 1 ≤ M) (hM2 : M ≤ 2 ^ 1010) :
    (bezier t s c o).near ((1 - τ) * (1 - τ) * qs + 2 * (1 - τ) * τ * qc + τ * τ * qo)
      (150 * M / 2 ^ 53) := by
  obtain ⟨n1, n2, _⟩ := const_near
  have hbig : (8 : ℚ) * M ≤ 2 ^ 1023 := by
    have e : (2 : ℚ) ^ 1023 = 2 ^ 1010 * 2 ^ 13 := by rw [← pow_add]
    rw [e]
    have : (0 : ℚ) < 2 ^ 1010 := by positivity
    nlinarith
  have hfour : (4 : ℚ) ≤ 2 ^ 1023 := by linarith
  have hec0 : 0 ≤ ec := by
    obtain ⟨k, _, hk⟩ := hc
    exact le_trans (abs_nonneg _) hk
  have a1 : |1 - τ| ≤ 1 := by rw [abs_le]; constructor <;> linarith
  have aτ : |τ| ≤ 1 := by rw [abs_le]; constructor <;> linarith
  have a2 : |(2 : ℚ)| ≤ 2 := by norm_num
  -- the weights
  have hw : (1 - t).near (1 - τ) (5 / 2 ^ 53) :=
    F64.near_mono _ _ _ _ (F64.sub_near 1 t 1 τ 0 (1 / 2 ^ 53) 4 n1 ht
      (by rw [abs_one, abs_of_nonneg hτ0]; norm_num; linarith) (by norm_num) hfour)
      (by norm_num)
  have hww : ((1 - t) * (1 - t)).near ((1 - τ) * (1 - τ)) (15 / 2 ^ 53) :=
    F64.near_mono _ _ _ _ (F64.mul_near _ _ _ _ _ _ 1 1 4 hw hw a1 a1 (by norm_num)
      (by norm_num) hfour) (by norm_num)
  have h2w : (2 * (1 - t)).near (2 * (1 - τ)) (14 / 2 ^ 53) :=
    F64.near_mono _ _ _ _ (F64.mul_near _ _ _ _ _ _ 2 1 4 n2 hw a2 a1 (by norm_num)
      (by norm_num) hfour) (by norm_num)
  have a2w : |2 * (1 - τ)| ≤ 2 := by
    have := abs_mul_le _ _ _ _ a2 a1
    linarith
  have h2wt : (2 * (1 - t) * t).near (2 * (1 - τ) * τ) (21 / 2 ^ 53) :=
    F64.near_mono _ _ _ _ (F64.mul_near _ _ _ _ _ _ 2 1 4 h2w ht a2w aτ (by norm_num)
      (by norm_num) hfour) (by norm_num)
  have htt : (t * t).near (τ * τ) (7 / 2 ^ 53) :=
    F64.near_mono _ _ _ _ (F64.mul_near _ _ _ _ _ _ 1 1 4 ht ht aτ aτ (by norm_num)
      (by norm_num) hfour) (by norm_num)
  have aww : |(1 - τ) * (1 - τ)| ≤ 1 := by
    have := abs_mul_le _ _ _ _ a1 a1
    linarith
  have a2wt : |2 * (1 - τ) * τ| ≤ 2 := by
    have := abs_mul_le _ _ _ _ a2w aτ
    linarith
  have att : |τ * τ| ≤ 1 := by
    have := abs_mul_le _ _ _ _ aτ aτ
    linarith
  -- the three terms
  have hA : ((1 - t) * (1 - t) * s).near ((1 - τ) * (1 - τ) * qs) (20 * M / 2 ^ 53) :=
    F64.near_mono _ _ _ _ (F64.mul_near _ _ _ _ _ _ 1 M (4 * M) hww hs aww hqs
      (by norm_num; linarith) (by linarith) (by linarith)) (by norm_num; linarith)
  have hB : (2 * (1 - t) * t * c).near (2 * (1 - τ) * τ * qc) (60 * M / 2 ^ 53) :=
    F64.near_mono _ _ _ _ (F64.mul_near _ _ _ _ _ _ 2 M (4 * M) h2wt hc a2wt hqc
      (by nlinarith) (by linarith) (by linarith)) (by nlinarith)
  have hC : (t * t * o).near (τ * τ * qo) (12 * M / 2 ^ 53) :=
    F64.near_mono _ _ _ _ (F64.mul_near _ _ _ _ _ _ 1 M (4 * M) htt ho att hqo
      (by norm_num; linarith) (by linarith) (by linarith)) (by norm_num; linarith)
  have bA : |(1 - τ) * (1 - τ) * qs| ≤ M := by
    have := abs_mul_le _ _ _ _ aww hqs
    linarith
  have bB : |2 * (1 - τ) * τ * qc| ≤ 2 * M := abs_mul_le _ _ _ _ a2wt hqc
  have bC : |τ * τ * qo| ≤ M := by
    have := abs_mul_le _ _ _ _ att hqo
    linarith
  have hAB := F64.near_mono _ _ _ (90 * M / 2 ^ 53) (F64.add_near _ _ _ _ _ _ (4 * M) hA hB
    (by norm_num; linarith) (by linarith) (by linarith)) (by norm_num; linarith)
  have bAB : |(1 - τ) * (1 - τ) * qs + 2 * (1 - τ) * τ * qc| ≤ 3 * M :=
    le_trans (abs_add _ _) (by linarith)
  have hABC := F64.near_mono _ _ _ (150 * M / 2 ^ 53) (F64.add_near _ _ _ _ _ _ (8 * M) hAB hC
    (by norm_num; linarith) (by linarith) hbig) (by norm_num; linarith)
  exact hABC

theorem le_div_of_int (k c : Int) (h : c * 2 ^ 1074 ≤ k) : (c : ℚ) ≤ (k : ℚ) / 2 ^ 1074 := by
  have h2 : ((c * 2 ^ 1074 : Int) : ℚ) ≤ (k : ℚ) := Int.cast_le.2 h
  rw [Int.cast_mul, Int.cast_pow, Int.cast_ofNat] at h2
  rw [le_div_iff₀ (by positivity)]
  exact h2

theorem div_le_of_int (k c : Int) (h : k ≤ c * 2 ^ 1074) : (k : ℚ) / 2 ^ 1074 ≤ (c : ℚ) := by
  have h2 : (k : ℚ) ≤ ((c * 2 ^ 1074 : Int) : ℚ) := Int.cast_le.2 h
  rw [Int.cast_mul, Int.cast_pow, Int.cast_ofNat] at h2
  rw [div_le_iff₀ (by positivity)]
  exact h2

/-- The fraction `t = float64(i) / float64(steps)`. -/
theorem frac_near (i n : Nat) (hn : 0 < n) (hi : i ≤ n) (hn2 : n ≤ 2 ^ 53) :
    (F64.ofFrac i 1 / F64.ofFrac n 1).near ((i : ℚ) / n) (1 / 2 ^ 53) := by
  have hU : (0 : Int) < 2 ^ 1074 := by positivity
  have hUq : (0 : ℚ) < 2 ^ 1074 := by positivity
  have hnq : (0 : ℚ) < n := by exact_mod_cast hn
  have e : (((i : Int) * 2 ^ 1074 : Int) : ℚ) / (((n : Int) * 2 ^ 1074 : Int) : ℚ)
      = (i : ℚ) / n := by
    push_cast
    rw [mul_div_mul_right _ _ (ne_of_gt hUq)]
  have h := F64.div_near _ _ _ _ 1 (F64.ofFrac_nat i (le_trans hi hn2)) (F64.ofFrac_nat n hn2)
    (Int.mul_pos (Int.natCast_pos.2 hn) hU) (by
      rw [e, abs_of_nonneg (div_nonneg (Nat.cast_nonneg i) hnq.le), div_le_one hnq]
      exact_mod_cast hi) le_rfl (one_le_pow₀ (by norm_num))
  rw [e] at h
  exact h

/-- A draw of `[0, 1)` times a constant `C ≥ 0`, in pixels. -/
theorem unit_mul_near (r c : F64) (K : Int) (C : ℚ) (hr : r.inUnit) (hc : c.val = some K)
    (fK : isFloat K) (hK : (K : ℚ) = C * 2 ^ 1074) (hC : 0 ≤ C) :
    (r * c).near (C / 2) (C / 2) := by
  obtain ⟨R, eR, _, r0, r1⟩ := hr
  have hUq : (0 : ℚ) < 2 ^ 1074 := by positivity
  have hK0 : 0 ≤ K := by
    have : (0 : ℚ) ≤ (K : ℚ) := by rw [hK]; exact mul_nonneg hC hUq.le
    exact Int.cast_nonneg.1 this
  obtain ⟨k, ek, l, u, _⟩ := unit_mul_bracket r c R K eR hc r0 r1 hK0 fK
  refine ⟨k, ek, ?_⟩
  have l2 : (0 : ℚ) ≤ (k : ℚ) := Int.cast_nonneg.2 l
  have u2 : (k : ℚ) ≤ (K : ℚ) := Int.cast_le.2 u
  rw [hK] at u2
  have h1 : (k : ℚ) / 2 ^ 1074 ≤ C := by rw [div_le_iff₀ hUq]; exact u2
  have h2 : 0 ≤ (k : ℚ) / 2 ^ 1074 := div_nonneg l2 hUq.le
  rw [abs_le]
  constructor <;> linarith

/-- The pattern `x + r * c - d` of lines 19, 20, 38 and 39 for any finite
target coordinate: within `C / 2` of `x + C / 2 - D`, up to rounding. -/
theorem jitter_near (x r c d : F64) (K : Int) (qx C D M : ℚ) (hx : x.near qx 0)
    (hr : r.inUnit) (hc : c.val = some K) (fK : isFloat K) (hK : (K : ℚ) = C * 2 ^ 1074)
    (hd : d.near D 0) (hC : 0 ≤ C) (hD : 0 ≤ D) (hM : |qx| + C + D + 1 ≤ M)
    (hM2 : M ≤ 2 ^ 1010) :
    (x + r * c - d).near (qx + C / 2 - D) (C / 2 + 3 * M / 2 ^ 53) := by
  have hbig : (2 : ℚ) * M ≤ 2 ^ 1023 := by
    have e : (2 : ℚ) ^ 1023 = 2 ^ 1010 * 2 ^ 13 := by rw [← pow_add]
    rw [e]
    have : (0 : ℚ) < 2 ^ 1010 := by positivity
    nlinarith
  have hqx := abs_nonneg qx
  have h1 := unit_mul_near r c K C hr hc fK hK hC
  have h2 := F64.add_near x (r * c) qx (C / 2) 0 (C / 2) M hx h1
    (by rw [abs_of_nonneg (by linarith : 0 ≤ C / 2)]; linarith) (by linarith) (by linarith)
  have h3 := F64.sub_near _ d _ D _ 0 (2 * M) h2 hd (by
    have : |qx + C / 2| ≤ |qx| + |C / 2| := abs_add _ _
    rw [abs_of_nonneg (by linarith : 0 ≤ C / 2)] at this
    rw [abs_of_nonneg hD]
    have hp : (0 : ℚ) ≤ M / 2 ^ 53 := div_nonneg (by linarith) (by norm_num)
    have hq : M / 2 ^ 53 ≤ M := div_le_self (by linarith) (one_le_pow₀ (by norm_num))
    linarith) (by linarith) hbig
  refine F64.near_mono _ _ _ _ h3 ?_
  have : (0 : ℚ) ≤ M / 2 ^ 53 := div_nonneg (by linarith) (by norm_num)
  linarith

theorem isFloat_jitter : isFloat (12 * 2 ^ 1074) ∧ isFloat (3 * 2 ^ 1074) := by decide!

/-- Halving: `(a) / 2`. -/
theorem half_near (a : F64) (q e B : ℚ) (ha : a.near q e) (hB : |q| + e ≤ 2 * B)
    (hB1 : 1 ≤ B) (hB2 : B ≤ 2 ^ 1023) :
    (a / 2).near (q / 2) (e / 2 + B / 2 ^ 53) := by
  obtain ⟨p, hp, bp⟩ := ha
  have hU : (0 : Int) < 2 ^ 1074 := by positivity
  have hUq : (0 : ℚ) < 2 ^ 1074 := by positivity
  have c2 := const_vals.2.2.1
  have e1 : (p : ℚ) / ((2 * 2 ^ 1074 : Int) : ℚ) = (p : ℚ) / 2 ^ 1074 / 2 := by
    push_cast
    rw [div_div, mul_comm]
  have habs := abs_le_of_near _ _ _ bp
  have h := F64.div_near a 2 p (2 * 2 ^ 1074) B hp c2 (by omega) (by
    rw [e1, abs_div, abs_of_pos (by norm_num : (0 : ℚ) < 2)]
    rw [div_le_iff₀ (by norm_num)]
    linarith) hB1 hB2
  rw [e1] at h
  have := F64.near_shift _ _ (q / 2) _ (e / 2) h (by
    have e2 : (p : ℚ) / 2 ^ 1074 / 2 - q / 2 = ((p : ℚ) / 2 ^ 1074 - q) / 2 := by ring
    rw [e2, abs_div, abs_of_pos (by norm_num : (0 : ℚ) < 2)]
    linarith)
  exact F64.near_mono _ _ _ _ this (by linarith)

theorem inRange_near (x : F64) (h : x.inRange) :
    ∃ X : Int, x.val = some X ∧ x.near ((X : ℚ) / 2 ^ 1074) 0 ∧
      |(X : ℚ) / 2 ^ 1074| ≤ 2 ^ 1000 := by
  obtain ⟨X, hX, hb⟩ := h
  refine ⟨X, hX, F64.near_of_val x X hX, ?_⟩
  have h2 : ((|X| : Int) : ℚ) ≤ ((2 ^ 1000 * 2 ^ 1074 : Int) : ℚ) := Int.cast_le.2 hb
  rw [Int.cast_abs, Int.cast_mul, Int.cast_pow, Int.cast_pow, Int.cast_ofNat] at h2
  rw [abs_div, abs_of_pos (by positivity : (0 : ℚ) < 2 ^ 1074), div_le_iff₀ (by positivity)]
  exact h2

theorem range_facts (q off : ℚ) (h : |q| ≤ 2 ^ 1000) (ho : 0 ≤ off) (ho2 : off ≤ 306) :
    1 ≤ |q| + off + 1 ∧ 2 * (|q| + off) ≤ 2 ^ 1010 ∧ 8 * (|q| + off) ≤ 2 ^ 1023 := by
  have e1 : (2 : ℚ) ^ 1010 = 2 ^ 1000 * 2 ^ 10 := by rw [← pow_add]
  have e2 : (2 : ℚ) ^ 1023 = 2 ^ 1000 * 2 ^ 23 := by rw [← pow_add]
  have h3 : (2 : ℚ) ^ 10 ≤ 2 ^ 1000 := pow_le_pow_right₀ (by norm_num) (by norm_num)
  have h4 := abs_nonneg q
  rw [e1, e2]
  refine ⟨by linarith, ?_, ?_⟩
  · norm_num at h3 ⊢
    nlinarith
  · norm_num at h3 ⊢
    nlinarith

theorem pathStart_near (dr : MouseDraws) (hv : dr.valid) :
    (∃ qs : ℚ, (pathStart dr).x.near qs 0 ∧ 100 ≤ qs ∧ qs ≤ 300) ∧
    (∃ qs : ℚ, (pathStart dr).y.near qs 0 ∧ 80 ≤ qs ∧ qs ≤ 230) := by
  obtain ⟨⟨SX, eSX, lSX, uSX, _⟩, ⟨SY, eSY, lSY, uSY, _⟩⟩ := pathStart_finite dr hv
  refine ⟨⟨_, F64.near_of_val _ SX eSX, ?_, ?_⟩, ⟨_, F64.near_of_val _ SY eSY, ?_, ?_⟩⟩
  · have := le_div_of_int SX 100 lSX
    simpa using this
  · have := div_le_of_int SX 300 uSX
    simpa using this
  · have := le_div_of_int SY 80 lSY
    simpa using this
  · have := div_le_of_int SY 230 uSY
    simpa using this

/-- The overshoot coordinate of a target coordinate `x` in range: finite and
within `6 + 3 * M * 2^-53` of `x`, for any `M ≥ |x| + 19`. -/
theorem overshoot_coord_near (x r : F64) (qx M : ℚ) (hx : x.near qx 0) (hr : r.inUnit)
    (hM : |qx| + 19 ≤ M) (hM2 : M ≤ 2 ^ 1010) :
    ∃ qo : ℚ, (x + r * 12 - 6).near qo 0 ∧ |qo - qx| ≤ 6 + 3 * M / 2 ^ 53 := by
  have h := jitter_near x r 12 6 (12 * 2 ^ 1074) qx 12 6 M hx hr const_vals.2.2.2.2.2.1
    isFloat_jitter.1 (by push_cast; ring) const_near.2.2.2.1 (by norm_num) (by norm_num)
    (by linarith) hM2
  obtain ⟨k, hk, bk⟩ := h
  refine ⟨(k : ℚ) / 2 ^ 1074, F64.near_of_val _ k hk, ?_⟩
  have e : qx + 12 / 2 - 6 = qx := by ring
  rw [e] at bk
  norm_num at bk ⊢
  exact bk

/-- A micro-correction coordinate: within `1.5 + 3 * M * 2^-53` of `x`. -/
theorem micro_coord_near (x r : F64) (qx M : ℚ) (hx : x.near qx 0) (hr : r.inUnit)
    (hM : |qx| + 19 ≤ M) (hM2 : M ≤ 2 ^ 1010) :
    (x + r * 3 - 1.5).near qx (3 / 2 + 3 * M / 2 ^ 53) := by
  have h := jitter_near x r 3 1.5 (3 * 2 ^ 1074) qx 3 (3 / 2) M hx hr const_vals.2.2.2.1
    isFloat_jitter.2 (by push_cast; ring) const_near.2.2.2.2.2.1 (by norm_num) (by norm_num)
    (by linarith) hM2
  have e : qx + 3 / 2 - 3 / 2 = qx := by ring
  rw [e] at h
  exact h

/-- The x coordinates of the curve: within `300 * M * 2^-53` of the points of
the straight line from the origin to the overshoot coordinate. -/
theorem axis_x (x y : F64) (dr : MouseDraws) (hv : dr.valid) (qx : ℚ) (hx : x.near qx 0)
    (hb : |qx| ≤ 2 ^ 1000) :
    ∃ qs qo : ℚ, 100 ≤ qs ∧ qs ≤ 300 ∧ |qo - qx| ≤ 6 + 3 * (|qx| + 306) / 2 ^ 53 ∧
      (overshoot x y dr).x.near qo 0 ∧
      ∀ i, i ≤ pathSteps dr → (curvePoint x y dr i).x.near
        (qs + (qo - qs) * ((i : ℚ) / (pathSteps dr : ℚ))) (300 * (|qx| + 306) / 2 ^ 53) := by
  obtain ⟨hM1, hM2, hM3⟩ := range_facts qx 306 hb (by norm_num) (by norm_num)
  have hqx := abs_nonneg qx
  obtain ⟨⟨qs, hs, ls, us⟩, _⟩ := pathStart_near dr hv
  obtain ⟨qo, ho, bo⟩ := overshoot_coord_near x dr.overX qx (|qx| + 306) hx hv.2.2.1
    (by linarith) (by linarith)
  have hu : (0 : ℚ) ≤ (|qx| + 306) / 2 ^ 53 := div_nonneg (by linarith) (by norm_num)
  have hu2 : (|qx| + 306) / 2 ^ 53 ≤ (|qx| + 306) / 2 ^ 10 :=
    div_le_div_of_nonneg_left (by linarith) (by norm_num) (by norm_num)
  have bqo : |qo| ≤ 2 * (|qx| + 306) := by
    have := abs_le_of_near qo qx _ bo
    norm_num at hu2
    linarith
  have bqs : |qs| ≤ 2 * (|qx| + 306) := by
    rw [abs_of_nonneg (by linarith)]; linarith
  refine ⟨qs, qo, ls, us, bo, ho, ?_⟩
  intro i hi
  have hn := pathSteps_bounds dr
  have hnq : (0 : ℚ) < (pathSteps dr : ℚ) := by
    have : (12 : ℚ) ≤ (pathSteps dr : ℚ) := by exact_mod_cast hn.1
    linarith
  have ht := frac_near i (pathSteps dr) (by omega) hi (by
    calc pathSteps dr ≤ 21 := hn.2
      _ ≤ 2 ^ 53 := by norm_num)
  have hτ0 : (0 : ℚ) ≤ (i : ℚ) / (pathSteps dr : ℚ) := div_nonneg (Nat.cast_nonneg _) hnq.le
  have hτ1 : (i : ℚ) / (pathSteps dr : ℚ) ≤ 1 := by
    rw [div_le_one hnq]; exact_mod_cast hi
  -- the control point
  have hsum := F64.add_near _ _ qs qo 0 0 (2 * (|qx| + 306)) hs ho (by
    have := abs_le_of_near qo qx _ bo
    rw [abs_of_nonneg (by linarith : 0 ≤ qs)]
    norm_num at hu2
    linarith) (by linarith) (by linarith)
  have hsum2 : |qs + qo| ≤ 2 * (|qx| + 306) := by
    have h1 := abs_add qs qo
    have := abs_le_of_near qo qx _ bo
    rw [abs_of_nonneg (by linarith : 0 ≤ qs)] at h1
    norm_num at hu2
    linarith
  have hc := half_near _ (qs + qo) _ (2 * (|qx| + 306)) hsum (by
    norm_num at hu2 ⊢
    linarith) (by linarith) (by linarith)
  have hbez := bezier_near _ _ _ _ _ qs ((qs + qo) / 2) qo _ (2 * (|qx| + 306)) ht hτ0 hτ1
    hs hc ho bqs (by
      rw [abs_div, abs_of_pos (by norm_num : (0 : ℚ) < 2), div_le_iff₀ (by norm_num)]
      linarith) bqo (by
      norm_num
      linarith) (by linarith) hM2
  have e : (1 - (i : ℚ) / (pathSteps dr : ℚ)) * (1 - (i : ℚ) / (pathSteps dr : ℚ)) * qs
      + 2 * (1 - (i : ℚ) / (pathSteps dr : ℚ)) * ((i : ℚ) / (pathSteps dr : ℚ)) * ((qs + qo) / 2)
      + (i : ℚ) / (pathSteps dr : ℚ) * ((i : ℚ) / (pathSteps dr : ℚ)) * qo
      = qs + (qo - qs) * ((i : ℚ) / (pathSteps dr : ℚ)) := by ring
  rw [e] at hbez
  have e2 : 150 * (2 * (|qx| + 306)) / 2 ^ 53 = 300 * (|qx| + 306) / 2 ^ 53 := by ring
  rw [e2] at hbez
  exact hbez

/-- The y coordinates of the curve: within `300 * M * 2^-53` of the points of
the exact quadratic curve from the origin to the overshoot coordinate. -/
theorem axis_y (x y : F64) (dr : MouseDraws) (hv : dr.valid) (qy : ℚ) (hy : y.near qy 0)
    (hb : |qy| ≤ 2 ^ 1000) :
    ∃ qs qo : ℚ, 80 ≤ qs ∧ qs ≤ 230 ∧ |qo - qy| ≤ 6 + 3 * (|qy| + 236) / 2 ^ 53 ∧
      (overshoot x y dr).y.near qo 0 ∧
      ∀ i, i ≤ pathSteps dr → (curvePoint x y dr i).y.near
        (qs + (qo - qs) * (6 / 5 * ((i : ℚ) / (pathSteps dr : ℚ))
          - (i : ℚ) / (pathSteps dr : ℚ) * ((i : ℚ) / (pathSteps dr : ℚ)) / 5))
        (300 * (|qy| + 236) / 2 ^ 53) := by
  obtain ⟨hM1, hM2, hM3⟩ := range_facts qy 236 hb (by norm_num) (by norm_num)
  have hqy := abs_nonneg qy
  obtain ⟨_, ⟨qs, hs, ls, us⟩⟩ := pathStart_near dr hv
  obtain ⟨qo, ho, bo⟩ := overshoot_coord_near y dr.overY qy (|qy| + 236) hy hv.2.2.2.1
    (by linarith) (by linarith)
  have hu : (0 : ℚ) ≤ (|qy| + 236) / 2 ^ 53 := div_nonneg (by linarith) (by norm_num)
  have hu2 : (|qy| + 236) / 2 ^ 53 ≤ (|qy| + 236) / 2 ^ 10 :=
    div_le_div_of_nonneg_left (by linarith) (by norm_num) (by norm_num)
  norm_num at hu2
  have hqo := abs_le_of_near qo qy _ bo
  have bqo : |qo| ≤ 2 * (|qy| + 236) := by linarith
  have aqs : |qs| = qs := abs_of_nonneg (by linarith)
  have bqs : |qs| ≤ 2 * (|qy| + 236) := by rw [aqs]; linarith
  have bd : |qo - qs| ≤ 2 * (|qy| + 236) := by
    have := abs_sub qo qs
    linarith
  refine ⟨qs, qo, ls, us, bo, ho, ?_⟩
  intro i hi
  have hn := pathSteps_bounds dr
  have hnq : (0 : ℚ) < (pathSteps dr : ℚ) := by
    have : (12 : ℚ) ≤ (pathSteps dr : ℚ) := by exact_mod_cast hn.1
    linarith
  have ht := frac_near i (pathSteps dr) (by omega) hi (by
    calc pathSteps dr ≤ 21 := hn.2
      _ ≤ 2 ^ 53 := by norm_num)
  have hτ0 : (0 : ℚ) ≤ (i : ℚ) / (pathSteps dr : ℚ) := div_nonneg (Nat.cast_nonneg _) hnq.le
  have hτ1 : (i : ℚ) / (pathSteps dr : ℚ) ≤ 1 := by
    rw [div_le_one hnq]; exact_mod_cast hi
  -- the control point
  have a35 : |(3 / 5 : ℚ)| ≤ 3 / 5 := le_of_eq (abs_of_pos (by norm_num))
  have hd := F64.sub_near _ _ qo qs 0 0 (2 * (|qy| + 236)) ho hs (by rw [aqs]; linarith)
    (by linarith) (by linarith)
  have he := F64.near_mono _ _ _ (8 * (|qy| + 236) / 2 ^ 53)
    (F64.mul_near _ 0.6 (qo - qs) (3 / 5) _ _ (2 * (|qy| + 236)) (3 / 5) (4 * (|qy| + 236))
      hd const_near.2.2.2.2.2.2 bd a35 (by norm_num; nlinarith) (by linarith)
      (by linarith)) (by norm_num; nlinarith)
  have b35 : |(qo - qs) * (3 / 5)| ≤ 2 * (|qy| + 236) := by
    have := abs_mul_le (qo - qs) (3 / 5) _ (3 / 5) bd a35
    linarith
  have hc := F64.near_mono _ _ _ (16 * (2 * (|qy| + 236)) / 2 ^ 53)
    (F64.add_near _ _ qs ((qo - qs) * (3 / 5)) 0 _ (8 * (|qy| + 236)) hs he
      (by norm_num at hu ⊢; linarith) (by linarith) hM3) (by norm_num at hu ⊢; linarith)
  have bqc : |qs + (qo - qs) * (3 / 5)| ≤ 2 * (|qy| + 236) := by
    have e : qs + (qo - qs) * (3 / 5) = 2 / 5 * qs + 3 / 5 * qo := by ring
    rw [e]
    have h1 := abs_add (2 / 5 * qs) (3 / 5 * qo)
    rw [abs_mul, abs_mul, abs_of_pos (by norm_num : (0 : ℚ) < 2 / 5),
      abs_of_pos (by norm_num : (0 : ℚ) < 3 / 5)] at h1
    linarith
  have hbez := bezier_near _ _ _ _ _ qs (qs + (qo - qs) * (3 / 5)) qo _ (2 * (|qy| + 236))
    ht hτ0 hτ1 hs hc ho bqs bqc bqo le_rfl (by linarith) hM2
  have e : (1 - (i : ℚ) / (pathSteps dr : ℚ)) * (1 - (i : ℚ) / (pathSteps dr : ℚ)) * qs
      + 2 * (1 - (i : ℚ) / (pathSteps dr : ℚ)) * ((i : ℚ) / (pathSteps dr : ℚ))
        * (qs + (qo - qs) * (3 / 5))
      + (i : ℚ) / (pathSteps dr : ℚ) * ((i : ℚ) / (pathSteps dr : ℚ)) * qo
      = qs + (qo - qs) * (6 / 5 * ((i : ℚ) / (pathSteps dr : ℚ))
          - (i : ℚ) / (pathSteps dr : ℚ) * ((i : ℚ) / (pathSteps dr : ℚ)) / 5) := by ring
  rw [e] at hbez
  have e2 : 150 * (2 * (|qy| + 236)) / 2 ^ 53 = 300 * (|qy| + 236) / 2 ^ 53 := by ring
  rw [e2] at hbez
  exact hbez

theorem step_core (U C A B qc qa qb ea eb off den : ℚ) (hU : 0 < U) (hden : 0 < den)
    (hc : |C / U - qc| ≤ 0) (ha : |A / U - qa| ≤ ea) (hb : |B / U - qb| ≤ eb)
    (h : |qb - qa| + ea + eb ≤ (|qc| + off) / den * (1 + 1 / 2 ^ 40)) :
    |B - A| * (den * 2 ^ 40) ≤ (|C| + off * U) * (2 ^ 40 + 1) := by
  have hqc : qc = C / U := by
    have := abs_nonpos_iff.1 hc
    linarith
  have h1 : |B / U - A / U| ≤ |qb - qa| + ea + eb := by
    have e : B / U - A / U = (B / U - qb) + (qb - qa) + -(A / U - qa) := by ring
    rw [e]
    have t1 := abs_add ((B / U - qb) + (qb - qa)) (-(A / U - qa))
    have t2 := abs_add (B / U - qb) (qb - qa)
    rw [abs_neg] at t1
    linarith
  have h2 : |B - A| = |B / U - A / U| * U := by
    have e : B / U - A / U = (B - A) / U := by ring
    rw [e, abs_div, abs_of_pos hU, div_mul_cancel₀ _ (ne_of_gt hU)]
  have h3 : |C| = |qc| * U := by
    rw [hqc, abs_div, abs_of_pos hU, div_mul_cancel₀ _ (ne_of_gt hU)]
  have h4 : |B / U - A / U| ≤ (|qc| + off) / den * (1 + 1 / 2 ^ 40) := le_trans h1 h
  rw [h2, h3]
  have h5 : |B / U - A / U| * U * (den * 2 ^ 40)
      ≤ (|qc| + off) / den * (1 + 1 / 2 ^ 40) * U * (den * 2 ^ 40) := by
    apply mul_le_mul_of_nonneg_right _ (by positivity)
    exact mul_le_mul_of_nonneg_right h4 hU.le
  have h6 : (|qc| + off) / den * (1 + 1 / 2 ^ 40) * U * (den * 2 ^ 40)
      = (|qc| * U + off * U) * (2 ^ 40 + 1) := by
    field_simp
    ring
  linarith

/-- From errors in pixels to the step predicate on the values. -/
theorem stepWithin_of_near (c a b : F64) (off den : Nat) (qc qa qb ea eb : ℚ)
    (hden : 0 < den) (hc : c.near qc 0) (ha : a.near qa ea) (hb : b.near qb eb)
    (h : |qb - qa| + ea + eb ≤ (|qc| + off) / den * (1 + 1 / 2 ^ 40)) :
    stepWithin c a b off den := by
  obtain ⟨C, eC, bC⟩ := hc
  obtain ⟨A, eA, bA⟩ := ha
  obtain ⟨B, eB, bB⟩ := hb
  refine ⟨C, A, B, eC, eA, eB, ?_⟩
  have hq := step_core (2 ^ 1074) C A B qc qa qb ea eb off den (by positivity)
    (by exact_mod_cast hden) bC bA bB h
  have e : (((|B - A| * ((den : Int) * 2 ^ 40) : Int)) : ℚ)
      ≤ ((((|C| + (off : Int) * 2 ^ 1074) * (2 ^ 40 + 1) : Int)) : ℚ) := by
    simp only [Int.cast_mul, Int.cast_add, Int.cast_abs, Int.cast_sub, Int.cast_pow,
      Int.cast_natCast, Int.cast_ofNat, Int.cast_one]
    exact hq
  exact Int.cast_le.1 e

theorem frac_step (dr : MouseDraws) (i : Nat) (hi : i + 1 ≤ pathSteps dr) :
    0 ≤ (i : ℚ) / (pathSteps dr : ℚ) ∧
    ((i + 1 : Nat) : ℚ) / (pathSteps dr : ℚ) ≤ 1 ∧
    ((i + 1 : Nat) : ℚ) / (pathSteps dr : ℚ) - (i : ℚ) / (pathSteps dr : ℚ)
      = 1 / (pathSteps dr : ℚ) ∧
    0 < 1 / (pathSteps dr : ℚ) ∧ 1 / (pathSteps dr : ℚ) ≤ 1 / 12 := by
  have h12 : (12 : ℚ) ≤ (pathSteps dr : ℚ) := by exact_mod_cast (pathSteps_bounds dr).1
  have hpos : (0 : ℚ) < (pathSteps dr : ℚ) := by linarith
  have hi2 : ((i + 1 : Nat) : ℚ) ≤ (pathSteps dr : ℚ) := by exact_mod_cast hi
  refine ⟨div_nonneg (Nat.cast_nonneg _) hpos.le, (div_le_one hpos).2 hi2, ?_,
    one_div_pos.2 hpos, one_div_le_one_div_of_le (by norm_num) h12⟩
  push_cast
  field_simp

/-- The steps along the x axis. -/
theorem steps_x (x y : F64) (dr : MouseDraws) (hv : dr.valid) (hx : x.inRange) :
    (∀ i, i + 1 ≤ pathSteps dr →
      stepWithin x (curvePoint x y dr i).x (curvePoint x y dr (i + 1)).x 306 12) ∧
    (∀ j, stepWithin x (curvePoint x y dr (pathSteps dr)).x (microPoint x y dr j).x 306 12) ∧
    (∀ j k, stepWithin x (microPoint x y dr j).x (microPoint x y dr k).x 306 12) ∧
    (∀ j, stepWithin x (microPoint x y dr j).x x 306 12) := by
  obtain ⟨X, hX, nx, bx⟩ := inRange_near x hx
  obtain ⟨qs, qo, ls, us, bo, ho, hcurve⟩ := axis_x x y dr hv _ nx bx
  obtain ⟨hM1, hM2, hM3⟩ := range_facts _ 306 bx (by norm_num) (by norm_num)
  generalize (X : ℚ) / 2 ^ 1074 = qx at *
  have hqx := abs_nonneg qx
  have hMu : (0 : ℚ) ≤ 3 * (|qx| + 306) / 2 ^ 53 := div_nonneg (by linarith) (by norm_num)
  have hmicro : ∀ j, (microPoint x y dr j).x.near qx (3 / 2 + 3 * (|qx| + 306) / 2 ^ 53) :=
    fun j => micro_coord_near x (dr.microX j) qx (|qx| + 306) nx (hv.2.2.2.2 j).1
      (by linarith) (by linarith)
  have hspan : |qo - qs| ≤ (|qx| + 306) + 3 * (|qx| + 306) / 2 ^ 53 := by
    rw [abs_le] at bo ⊢
    have h1 := neg_abs_le qx
    have h2 := le_abs_self qx
    constructor <;> linarith
  have hlast : (curvePoint x y dr (pathSteps dr)).x.near qo (300 * (|qx| + 306) / 2 ^ 53) := by
    have h := hcurve (pathSteps dr) le_rfl
    have hn : ((pathSteps dr : ℕ) : ℚ) ≠ 0 := by
      have := (pathSteps_bounds dr).1
      exact_mod_cast (by omega : pathSteps dr ≠ 0)
    rw [div_self hn] at h
    have e : qs + (qo - qs) * 1 = qo := by ring
    rw [e] at h
    exact h
  have hoq : |qx - qo| ≤ 6 + 3 * (|qx| + 306) / 2 ^ 53 := by rw [abs_sub_comm]; exact bo
  refine ⟨?_, ?_, ?_, ?_⟩
  · intro i hi
    obtain ⟨h0, h1, hd, hpos, hle⟩ := frac_step dr i hi
    refine stepWithin_of_near x _ _ 306 12 qx _ _ _ _ (by norm_num) nx
      (hcurve i (by omega)) (hcurve (i + 1) hi) ?_
    have e : qs + (qo - qs) * (((i + 1 : Nat) : ℚ) / (pathSteps dr : ℚ))
        - (qs + (qo - qs) * ((i : ℚ) / (pathSteps dr : ℚ)))
        = (qo - qs) * (1 / (pathSteps dr : ℚ)) := by rw [← hd]; ring
    rw [e, abs_mul, abs_of_pos hpos]
    have h3 : |qo - qs| * (1 / (pathSteps dr : ℚ))
        ≤ ((|qx| + 306) + 3 * (|qx| + 306) / 2 ^ 53) * (1 / 12) :=
      mul_le_mul hspan hle hpos.le (by linarith)
    norm_num at h3 ⊢
    linarith
  · intro j
    refine stepWithin_of_near x _ _ 306 12 qx _ _ _ _ (by norm_num) nx hlast (hmicro j) ?_
    norm_num at hoq ⊢
    linarith
  · intro j k
    refine stepWithin_of_near x _ _ 306 12 qx _ _ _ _ (by norm_num) nx (hmicro j) (hmicro k) ?_
    rw [sub_self, abs_zero]
    norm_num
    linarith
  · intro j
    refine stepWithin_of_near x _ _ 306 12 qx _ _ _ _ (by norm_num) nx (hmicro j) nx ?_
    rw [sub_self, abs_zero]
    norm_num
    linarith

/-- The steps along the y axis. -/
theorem steps_y (x y : F64) (dr : MouseDraws) (hv : dr.valid) (hy : y.inRange) :
    (∀ i, i + 1 ≤ pathSteps dr →
      stepWithin y (curvePoint x y dr i).y (curvePoint x y dr (i + 1)).y 236 10) ∧
    (∀ j, stepWithin y (curvePoint x y dr (pathSteps dr)).y (microPoint x y dr j).y 236 10) ∧
    (∀ j k, stepWithin y (microPoint x y dr j).y (microPoint x y dr k).y 236 10) ∧
    (∀ j, stepWithin y (microPoint x y dr j).y y 236 10) := by
  obtain ⟨Y, hY, ny, bY⟩ := inRange_near y hy
  obtain ⟨qs, qo, ls, us, bo, ho, hcurve⟩ := axis_y x y dr hv _ ny bY
  obtain ⟨hM1, hM2, hM3⟩ := range_facts _ 236 bY (by norm_num) (by norm_num)
  generalize (Y : ℚ) / 2 ^ 1074 = qy at *
  have hqy := abs_nonneg qy
  have hMu : (0 : ℚ) ≤ 3 * (|qy| + 236) / 2 ^ 53 := div_nonneg (by linarith) (by norm_num)
  have hmicro : ∀ j, (microPoint x y dr j).y.near qy (3 / 2 + 3 * (|qy| + 236) / 2 ^ 53) :=
    fun j => micro_coord_near y (dr.microY j) qy (|qy| + 236) ny (hv.2.2.2.2 j).2
      (by linarith) (by linarith)
  have hspan : |qo - qs| ≤ (|qy| + 236) + 3 * (|qy| + 236) / 2 ^ 53 := by
    rw [abs_le] at bo ⊢
    have h1 := neg_abs_le qy
    have h2 := le_abs_self qy
    constructor <;> linarith
  have hlast : (curvePoint x y dr (pathSteps dr)).y.near qo (300 * (|qy| + 236) / 2 ^ 53) := by
    have h := hcurve (pathSteps dr) le_rfl
    have hn : ((pathSteps dr : ℕ) : ℚ) ≠ 0 := by
      have := (pathSteps_bounds dr).1
      exact_mod_cast (by omega : pathSteps dr ≠ 0)
    rw [div_self hn] at h
    have e : qs + (qo - qs) * (6 / 5 * 1 - 1 * 1 / 5) = qo := by ring
    rw [e] at h
    exact h
  have hoq : |qy - qo| ≤ 6 + 3 * (|qy| + 236) / 2 ^ 53 := by rw [abs_sub_comm]; exact bo
  refine ⟨?_, ?_, ?_, ?_⟩
  · intro i hi
    obtain ⟨h0, h1, hd, hpos, hle⟩ := frac_step dr i hi
    refine stepWithin_of_near y _ _ 236 10 qy _ _ _ _ (by norm_num) ny
      (hcurve i (by omega)) (hcurve (i + 1) hi) ?_
    generalize ((i + 1 : Nat) : ℚ) / (pathSteps dr : ℚ) = t2 at *
    generalize (i : ℚ) / (pathSteps dr : ℚ) = t1 at *
    have hfac : qs + (qo - qs) * (6 / 5 * t2 - t2 * t2 / 5)
        - (qs + (qo - qs) * (6 / 5 * t1 - t1 * t1 / 5))
        = (qo - qs) * ((t2 - t1) * (6 / 5 - (t1 + t2) / 5)) := by ring
    have ht12 : t1 ≤ t2 := by linarith
    have hf0 : 0 ≤ (t2 - t1) * (6 / 5 - (t1 + t2) / 5) :=
      mul_nonneg (by linarith) (by linarith)
    have hf1 : (t2 - t1) * (6 / 5 - (t1 + t2) / 5) ≤ 1 / 12 * (6 / 5) :=
      mul_le_mul (by linarith) (by linarith) (by linarith) (by norm_num)
    rw [hfac, abs_mul, abs_of_nonneg hf0]
    have h3 : |qo - qs| * ((t2 - t1) * (6 / 5 - (t1 + t2) / 5))
        ≤ ((|qy| + 236) + 3 * (|qy| + 236) / 2 ^ 53) * (1 / 12 * (6 / 5)) :=
      mul_le_mul hspan hf1 hf0 (by linarith)
    norm_num at h3 ⊢
    linarith
  · intro j
    refine stepWithin_of_near y _ _ 236 10 qy _ _ _ _ (by norm_num) ny hlast (hmicro j) ?_
    norm_num at hoq ⊢
    linarith
  · intro j k
    refine stepWithin_of_near y _ _ 236 10 qy _ _ _ _ (by norm_num) ny (hmicro j) (hmicro k) ?_
    rw [sub_self, abs_zero]
    norm_num
    linarith
  · intro j
    refine stepWithin_of_near y _ _ 236 10 qy _ _ _ _ (by norm_num) ny (hmicro j) ny ?_
    rw [sub_self, abs_zero]
    norm_num
    linarith

theorem curvePoints_chain (x y : F64) (dr : MouseDraws) (hv : dr.valid)
    (hx : x.inRange) (hy : y.inRange) :
    List.Chain' (closeStep x y) (curvePoints x y dr) := by
  unfold curvePoints
  rw [List.chain'_map]
  obtain ⟨m, hm⟩ : ∃ m, pathSteps dr = m + 1 := ⟨pathSteps dr - 1, by
    have := (pathSteps_bounds dr).1; omega⟩
  rw [hm, List.chain'_range_succ]
  intro i hi
  have hi2 : i + 1 + 1 ≤ pathSteps dr := by omega
  exact ⟨(steps_x x y dr hv hx).1 (i + 1) hi2, (steps_y x y dr hv hy).1 (i + 1) hi2⟩

theorem tail_chain (x y : F64) (dr : MouseDraws) (hv : dr.valid)
    (hx : x.inRange) (hy : y.inRange) :
    List.Chain' (closeStep x y) (microPoints x y dr ++ [⟨x, y⟩]) := by
  have hm : microPoints x y dr ++ [⟨x, y⟩]
      = [microPoint x y dr 0, microPoint x y dr 1, microPoint x y dr 2, ⟨x, y⟩] := rfl
  obtain ⟨_, _, mx, tx⟩ := steps_x x y dr hv hx
  obtain ⟨_, _, my, ty⟩ := steps_y x y dr hv hy
  rw [hm, List.chain'_cons, List.chain'_cons, List.chain'_pair]
  exact ⟨⟨mx 0 1, my 0 1⟩, ⟨mx 1 2, my 1 2⟩, ⟨tx 2, ty 2⟩⟩

theorem curvePoints_last (x y : F64) (dr : MouseDraws) :
    (curvePoints x y dr).getLast? = some (curvePoint x y dr (pathSteps dr)) := by
  unfold curvePoints
  obtain ⟨m, hm⟩ : ∃ m, pathSteps dr = m + 1 := ⟨pathSteps dr - 1, by
    have := (pathSteps_bounds dr).1; omega⟩
  rw [hm, List.range_succ, List.map_append, List.map_singleton, List.getLast?_append,
    List.getLast?_singleton]
  rfl

/-- C18 (counterexample): there is no fixed per-step maximum that serves every
target: with the target `(2^60, 0)` and all draws zero the call completes and
its sixth and seventh positions are 96076792050570752 px apart, more than
`(2^60 + 306) / 12`; with the target `(2^1000, 0)` the first two positions are
more than `2^990` px apart. And the path does not start from the pointer's
position before the call: with the pointer at `(1000, 1000)` and the target at
`(1001, 1001)` the first position is more than 800 px away from the pointer. -/
theorem no_fixed_step_bound :
    (zeroDraws.valid ∧ (F64.ofFrac (2 ^ 60) 1).inRange ∧
      (MoveHumanlike (F64.ofFrac (2 ^ 60) 1) 0 zeroDraws).2 = none ∧
      (∃ p q, (MoveHumanlike (F64.ofFrac (2 ^ 60) 1) 0 zeroDraws).1[5]? = some p ∧
        (MoveHumanlike (F64.ofFrac (2 ^ 60) 1) 0 zeroDraws).1[6]? = some q ∧
        fixedStep 96076792050570752 p q ∧ ¬ fixedStep 96076792050570751 p q) ∧
      12 * 96076792050570751 > 2 ^ 60 + 306) ∧
    ((F64.ofFrac (2 ^ 1000) 1).inRange ∧
      (MoveHumanlike (F64.ofFrac (2 ^ 1000) 1) 0 zeroDraws).2 = none ∧
      (∃ p q, (MoveHumanlike (F64.ofFrac (2 ^ 1000) 1) 0 zeroDraws).1[0]? = some p ∧
        (MoveHumanlike (F64.ofFrac (2 ^ 1000) 1) 0 zeroDraws).1[1]? = some q ∧
        ¬ fixedStep (2 ^ 990) p q)) ∧
    (∃ p, (MoveHumanlike 1001 1001 zeroDraws).1.head? = some p ∧
      ¬ fixedStep 800 ⟨1000, 1000⟩ p ∧ fixedStep 1 ⟨1000, 1000⟩ ⟨1001, 1001⟩) := by
  refine ⟨⟨zeroDraws_valid, by decide!, by decide!,
      ⟨curvePoint (F64.ofFrac (2 ^ 60) 1) 0 zeroDraws 6,
        curvePoint (F64.ofFrac (2 ^ 60) 1) 0 zeroDraws 7,
        by decide!, by decide!, by decide!, by decide!⟩, by decide!⟩,
    ⟨by decide!, by decide!,
      ⟨curvePoint (F64.ofFrac (2 ^ 1000) 1) 0 zeroDraws 1,
        curvePoint (F64.ofFrac (2 ^ 1000) 1) 0 zeroDraws 2,
        by decide!, by decide!, by decide!⟩⟩,
    ⟨curvePoint 1001 1001 zeroDraws 1, by decide!, by decide!, by decide!⟩⟩

/-- C18 (amended): for every target `(x, y)` with coordinates of magnitude at
most `2^1000` and every outcome of the random draws, any two consecutive
positions dispatched by a completed `MoveHumanlike` call are finite and differ
by at most `(|x| + 306) / 12 * (1 + 2^-40)` along the x axis and by at most
`(|y| + 236) / 10 * (1 + 2^-40)` along the y axis; the bound grows with the
distance of the target from the random origin near the upper left corner, and
the pointer's position before the call plays no part in the path. -/
theorem MoveHumanlike_step_bound (x y : F64) (dr : MouseDraws) (hv : dr.valid)
    (hx : x.inRange) (hy : y.inRange)
    (hdone : (MoveHumanlike x y dr).2 = none) :
    List.Chain' (closeStep x y) (MoveHumanlike x y dr).1 := by
  have hev : (MoveHumanlike x y dr).1 = curvePoints x y dr ++ microPoints x y dr ++ [⟨x, y⟩] :=
    dispatchMoves_done _ _ 0 hdone
  rw [hev, List.append_assoc]
  refine List.Chain'.append (curvePoints_chain x y dr hv hx hy) (tail_chain x y dr hv hx hy) ?_
  intro p hp q hq
  rw [curvePoints_last] at hp
  have hp2 : p = curvePoint x y dr (pathSteps dr) := by simpa using hp.symm
  have hq2 : q = microPoint x y dr 0 := by
    have : (microPoints x y dr ++ [(⟨x, y⟩ : Point)]).head? = some (microPoint x y dr 0) := rfl
    rw [this] at hq
    simpa using hq.symm
  subst hp2 hq2
  exact ⟨(steps_x x y dr hv hx).2.1 0, (steps_y x y dr hv hy).2.1 0⟩

theorem MoveHumanlike_step_bound_witness :
    (1000 : F64).inRange ∧ (500 : F64).inRange ∧
    (MoveHumanlike 1000 500 zeroDraws).2 = none ∧
    List.Chain' (closeStep 1000 500) (MoveHumanlike 1000 500 zeroDraws).1 :=
  ⟨by decide!, by decide!, by decide!,
    MoveHumanlike_step_bound 1000 500 zeroDraws zeroDraws_valid (by decide!) (by decide!)
      (by decide!)⟩

/-! ## Session start-up, cancellation and pointer motion -/

theorem StartSession_launched_of_ok (env : SessionEnv) (h : (StartSession env).2 = none) :
    (StartSession env).1 = [.launched] := by
  obtain ⟨l, c, p, ck, r, lg⟩ := env
  unfold StartSession newBrowser at h ⊢
  cases l <;> cases c <;> cases p <;> simp at h ⊢
  cases ck <;> cases r <;> simp

/-- When `StartSession` succeeds, `Run` closes the browser before it returns. -/
theorem Run_closes_after_session (env : RunEnv) (hc : env.command = "start")
    (hcfg : env.configOk = true) (hdb : env.dbInitOk = true)
    (hs : (StartSession env.session).2 = none) :
    (Run env).browser = [.launched, .closed] := by
  have hl := StartSession_launched_of_ok env.session hs
  rcases hss : StartSession env.session with ⟨ev, e⟩
  rw [hss] at hs hl
  simp only at hs hl
  subst hs hl
  unfold Run
  simp only [hc, bne_self_eq_false, Bool.false_eq_true, if_false, hcfg, hdb, Bool.not_true, hss]
  cases (PeopleSearch env.cfg env.searchBase env.paginationPages env.search).err with
  | some e => rfl
  | none =>
    simp only
    cases (SendConnections env.cfg env.t0 env.ok0 env.connect env.store
      (PeopleSearch env.cfg env.searchBase env.paginationPages env.search).results).err with
    | some e => rfl
    | none =>
      simp only
      cases (SendFollowups env.cfg env.follow (SendConnections env.cfg env.t0 env.ok0 env.connect
        env.store (PeopleSearch env.cfg env.searchBase env.paginationPages env.search).results).store).err
        <;> rfl

/-- C22 (failing input): the browser is launched, the login runs into a captcha
at the first poll tick, `StartSession` returns the error without the browser,
and `Run` returns the error before `defer browser.Close()` is registered: the
browser events are the launch alone. The same happens for a two-factor prompt,
for invalid credentials, for a login timeout and when connecting to the
launched browser fails. -/
theorem browser_left_open_on_login_failure :
    (Run (runWith captchaSession)).browser = [.launched] ∧
    (Run (runWith captchaSession)).err = some (.message captchaError) ∧
    (Run (runWith ⟨true, true, true, false, false,
      loginWith [⟨false, false, true, false, false⟩] emptyProbe⟩)).browser = [.launched] ∧
    (Run (runWith ⟨true, true, true, false, false,
      loginWith [⟨false, false, false, true, false⟩] emptyProbe⟩)).browser = [.launched] ∧
    (Run (runWith ⟨true, true, true, false, false,
      loginWith [emptyProbe, emptyProbe] emptyProbe⟩)).browser = [.launched] ∧
    (Run (runWith ⟨true, true, true, false, false,
      loginWith [emptyProbe, emptyProbe] emptyProbe⟩)).err = some (.message timeoutError) ∧
    (Run (runWith ⟨true, false, true, false, false,
      loginWith [] loggedInProbe⟩)).browser = [.launched] ∧
    (Run (runWith ⟨true, true, true, true, true, loginWith [] loggedInProbe⟩)).browser
      = [.launched, .closed] := by
  decide

/-- C23 (failing input): with the context cancelled on every page, `PeopleSearch`
still navigates to all three result pages and returns its results without an
error; with the context cancelled at every poll tick, the poll loop of `login`
keeps polling and `login` succeeds. -/
theorem cancellation_ignored_by_search_and_login :
    (cancelledSearch 1).cancelled = true ∧
    navigated (PeopleSearch demoCfg "q" 3 cancelledSearch).trace = ["q&page=1", "q&page=2", "q&page=3"] ∧
    (PeopleSearch demoCfg "q" 3 cancelledSearch).err = none ∧
    (PeopleSearch demoCfg "q" 3 cancelledSearch).results = ["a", "b", "c", "d"] ∧
    emptyProbe.cancelled = true ∧ loggedInProbe.cancelled = true ∧
    pollTick emptyProbe = .again ∧
    login (loginWith [emptyProbe, emptyProbe, loggedInProbe] loggedInProbe) = none := by
  decide

/-- In `SendConnections` and in both sweeps of `SendFollowups` an iteration that
starts with the context cancelled performs no browser action, leaves the ledger
alone and makes the loop return the cancellation error. -/
theorem cancelled_iteration_stops (cfg : Config) (s : Store) (url : String)
    (cp : ConnectPage) (ap : AcceptPage) (fp : FollowPage)
    (hc : cp.cancelled = true) (ha : ap.cancelled = true) (hf : fp.cancelled = true) :
    connectIteration cfg s url cp = (s, [], .ret (some .cancelled)) ∧
    acceptIteration s url ap = (s, [], .ret (some .cancelled)) ∧
    followIteration cfg s url fp = (s, [], .ret (some .cancelled)) := by
  simp [connectIteration, acceptIteration, followIteration, hc, ha, hf]

/-- C25 (failing input): on a page offering every control, the trace of
`SendConnections` for one candidate has a pointer move only before the click on
Connect; the clicks on `Add a note` and on `Send` directly follow a click and
the typing, with no move to the clicked element. In `SendFollowups` the click
on `Send` directly follows the typing. -/
theorem clicks_without_pointer_move :
    (SendConnections roomyCfg (day100 10) true (fun _ => goodPage) emptyStore ["a"]).trace
      = [.navigate "a" true, .scroll "a", .wander "a", .move "a" "Connect",
         .click "a" "Connect" true, .click "a" "Add a note" true,
         .typeText "a" "textarea" "hello Ann, from Acme" true, .click "a" "Send" true,
         .logInfo "connection sent" "a", .pause "a"] ∧
    Event.move "a" "Send"
      ∉ (SendConnections roomyCfg (day100 10) true (fun _ => goodPage) emptyStore ["a"]).trace ∧
    Event.move "a" "Add a note"
      ∉ (SendConnections roomyCfg (day100 10) true (fun _ => goodPage) emptyStore ["a"]).trace ∧
    (followIteration roomyCfg demoLedger "u1" goodFollow).2.1
      = [.navigate "u1" true, .move "u1" "Message", .click "u1" "Message" true,
         .typeText "u1" "textbox" "hello Ann, from Acme" true, .click "u1" "Send" true,
         .logInfo "follow-up sent" "u1", .pause "u1"] := by
  decide

/-! ## Login result -/

theorem pollLoop_none (ticks : List Probe) (h : pollLoop ticks = none) :
    (∃ pre p post, ticks = pre ++ p :: post ∧ (∀ q ∈ pre, pollTick q = .again) ∧
      pollTick p = .loggedIn) ∨
    (∀ q ∈ ticks, pollTick q = .again) := by
  induction ticks with
  | nil => right; simp
  | cons p rest ih =>
    unfold pollLoop at h
    cases hp : pollTick p with
    | failed e => simp [hp] at h
    | loggedIn => left; exact ⟨[], p, rest, rfl, by simp, hp⟩
    | again =>
      simp only [hp] at h
      rcases ih h with ⟨pre, q, post, h1, h2, h3⟩ | h2
      · left
        refine ⟨p :: pre, q, post, by simp [h1], ?_, h3⟩
        intro r hr
        rcases List.mem_cons.1 hr with rfl | hr
        · exact hp
        · exact h2 r hr
      · right
        intro r hr
        rcases List.mem_cons.1 hr with rfl | hr
        · exact hp
        · exact h2 r hr

theorem pollLoop_skip (pre : List Probe) (rest : List Probe)
    (h : ∀ q ∈ pre, pollTick q = .again) : pollLoop (pre ++ rest) = pollLoop rest := by
  induction pre with
  | nil => rfl
  | cons q pre ih =>
    have hq := h q (List.mem_cons_self _ _)
    simp only [List.cons_append, pollLoop, hq]
    exact ih (fun r hr => h r (List.mem_cons_of_mem _ hr))

theorem afterPoll_none (last : Probe) (h : afterPoll last = none) :
    last.loggedIn = true ∧ last.captcha = false ∧ last.twoFA = false ∧
    last.badCreds = false := by
  obtain ⟨c, a, b, d, l⟩ := last
  unfold afterPoll at h
  cases l <;> cases a <;> cases b <;> cases d <;> simp at h ⊢

theorem login_none (env : LoginEnv) (h : login env = none) :
    pollLoop env.ticks = none ∧ afterPoll env.last = none := by
  obtain ⟨n, f, e, p, te, tp, b, c, ticks, last⟩ := env
  unfold login at h
  cases n <;> cases f <;> cases e <;> cases p <;> cases te <;> cases tp <;> cases b <;>
    cases c <;> simp at h
  cases hp : pollLoop ticks with
  | some err => simp [hp] at h
  | none => simp only [hp] at h; exact ⟨rfl, h⟩

/-- C24: at a poll tick `login` decides in this order: captcha error if the
captcha indicator is present, else two-factor error if the two-factor input is
present, else invalid-credentials error if that text is present, else it leaves
the loop as logged in if the logged-in marker is present, else it polls again;
a challenge at the first tick that does not poll again is the error `login`
returns, and a page that stays with the marker alone gives success. `login`
returns success only if the page after the loop shows the logged-in marker and
none of the three challenge indicators, the loop having been left at a tick
with the marker and no challenge or by the deadline; and the three challenge
errors are pairwise distinct. -/
theorem login_result_priority (p : Probe) (env : LoginEnv) (before after : List Probe) :
    (p.captcha = true → pollTick p = .failed captchaError) ∧
    (p.captcha = false → p.twoFA = true → pollTick p = .failed twoFAError) ∧
    (p.captcha = false → p.twoFA = false → p.badCreds = true →
      pollTick p = .failed badCredsError) ∧
    (p.captcha = false → p.twoFA = false → p.badCreds = false → p.loggedIn = true →
      pollTick p = .loggedIn) ∧
    (p.captcha = false → p.twoFA = false → p.badCreds = false → p.loggedIn = false →
      pollTick p = .again) ∧
    ((∀ q ∈ before, pollTick q = .again) →
      (∀ err, pollTick p = .failed err →
        login (loginWith (before ++ p :: after) env.last) = some err) ∧
      (pollTick p = .loggedIn → login (loginWith (before ++ p :: after) p) = none)) ∧
    (login env = none →
      (env.last.loggedIn = true ∧ env.last.captcha = false ∧ env.last.twoFA = false ∧
        env.last.badCreds = false) ∧
      ((∃ pre q post, env.ticks = pre ++ q :: post ∧ (∀ r ∈ pre, pollTick r = .again) ∧
          q.loggedIn = true ∧ q.captcha = false ∧ q.twoFA = false ∧ q.badCreds = false) ∨
        (∀ q ∈ env.ticks, pollTick q = .again))) ∧
    (captchaError ≠ twoFAError ∧ captchaError ≠ badCredsError ∧ twoFAError ≠ badCredsError) := by
  have htick : ∀ q : Probe, pollTick q = .loggedIn →
      q.loggedIn = true ∧ q.captcha = false ∧ q.twoFA = false ∧ q.badCreds = false := by
    intro q hq
    obtain ⟨c, a, b, d, l⟩ := q
    unfold pollTick at hq
    cases a <;> cases b <;> cases d <;> cases l <;> simp at hq ⊢
  refine ⟨fun h => by simp [pollTick, h], fun h1 h2 => by simp [pollTick, h1, h2],
    fun h1 h2 h3 => by simp [pollTick, h1, h2, h3],
    fun h1 h2 h3 h4 => by simp [pollTick, h1, h2, h3, h4],
    fun h1 h2 h3 h4 => by simp [pollTick, h1, h2, h3, h4], fun hb => ⟨fun err he => ?_, fun hl => ?_⟩,
    fun h => ?_, by decide⟩
  · simp [login, loginWith, pollLoop_skip before _ hb, pollLoop, he]
  · obtain ⟨h1, h2, h3, h4⟩ := htick p hl
    simp [login, loginWith, pollLoop_skip before _ hb, pollLoop, hl, afterPoll, h1, h2, h3, h4]
  · obtain ⟨h1, h2⟩ := login_none env h
    refine ⟨afterPoll_none _ h2, ?_⟩
    rcases pollLoop_none _ h1 with ⟨pre, q, post, e1, e2, e3⟩ | h3
    · exact Or.inl ⟨pre, q, post, e1, e2, htick q e3⟩
    · exact Or.inr h3

theorem login_result_priority_witness :
    captchaProbe.captcha = true ∧ pollTick captchaProbe = .failed captchaError ∧
    login (loginWith ([emptyProbe] ++ captchaProbe :: []) emptyProbe) = some captchaError :=
  ⟨rfl,
    (login_result_priority captchaProbe (loginWith [] emptyProbe) [emptyProbe] []).1 rfl,
    ((login_result_priority captchaProbe (loginWith [] emptyProbe) [emptyProbe] []).2.2.2.2.2.1
      (by decide)).1 captchaError rfl⟩

/-! ## Template and the visiting order of the map -/

theorem valueOf_eq_some_iff (data : List (String × String))
    (hnd : (data.map (fun kv => kv.1)).Nodup) (k v : List Char) :
    valueOf data k = some v ↔ ∃ kv ∈ data, kv.1.data = k ∧ kv.2.data = v := by
  induction data with
  | nil => simp [valueOf]
  | cons kv rest ih =>
    rw [List.map_cons, List.nodup_cons] at hnd
    unfold valueOf
    by_cases hk : k = kv.1.data
    · rw [if_pos hk]
      constructor
      · intro h
        exact ⟨kv, List.mem_cons_self _ _, hk.symm, Option.some.inj h⟩
      · rintro ⟨kv2, hmem, h1, h2⟩
        rcases List.mem_cons.1 hmem with rfl | hmem
        · rw [h2]
        · exfalso
          apply hnd.1
          have : kv2.1 = kv.1 := String.ext (h1.trans hk)
          rw [← this]
          exact List.mem_map.2 ⟨kv2, hmem, rfl⟩
    · rw [if_neg hk, ih hnd.2]
      constructor
      · rintro ⟨kv2, hmem, h1, h2⟩
        exact ⟨kv2, List.mem_cons_of_mem _ hmem, h1, h2⟩
      · rintro ⟨kv2, hmem, h1, h2⟩
        rcases List.mem_cons.1 hmem with rfl | hmem
        · exact absurd h1.symm hk
        · exact ⟨kv2, hmem, h1, h2⟩

theorem valueOf_perm (data data2 : List (String × String))
    (hnd : (data.map (fun kv => kv.1)).Nodup) (hperm : data.Perm data2) (k : List Char) :
    valueOf data k = valueOf data2 k := by
  have hnd2 : (data2.map (fun kv => kv.1)).Nodup := (hperm.map _).nodup_iff.1 hnd
  apply Option.ext
  intro v
  simp only [Option.mem_def]
  rw [valueOf_eq_some_iff data hnd, valueOf_eq_some_iff data2 hnd2]
  constructor
  · rintro ⟨kv, hm, h⟩
    exact ⟨kv, hperm.mem_iff.1 hm, h⟩
  · rintro ⟨kv, hm, h⟩
    exact ⟨kv, hperm.mem_iff.2 hm, h⟩

theorem fillPiece_perm (data data2 : List (String × String))
    (hnd : (data.map (fun kv => kv.1)).Nodup) (hperm : data.Perm data2) (p : Piece) :
    fillPiece data p = fillPiece data2 p := by
  cases p with
  | text s => rfl
  | hole k => simp only [fillPiece, valueOf_perm data data2 hnd hperm k]

/-- C26 (counterexample): the same map visited in two orders gives two
different results: with `a -> {b}`, `b -> X` the template `{a}` renders to `X`
when `a` is visited first and to `{b}` when `b` is visited first (a value spells
another key's placeholder); with `x -> a`, `a -> Z` the template with nested
braces around `{x}` renders to `Z` or to `{a}` (the text left after a
replacement spells another key's placeholder); and with the keys `a` and
`a}{b` the template `{a}{b}` renders to `1{b}` or to `2`. In each case the two
entry lists are permutations of each other with distinct keys. -/
theorem Template_depends_on_visiting_order :
    Template "{a}" [("a", "{b}"), ("b", "X")] = "X" ∧
    Template "{a}" [("b", "X"), ("a", "{b}")] = "{b}" ∧
    Template "\x7b\x7bx\x7d\x7d" [("x", "a"), ("a", "Z")] = "Z" ∧
    Template "\x7b\x7bx\x7d\x7d" [("a", "Z"), ("x", "a")] = "{a}" ∧
    Template "{a}{b}" [("a", "1"), ("a\x7d\x7bb", "2")] = "1{b}" ∧
    Template "{a}{b}" [("a\x7d\x7bb", "2"), ("a", "1")] = "2" ∧
    List.Perm [("a", "{b}"), ("b", "X")] [("b", "X"), ("a", "{b}")] ∧
    ([("a", "{b}"), ("b", "X")].map (fun kv : String × String => kv.1)).Nodup := by
  decide

/-- C26 (amended): for every template made of brace-free text and placeholders
`{w}` with brace-free `w`, and every substitution map (entries with pairwise
distinct keys) whose keys and values contain no brace, any two visiting orders
of the map's entries give the same string. -/
theorem Template_order_independent (ps : List Piece) (data data2 : List (String × String))
    (hps : ∀ p ∈ ps, p.braceFree)
    (hdata : ∀ kv ∈ data, braceFree kv.1.data ∧ braceFree kv.2.data)
    (hnd : (data.map (fun kv => kv.1)).Nodup) (hperm : data.Perm data2) :
    Template (String.mk (piecesText ps)) data = Template (String.mk (piecesText ps)) data2 := by
  have hdata2 : ∀ kv ∈ data2, braceFree kv.1.data ∧ braceFree kv.2.data :=
    fun kv h => hdata kv (hperm.mem_iff.2 h)
  rw [Template_pieces data ps hps hdata, Template_pieces data2 ps hps hdata2]
  congr 2
  exact List.map_congr_left (fun p _ => fillPiece_perm data data2 hnd hperm p)

theorem Template_order_independent_witness :
    String.mk (piecesText helloPieces) = "hello {name}, from {company}" ∧
    Template (String.mk (piecesText helloPieces)) [("name", "Ann"), ("company", "Acme")]
      = Template (String.mk (piecesText helloPieces)) [("company", "Acme"), ("name", "Ann")] ∧
    Template (String.mk (piecesText helloPieces)) [("company", "Acme"), ("name", "Ann")]
      = "hello Ann, from Acme" :=
  ⟨by decide,
    Template_order_independent helloPieces [("name", "Ann"), ("company", "Acme")]
      [("company", "Acme"), ("name", "Ann")] helloPieces_braceFree
      (by
        intro kv hkv
        simp only [List.mem_cons, List.mem_singleton, List.not_mem_nil, or_false] at hkv
        rcases hkv with rfl | rfl <;> exact ⟨⟨by decide, by decide⟩, ⟨by decide, by decide⟩⟩)
      (by decide) (List.Perm.swap _ _ _),
    by decide⟩

/-! ## Acceptance sweep and the follow-ups after it -/

theorem acceptedRow_url (t : Time) (r : Connection) :
    (acceptedRow t r).profile_url = r.profile_url := rfl

theorem acceptIteration_effect (s : Store) (url : String) (pg : AcceptPage)
    (hc : pg.cancelled = false) (hm : pg.markOk = true) :
    (acceptIteration s url pg).2.2 = .next ∧
    (acceptIteration s url pg).1.connections = s.connections.map (fun r =>
      if r.profile_url = url ∧ pg.marks = true then acceptedRow pg.tMark r else r) := by
  obtain ⟨c, n, m, t, k⟩ := pg
  simp only at hc hm
  subst hc hm
  unfold acceptIteration
  cases n <;> cases m <;>
    simp [keepOnError, MarkAccepted, AcceptPage.marks, acceptedRow]

theorem acceptLoop_effect (env : Nat → AcceptPage)
    (henv : ∀ j, (env j).cancelled = false ∧ (env j).markOk = true) (urls : List String) :
    urls.Nodup → ∀ (i : Nat) (s : Store),
      (acceptLoop env i s urls).err = none ∧
      (acceptLoop env i s urls).store.connections = s.connections.map (fun r =>
        if r.profile_url ∈ urls ∧ (env (i + urls.indexOf r.profile_url)).marks = true then
          acceptedRow (env (i + urls.indexOf r.profile_url)).tMark r
        else r) := by
  induction urls with
  | nil =>
    intro _ i s
    simp [acceptLoop]
  | cons url rest ih =>
    intro hnd i s
    rw [List.nodup_cons] at hnd
    obtain ⟨h1, h2⟩ := acceptIteration_effect s url (env i) (henv i).1 (henv i).2
    obtain ⟨e1, e2⟩ := ih hnd.2 (i + 1) (acceptIteration s url (env i)).1
    rcases h : acceptIteration s url (env i) with ⟨s1, ev, fl⟩
    rw [h] at h1 h2 e1 e2
    simp only at h1 h2 e1 e2
    subst h1
    simp only [acceptLoop, h]
    refine ⟨e1, ?_⟩
    rw [e2, h2, List.map_map]
    apply List.map_congr_left
    intro r _
    simp only [Function.comp]
    by_cases hu : r.profile_url = url
    · have hnot : r.profile_url ∉ rest := by rw [hu]; exact hnd.1
      by_cases hm : (env i).marks = true
      · simp [hu, hm, acceptedRow_url, hnd.1]
      · simp [hu, hm, hnd.1]
    · have hidx : List.indexOf r.profile_url (url :: rest)
          = List.indexOf r.profile_url rest + 1 := List.indexOf_cons_ne _ (Ne.symm hu)
      have hadd : i + (List.indexOf r.profile_url rest + 1)
          = i + 1 + List.indexOf r.profile_url rest := by omega
      simp only [hu, false_and, if_false, List.mem_cons, false_or, hidx, hadd]

theorem requestedURLs_nodup (s : Store) (h : (profileURLs s).Nodup) :
    (requestedURLs s).Nodup := by
  unfold requestedURLs
  unfold profileURLs at h
  exact h.sublist ((List.filter_sublist _).map _)

theorem mem_requestedURLs_iff (s : Store) (h : (profileURLs s).Nodup) (r : Connection)
    (hr : r ∈ s.connections) :
    r.profile_url ∈ requestedURLs s ↔ r.status = "requested" := by
  unfold requestedURLs
  constructor
  · intro hm
    obtain ⟨r2, hr2, hu⟩ := List.mem_map.1 hm
    rw [List.mem_filter] at hr2
    have : r2 = r := List.inj_on_of_nodup_map h hr2.1 hr hu
    rw [← this]
    simpa using hr2.2
  · intro hs
    exact List.mem_map.2 ⟨r, List.mem_filter.2 ⟨hr, by simpa using hs⟩, rfl⟩

theorem detectAccepted_effect (env : Nat → AcceptPage) (s : Store)
    (hnd : (profileURLs s).Nodup)
    (henv : ∀ j, (env j).cancelled = false ∧ (env j).markOk = true) :
    (detectAccepted true env s).err = none ∧
    (detectAccepted true env s).store.connections = s.connections.map (sweepRow env s) := by
  obtain ⟨h1, h2⟩ := acceptLoop_effect env henv (requestedURLs s) (requestedURLs_nodup s hnd) 0 s
  have hd : detectAccepted true env s = acceptLoop env 0 s (requestedURLs s) := by
    simp [detectAccepted, RequestedConnections, requestedURLs]
  rw [hd]
  refine ⟨h1, ?_⟩
  rw [h2]
  apply List.map_congr_left
  intro r hr
  have hiff := mem_requestedURLs_iff s hnd r hr
  unfold sweepRow marked
  simp only [Nat.zero_add, hiff, Bool.and_eq_true, beq_iff_eq]

theorem sweepRow_url (env : Nat → AcceptPage) (s : Store) (r : Connection) :
    (sweepRow env s r).profile_url = r.profile_url := by
  unfold sweepRow
  split <;> rfl

theorem sweepRow_accepted (env : Nat → AcceptPage) (s : Store) (r : Connection) :
    ((sweepRow env s r).status == "accepted") = (r.status == "accepted" || marked env s r) := by
  unfold sweepRow
  by_cases hm : marked env s r = true
  · simp [hm, acceptedRow]
  · simp [hm]

theorem acceptedURLs_after (env : Nat → AcceptPage) (s s2 : Store)
    (h : s2.connections = s.connections.map (sweepRow env s)) :
    acceptedURLs s2 = (s.connections.filter
      (fun r => r.status == "accepted" || marked env s r)).map (fun r => r.profile_url) := by
  unfold acceptedURLs
  rw [h, List.filter_map, List.map_map]
  have h1 : ((fun r : Connection => r.status == "accepted") ∘ sweepRow env s)
      = (fun r => r.status == "accepted" || marked env s r) := by
    funext r
    exact sweepRow_accepted env s r
  have h2 : ((fun r : Connection => r.profile_url) ∘ sweepRow env s)
      = (fun r => r.profile_url) := by
    funext r
    exact sweepRow_url env s r
  rw [h1, h2]

theorem followIteration_attempt (cfg : Config) (s : Store) (url : String) (pg : FollowPage)
    (hpause : followPause cfg pg = true) :
    (pg.cancelled = true ∧ (followIteration cfg s url pg).2.1 = [] ∧
      (followIteration cfg s url pg).2.2 = .ret (some .cancelled)) ∨
    (navigated (followIteration cfg s url pg).2.1 = [url] ∧
      ((followIteration cfg s url pg).2.2 = .next ∨
        ((followIteration cfg s url pg).2.2 = .ret none ∧
          cfg.DailyMessages ≤
            readCounter (followIteration cfg s url pg).1 "messages" pg.tRead pg.readOk))) := by
  unfold followIteration
  by_cases h1 : pg.cancelled = true
  · left; simp [h1]
  right
  by_cases h2 : pg.navigateOk = true
  swap
  · simp [h1, h2, navigated]
  by_cases h3 : pg.messageFound = true
  swap
  · simp [h1, h2, h3, navigated]
  by_cases h4 : pg.editorFound = true
  swap
  · simp [h1, h2, h3, h4, navigated]
  by_cases h5 : pg.typeOk = true
  swap
  · simp [h1, h2, h3, h4, h5, navigated]
  by_cases hr : readCounter (followWrites cfg s url pg) "messages" pg.tRead pg.readOk
      ≥ cfg.DailyMessages
  · simp only [h1, h2, h3, h4, h5, Bool.not_true, Bool.false_eq_true, if_false, if_pos hr]
    refine ⟨?_, Or.inr ⟨trivial, hr⟩⟩
    cases pg.sendFound <;> simp [navigated, sendEvents]
  · simp only [h1, h2, h3, h4, h5, hpause, Bool.not_true, Bool.false_eq_true, if_false,
      if_true, if_neg hr]
    refine ⟨?_, Or.inl trivial⟩
    cases pg.sendFound <;> simp [navigated, sendEvents]

theorem followLoop_attempts (cfg : Config) (env : Nat → FollowPage)
    (hpause : ∀ j, followPause cfg (env j) = true) (urls : List String) :
    ∀ (i : Nat) (s : Store), ∃ k, k ≤ urls.length ∧
      navigated (followLoop cfg env i s urls).trace = urls.take k ∧
      (k = urls.length ∨
        (k < urls.length ∧ (followLoop cfg env i s urls).err = some .cancelled ∧
          (env (i + k)).cancelled = true) ∨
        (0 < k ∧ cfg.DailyMessages ≤
          readCounter (followLoop cfg env i s urls).store "messages"
            (env (i + k - 1)).tRead (env (i + k - 1)).readOk)) := by
  induction urls with
  | nil => intro i s; exact ⟨0, le_refl _, by simp [followLoop, navigated], Or.inl rfl⟩
  | cons url rest ih =>
    intro i s
    rw [followLoop_cons]
    rcases followIteration_attempt cfg s url (env i) (hpause i) with
      ⟨hc, h1, h2⟩ | ⟨h1, h2 | ⟨h2, h3⟩⟩
    · rw [h2]
      exact ⟨0, Nat.zero_le _, by simp [h1, navigated],
        Or.inr (Or.inl ⟨by simp, rfl, by simpa using hc⟩)⟩
    · rw [h2]
      obtain ⟨k, hk0, hk1, hk2⟩ := ih (i + 1) (followIteration cfg s url (env i)).1
      refine ⟨k + 1, by simp only [List.length_cons]; omega, ?_, ?_⟩
      · simp only [List.take_succ_cons]
        have : navigated ((followIteration cfg s url (env i)).2.1 ++
            (followLoop cfg env (i + 1) (followIteration cfg s url (env i)).1 rest).trace)
            = navigated (followIteration cfg s url (env i)).2.1 ++
              navigated (followLoop cfg env (i + 1)
                (followIteration cfg s url (env i)).1 rest).trace := by
          simp [navigated, List.filterMap_append]
        rw [this, h1, hk1]
        rfl
      · have e1 : i + (k + 1) = i + 1 + k := by omega
        have e2 : i + (k + 1) - 1 = i + k := by omega
        rcases hk2 with hk2 | ⟨hk2, hk3, hk4⟩ | ⟨hk2, hk3⟩
        · left; simp [hk2]
        · right; left
          refine ⟨by simp only [List.length_cons]; omega, hk3, ?_⟩
          rw [e1]; exact hk4
        · right; right
          refine ⟨by omega, ?_⟩
          have e3 : i + 1 + k - 1 = i + k := by omega
          rw [e2]
          rw [e3] at hk3
          exact hk3
    · rw [h2]
      refine ⟨1, by simp, by simp [h1], Or.inr (Or.inr ⟨by omega, ?_⟩)⟩
      simpa using h3

theorem sendPending_attempts (cfg : Config) (env : FollowEnv) (s : Store)
    (hpause : ∀ j, followPause cfg (env.follow j) = true)
    (hp : env.pendingOk = true) : ∃ k, k ≤ (acceptedURLs s).length ∧
      navigated (sendPending cfg env s).trace = (acceptedURLs s).take k ∧
      (k = (acceptedURLs s).length ∨
        (k = 0 ∧ cfg.DailyMessages ≤ readCounter s "messages" env.t0 env.ok0) ∨
        (k < (acceptedURLs s).length ∧ (sendPending cfg env s).err = some .cancelled ∧
          (env.follow k).cancelled = true) ∨
        (0 < k ∧ cfg.DailyMessages ≤
          readCounter (sendPending cfg env s).store "messages"
            (env.follow (k - 1)).tRead (env.follow (k - 1)).readOk)) := by
  unfold sendPending PendingFollowups
  simp only [hp, if_true]
  by_cases hq : readCounter s "messages" env.t0 env.ok0 ≥ cfg.DailyMessages
  · rw [if_pos hq]
    exact ⟨0, Nat.zero_le _, by simp [navigated], Or.inr (Or.inl ⟨rfl, hq⟩)⟩
  · rw [if_neg hq]
    obtain ⟨k, h0, h1, h2⟩ := followLoop_attempts cfg env.follow hpause
      ((s.connections.filter (fun r => r.status == "accepted")).map (fun r => r.profile_url)) 0 s
    refine ⟨k, h0, h1, ?_⟩
    rcases h2 with h2 | ⟨h2, h3, h4⟩ | ⟨h2, h3⟩
    · exact Or.inl h2
    · exact Or.inr (Or.inr (Or.inl ⟨h2, h3, by simpa using h4⟩))
    · exact Or.inr (Or.inr (Or.inr ⟨h2, by simpa using h3⟩))

/-- C21 (counterexample): on the ledger with `u1` accepted before and `u2`
requested, with every page showing `Message`, the acceptance sweep newly
accepts only `u2`, yet the follow-up sweep navigates to `u1` and `u2` and types
a message on both. With five requested profiles all showing `Message`, a
context cancelled at the third profile leaves `r2`, `r3`, `r4` requested, and
failing `MarkAccepted` statements leave all five requested while the sweep
returns no error. With `jitter_ms: -1` the follow-up sweep panics in
`RandomPause` after the first of two newly accepted profiles. -/
theorem followups_not_only_newly_accepted :
    acceptedURLs demoLedger = ["u1"] ∧
    newlyAccepted goodFollowEnv.accept demoLedger = ["u2"] ∧
    navigated (sendPending roomyCfg goodFollowEnv
      (detectAccepted true goodFollowEnv.accept demoLedger).store).trace = ["u1", "u2"] ∧
    followupsPerformed (sendPending roomyCfg goodFollowEnv
      (detectAccepted true goodFollowEnv.accept demoLedger).store).trace = 2 ∧
    (∀ i, (cancelledThird i).marks = true) ∧
    acceptedURLs (detectAccepted true cancelledThird fiveRequested).store = ["r0", "r1"] ∧
    (detectAccepted true cancelledThird fiveRequested).err = some .cancelled ∧
    (∀ i, (failingMark i).marks = true) ∧
    acceptedURLs (detectAccepted true failingMark fiveRequested).store = [] ∧
    (detectAccepted true failingMark fiveRequested).err = none ∧
    newlyAccepted twoOfFiveEnv.accept fiveRequested = ["r1", "r3"] ∧
    navigated (sendPending negJitterCfg twoOfFiveEnv
      (detectAccepted true twoOfFiveEnv.accept fiveRequested).store).trace = ["r1"] ∧
    (sendPending negJitterCfg twoOfFiveEnv
      (detectAccepted true twoOfFiveEnv.accept fiveRequested).store).err = some .crashed := by
  refine ⟨by decide, by decide, by decide, by decide, fun _ => rfl, by decide, by decide,
    fun _ => rfl, by decide, by decide, by decide, by decide, by decide⟩

/-- C21 (amended): on a ledger with pairwise distinct profile URLs, when the
list of requested URLs is read, the context is not cancelled during the
acceptance sweep and its `MarkAccepted` statements succeed, `detectAccepted`
returns no error and turns exactly the requested rows whose page navigated and
showed a `Message` control into accepted rows (stamped with the probe time),
leaving every other row, the messages and the counters unchanged, so that the
accepted profiles afterwards are those accepted before plus those newly
accepted; and when no profile was accepted before, the pending URLs are read
and `RandomPause` does not panic on the configuration, the follow-up sweep
navigates to the newly accepted profiles in table order, to all of them unless
it stops early: before the first one because the counter read before the loop
has reached the message cap, at a profile because the context is cancelled when
its iteration starts, or after a profile because the counter read after its
message has reached the cap. -/
theorem acceptance_sweep_effect (cfg : Config) (env : FollowEnv) (s : Store)
    (hnd : (profileURLs s).Nodup) (hreq : env.requestedOk = true)
    (henv : ∀ j, (env.accept j).cancelled = false ∧ (env.accept j).markOk = true) :
    (detectAccepted env.requestedOk env.accept s).err = none ∧
    (detectAccepted env.requestedOk env.accept s).store.connections
      = s.connections.map (sweepRow env.accept s) ∧
    (∀ r ∈ s.connections, marked env.accept s r = false → sweepRow env.accept s r = r) ∧
    (∀ r ∈ s.connections, marked env.accept s r = true →
      r.status = "requested" ∧ (sweepRow env.accept s r).status = "accepted" ∧
      (sweepRow env.accept s r).profile_url = r.profile_url) ∧
    (detectAccepted env.requestedOk env.accept s).store.messages = s.messages ∧
    (detectAccepted env.requestedOk env.accept s).store.counters = s.counters ∧
    (∀ u, u ∈ acceptedURLs (detectAccepted env.requestedOk env.accept s).store ↔
      u ∈ acceptedURLs s ∨ u ∈ newlyAccepted env.accept s) ∧
    (acceptedURLs s = [] → env.pendingOk = true → cfg.pauseSafe →
      ∃ k, k ≤ (newlyAccepted env.accept s).length ∧
        navigated (sendPending cfg env
          (detectAccepted env.requestedOk env.accept s).store).trace
          = (newlyAccepted env.accept s).take k ∧
        (k = (newlyAccepted env.accept s).length ∨
          (k = 0 ∧ cfg.DailyMessages ≤
            readCounter (detectAccepted env.requestedOk env.accept s).store "messages"
              env.t0 env.ok0) ∨
          (k < (newlyAccepted env.accept s).length ∧
            (sendPending cfg env (detectAccepted env.requestedOk env.accept s).store).err
              = some .cancelled ∧
            (env.follow k).cancelled = true) ∨
          (0 < k ∧ cfg.DailyMessages ≤ readCounter (sendPending cfg env
            (detectAccepted env.requestedOk env.accept s).store).store "messages"
              (env.follow (k - 1)).tRead (env.follow (k - 1)).readOk))) := by
  rw [hreq]
  obtain ⟨h1, h2⟩ := detectAccepted_effect env.accept s hnd henv
  obtain ⟨f1, f2, _, _⟩ := detectAccepted_frame true env.accept s
  have hacc := acceptedURLs_after env.accept s _ h2
  refine ⟨h1, h2, ?_, ?_, f2, f1, ?_, ?_⟩
  · intro r _ hm
    simp [sweepRow, hm]
  · intro r _ hm
    refine ⟨?_, ?_, sweepRow_url _ _ _⟩
    · unfold marked at hm
      simp only [Bool.and_eq_true, beq_iff_eq] at hm
      exact hm.1
    · simp [sweepRow, hm, acceptedRow]
  · intro u
    rw [hacc]
    unfold acceptedURLs newlyAccepted
    simp only [List.mem_map, List.mem_filter, Bool.or_eq_true]
    constructor
    · rintro ⟨r, ⟨hr, ha | hm⟩, hu⟩
      · exact Or.inl ⟨r, ⟨hr, ha⟩, hu⟩
      · exact Or.inr ⟨r, ⟨hr, hm⟩, hu⟩
    · rintro (⟨r, ⟨hr, ha⟩, hu⟩ | ⟨r, ⟨hr, hm⟩, hu⟩)
      · exact ⟨r, ⟨hr, Or.inl ha⟩, hu⟩
      · exact ⟨r, ⟨hr, Or.inr hm⟩, hu⟩
  · intro hno hp hsafe
    have hnew : acceptedURLs (detectAccepted true env.accept s).store
        = newlyAccepted env.accept s := by
      rw [hacc]
      unfold newlyAccepted
      congr 1
      apply List.filter_congr
      intro r hr
      have : (r.status == "accepted") = false := by
        unfold acceptedURLs at hno
        rw [List.map_eq_nil_iff, List.filter_eq_nil_iff] at hno
        simpa using hno r hr
      rw [this, Bool.false_or]
    rw [← hnew]
    exact sendPending_attempts cfg env _ (fun j => followPause_of_safe cfg _ hsafe) hp

theorem acceptance_sweep_effect_witness :
    requestedURLs fiveRequested = ["r0", "r1", "r2", "r3", "r4"] ∧
    newlyAccepted twoOfFiveEnv.accept fiveRequested = ["r1", "r3"] ∧
    acceptedURLs (detectAccepted true twoOfFiveEnv.accept fiveRequested).store = ["r1", "r3"] ∧
    requestedURLs (detectAccepted true twoOfFiveEnv.accept fiveRequested).store
      = ["r0", "r2", "r4"] ∧
    navigated (sendPending roomyCfg twoOfFiveEnv
      (detectAccepted true twoOfFiveEnv.accept fiveRequested).store).trace = ["r1", "r3"] ∧
    followupsPerformed (SendFollowups roomyCfg twoOfFiveEnv fiveRequested).trace = 2 ∧
    ((detectAccepted twoOfFiveEnv.requestedOk twoOfFiveEnv.accept fiveRequested).err = none ∧
      ∀ u, u ∈ acceptedURLs
          (detectAccepted twoOfFiveEnv.requestedOk twoOfFiveEnv.accept fiveRequested).store ↔
        u ∈ acceptedURLs fiveRequested ∨ u ∈ newlyAccepted twoOfFiveEnv.accept fiveRequested) ∧
    (∃ k, k ≤ (newlyAccepted twoOfFiveEnv.accept fiveRequested).length ∧
        navigated (sendPending roomyCfg twoOfFiveEnv
          (detectAccepted twoOfFiveEnv.requestedOk twoOfFiveEnv.accept fiveRequested).store).trace
          = (newlyAccepted twoOfFiveEnv.accept fiveRequested).take k ∧
        (k = (newlyAccepted twoOfFiveEnv.accept fiveRequested).length ∨
          (k = 0 ∧ roomyCfg.DailyMessages ≤
            readCounter
              (detectAccepted twoOfFiveEnv.requestedOk twoOfFiveEnv.accept fiveRequested).store
              "messages" twoOfFiveEnv.t0 twoOfFiveEnv.ok0) ∨
          (k < (newlyAccepted twoOfFiveEnv.accept fiveRequested).length ∧
            (sendPending roomyCfg twoOfFiveEnv
              (detectAccepted twoOfFiveEnv.requestedOk twoOfFiveEnv.accept
                fiveRequested).store).err = some .cancelled ∧
            (twoOfFiveEnv.follow k).cancelled = true) ∨
          (0 < k ∧ roomyCfg.DailyMessages ≤ readCounter (sendPending roomyCfg twoOfFiveEnv
            (detectAccepted twoOfFiveEnv.requestedOk twoOfFiveEnv.accept
              fiveRequested).store).store "messages"
              (twoOfFiveEnv.follow (k - 1)).tRead (twoOfFiveEnv.follow (k - 1)).readOk))) :=
  have h := acceptance_sweep_effect roomyCfg twoOfFiveEnv fiveRequested (by decide) rfl
    (fun _ => ⟨rfl, rfl⟩)
  ⟨by decide, by decide, by decide, by decide, by decide, by decide,
    ⟨h.1, h.2.2.2.2.2.2.1⟩, h.2.2.2.2.2.2.2 (by decide) rfl roomyCfg_safe.1⟩

end LinkedIn
